import Mathlib

/-
  Verification of the water-sort puzzle solver (python_prototype).

  Shallow embedding of `game.py`, `solver.py`, `solution_postprocess.py` and
  `json_identifier.py`.  Pure functions of the source become Lean functions;
  exceptions (assertion failures, ValueError, IndexError, ZeroDivisionError)
  become `none` of an `Option` result.  Machine integers of the source are
  unbounded Python ints, so they are modelled by `Nat`/`Int` directly.
-/

namespace WaterSort

/-- Colors are opaque equatable values; the prototype uses RGB triples. -/
abbrev Color := Nat × Nat × Nat

/-- `original_pos` of a node: a `(col, row)` pair of Python ints. -/
abbrev Pos := Int × Int

/-- `GameNodeType` enum of game.py (values '?', '!', '.', '_'). -/
inductive GameNodeType where
  | unknown
  | unknownRevealed
  | known
  | empty
deriving DecidableEq, Repr

/-- `GameNode` dataclass of game.py: a tagged node.  The dataclass stores
`color` as an `Optional`; the `__post_init__` asserts force `color = none`
for UNKNOWN / UNKNOWN_REVEALED / EMPTY but place no constraint on KNOWN. -/
structure GameNode where
  node_type : GameNodeType
  original_pos : Pos
  color : Option Color := none
deriving DecidableEq, Repr

/-- `GameMode` enum of game.py (values 0, 1, 2). -/
inductive GameMode where
  | normal
  | noCombo
  | queue
deriving DecidableEq, Repr

/-- Integer value of a GameMode (the enum value in game.py). -/
def GameMode.value : GameMode → Nat
  | .normal => 0
  | .noCombo => 1
  | .queue => 2

/-- Enum name of a GameMode, as used by `game_to_json`. -/
def GameMode.name : GameMode → String
  | .normal => "NORMAL"
  | .noCombo => "NO_COMBO"
  | .queue => "QUEUE"

/-- `GameOperation`: either `OperationStepForward(src, dst)` or the
`OperationUndo` singleton.  Indices produced by `ops()` are non-negative,
so they are modelled as naturals. -/
inductive GameOperation where
  | stepForward (src dst : Nat)
  | undo
deriving DecidableEq, Repr

/-- The immutable `Game` of game.py.  `previous_state` makes the type
recursive, hence an inductive with a single constructor. -/
inductive Game where
  | mk (groups : List (List GameNode)) (group_capacity : Nat) (undo_count : Int)
      (game_mode : GameMode) (contain_unknown : Bool)
      (previous_state : Option Game) (all_revealed : Finset Pos)
      (revealed_new : Bool)

def Game.groups : Game → List (List GameNode)
  | .mk g _ _ _ _ _ _ _ => g

def Game.group_capacity : Game → Nat
  | .mk _ c _ _ _ _ _ _ => c

def Game.undo_count : Game → Int
  | .mk _ _ u _ _ _ _ _ => u

def Game.game_mode : Game → GameMode
  | .mk _ _ _ m _ _ _ _ => m

def Game.contain_unknown : Game → Bool
  | .mk _ _ _ _ b _ _ _ => b

def Game.previous_state : Game → Option Game
  | .mk _ _ _ _ _ p _ _ => p

def Game.all_revealed : Game → Finset Pos
  | .mk _ _ _ _ _ _ r _ => r

def Game.revealed_new : Game → Bool
  | .mk _ _ _ _ _ _ _ b => b

/-- A node is UNKNOWN or UNKNOWN_REVEALED (the two hidden kinds). -/
def GameNode.isUnknownish (n : GameNode) : Bool :=
  n.node_type = GameNodeType.unknown ∨ n.node_type = GameNodeType.unknownRevealed

def GameNode.isEmptyNode (n : GameNode) : Bool :=
  n.node_type = GameNodeType.empty

def GameNode.isKnown (n : GameNode) : Bool :=
  n.node_type = GameNodeType.known

/-! ## Game.__init__ -/

/-- Capacity inference of `Game.__init__`: when no capacity is passed, all
groups must have the same length (otherwise the assertion fails). -/
def inferCapacity (groups : List (List GameNode)) (cap? : Option Nat) : Option Nat :=
  match cap? with
  | some c => some c
  | none =>
      match groups with
      | [] => none            -- set of lengths is empty: assertion fails
      | g :: gs => if gs.all (fun h => h.length = g.length) then some g.length else none

/-- Number of nodes satisfying `p` across all groups. -/
def nodeCount (p : GameNode → Bool) (groups : List (List GameNode)) : Nat :=
  (groups.map (fun g => (g.filter p).length)).sum

/-- Count of KNOWN nodes with color `some c` across all groups (the
`known_color_counter` of the auto-completion step; EMPTY nodes carry no
color and KNOWN nodes with a `None` color are skipped by the source). -/
def knownColorCount (groups : List (List GameNode)) (c : Color) : Nat :=
  nodeCount (fun n => n.isKnown ∧ n.color = some c) groups

/-- Total number of UNKNOWN + UNKNOWN_REVEALED nodes across all groups. -/
def unknownTotal (groups : List (List GameNode)) : Nat :=
  nodeCount (fun n => n.isUnknownish) groups

/-- The distinct KNOWN colors present on the board. -/
def knownColors (groups : List (List GameNode)) : List Color :=
  ((groups.map (fun g => g.filterMap
      (fun n => if n.isKnown then n.color else none))).flatten).dedup

/-- The auto-completion trigger of `Game.__init__`: exactly one color has a
partial count (0 < count < capacity) and the number of hidden units equals
that color's missing quota (and is positive). -/
def autoCompleteTarget (groups : List (List GameNode)) (cap : Nat) : Option Color :=
  match (knownColors groups).filter
      (fun c => 0 < knownColorCount groups c ∧ knownColorCount groups c < cap) with
  | [c] =>
      if unknownTotal groups = cap - knownColorCount groups c ∧ 0 < unknownTotal groups
      then some c else none
  | _ => none

/-- The in-place replacement performed when auto-completion triggers:
every UNKNOWN / UNKNOWN_REVEALED node becomes KNOWN with the target color. -/
def autoCompleteStep (groups : List (List GameNode)) (cap : Nat) : List (List GameNode) :=
  match autoCompleteTarget groups cap with
  | none => groups
  | some c =>
      groups.map (fun g => g.map (fun n =>
        if n.isUnknownish then ⟨GameNodeType.known, n.original_pos, some c⟩ else n))

/-- Trimming loop of `Game.__init__`: walking the group top-down, leading
EMPTY nodes are dropped; an EMPTY below a non-empty node raises ValueError. -/
def trimGroup (g : List GameNode) : Option (List GameNode) :=
  let r := g.reverse.dropWhile (fun n => n.isEmptyNode)
  if r.any (fun n => n.isEmptyNode) then none else some r.reverse

/-- Trimming of all groups in order (the first failing group raises). -/
def trimGroups : List (List GameNode) → Option (List (List GameNode))
  | [] => some []
  | g :: gs => do
      let t ← trimGroup g
      let ts ← trimGroups gs
      return t :: ts

/-- Total node count entering the divisibility assertion: all KNOWN nodes
(whatever their color), plus UNKNOWN, plus UNKNOWN_REVEALED. -/
def countedTotal (groups : List (List GameNode)) : Nat :=
  nodeCount (fun n => ¬ n.isEmptyNode) groups

/-- Count of KNOWN nodes with a given optional color (the node_counter is
keyed on `(node_type, color)` including a possible `None` color). -/
def knownOptColorCount (groups : List (List GameNode)) (c : Option Color) : Nat :=
  nodeCount (fun n => n.isKnown ∧ n.color = c) groups

/-- The per-color node assertion of `Game.__init__`: every KNOWN key of the
node counter (a `(KNOWN, color)` pair, the color possibly `None`) has a
count of at most the capacity. -/
def knownCountsOk (groups : List (List GameNode)) (cap : Nat) : Bool :=
  groups.all (fun g => g.all (fun n =>
    ¬ n.isKnown ∨ knownOptColorCount groups n.color ≤ cap))

/-- `Game.__init__`.  `none` models any raised exception: the capacity
assertion, the ValueError for an EMPTY below a non-empty node, the per-color
count assertion, and the divisibility assertion (a capacity of 0 raises
ZeroDivisionError there). -/
def mkGame (groups0 : List (List GameNode)) (undo : Int) (cap? : Option Nat)
    (mode : GameMode) : Option Game :=
  match inferCapacity groups0 cap? with
  | none => none
  | some cap =>
      let groups := autoCompleteStep groups0 cap
      match trimGroups groups with
      | none => none
      | some trimmed =>
          if knownCountsOk trimmed cap ∧ cap ≠ 0 ∧ countedTotal trimmed % cap = 0 then
            some (Game.mk trimmed cap undo mode
              (groups.any (fun g => g.any (fun n => n.isUnknownish))) none ∅ false)
          else
            none

/-! ## Game.is_group_completed and derived attributes -/

/-- The set of node colors of a group has exactly one element
(`len(set(node.color for node in group)) == 1`). -/
def colorSetSize1 (g : List GameNode) : Bool :=
  (g.map (fun n => n.color)).dedup.length = 1

/-- `Game.is_group_completed`. -/
def isGroupCompleted (cap : Nat) (g : List GameNode) : Bool :=
  g.length = cap ∧ g.all (fun n => n.isKnown) ∧ colorSetSize1 g

/-- `Game.is_winning_state`: every group empty or completed. -/
def Game.is_winning_state (g : Game) : Bool :=
  g.groups.all (fun grp => grp.isEmpty ∨ isGroupCompleted g.group_capacity grp)

/-- Segment count of one group: first node opens a segment; a node opens a
new segment when its type differs from its predecessor, or it is hidden, or
its color differs. -/
def groupSegments : List GameNode → Nat
  | [] => 0
  | n :: rest => 1 + segAux n rest
where
  segAux : GameNode → List GameNode → Nat
    | _, [] => 0
    | prev, n :: rest =>
        (if n.node_type ≠ prev.node_type ∨ n.isUnknownish ∨ n.color ≠ prev.color
         then 1 else 0) + segAux n rest

/-- `Game.segments`. -/
def Game.segments (g : Game) : Nat :=
  (g.groups.map groupSegments).sum

/-- `Game.completed_group_count`. -/
def Game.completed_group_count (g : Game) : Nat :=
  (g.groups.filter (fun grp => isGroupCompleted g.group_capacity grp)).length

/-- `Game.unknown_count` (UNKNOWN nodes only). -/
def Game.unknown_count (g : Game) : Nat :=
  (g.groups.map (fun grp =>
    (grp.filter (fun n => n.node_type = GameNodeType.unknown)).length)).sum

/-! ## Structural key (Game._to_frozensets / _to_hashable) -/

/-- Node descriptor used by `_to_frozensets`: KNOWN nodes contribute
`(tag, color)` (position forgotten), hidden / empty nodes contribute
`(tag, color, original_pos)`.  The two tuple shapes are kept apart by the
`Option Pos` component (`none` exactly for the KNOWN two-tuples). -/
def descOf (n : GameNode) : GameNodeType × Option Color × Option Pos :=
  if n.isKnown then (n.node_type, n.color, none)
  else (n.node_type, n.color, some n.original_pos)

abbrev TubeDesc := List (GameNodeType × Option Color × Option Pos)

instance : DecidableEq TubeDesc := List.hasDecEq

/-- The descriptor tuple a tube contributes to `_to_frozensets`. -/
def tubeDesc (grp : List GameNode) : TubeDesc :=
  grp.map descOf

/-- `Game._to_frozensets`: the unordered collection of per-tube descriptor
tuples (a Python frozenset, so duplicate tubes collapse). -/
def Game.toFrozensets (g : Game) : Finset TubeDesc :=
  (g.groups.map tubeDesc).toFinset

/-- `Game._to_hashable`: the full structural key. -/
def Game.toHashable (g : Game) : Finset TubeDesc × Int :=
  (g.toFrozensets, g.undo_count)

/-- Completion of a tube read off its descriptor tuple: full length, all
tags KNOWN, and a single color value among the descriptors. -/
def completedDesc (cap : Nat) (d : TubeDesc) : Bool :=
  d.length = cap ∧ d.all (fun x => x.1 = GameNodeType.known)
    ∧ (d.map (fun x => x.2.1)).dedup.length = 1

/-! ## Game.ops -/

/-- Destination scan of `ops()`: tubes with length < capacity, keeping only
the first empty tube. -/
def availableDests (g : Game) : List Nat :=
  go 0 g.groups false
where
  go (i : Nat) : List (List GameNode) → Bool → List Nat
    | [], _ => []
    | grp :: rest, emptyFlag =>
        if grp.length < g.group_capacity then
          if grp.length = 0 then
            if emptyFlag then go (i+1) rest emptyFlag
            else i :: go (i+1) rest true
          else i :: go (i+1) rest emptyFlag
        else go (i+1) rest emptyFlag

/-- Skip rule of `ops()`: prevent moving an entire uniform-color group into
an empty tube. -/
def uniformEmptySkip (opItem : GameNode) (srcGroup dstGroup : List GameNode) : Bool :=
  opItem.isKnown ∧ colorSetSize1 srcGroup ∧ dstGroup.length = 0

/-- Dedicated-destination rule of `ops()`: the operative item is KNOWN, the
destination is non-empty, its top has the operative color, and all its
nodes share one color. -/
def dedicatedCond (opItem : GameNode) (dstGroup : List GameNode) : Bool :=
  opItem.isKnown ∧ 0 < dstGroup.length
    ∧ (dstGroup.getLast?.map GameNode.color).getD none = opItem.color
    ∧ colorSetSize1 dstGroup

/-- Empty-destination rule of `ops()`. -/
def emptyCond (dstGroup : List GameNode) : Bool :=
  dstGroup.length = 0

/-- Normal color-match rule of `ops()`: the destination's top is KNOWN with
the operative color. -/
def matchCond (opItem : GameNode) (dstGroup : List GameNode) : Bool :=
  (dstGroup.getLast?.map (fun n => n.isKnown)).getD false
    ∧ (dstGroup.getLast?.map GameNode.color).getD none = opItem.color

/-- The destination group `self.groups[dst]` (always in range when `dst`
comes from the destination scan). -/
def dstGroupAt (g : Game) (dst : Nat) : List GameNode :=
  g.groups.getD dst []

/-- The per-destination candidate rules of `ops()` for a fixed source with
operative item `opItem`: uniform-source-to-empty skip, dedicated
destination, empty destination, normal color match; each destination is
appended at most once (the source's `continue` after each rule). -/
def destCandidates (g : Game) (src : Nat) (srcGroup : List GameNode)
    (opItem : GameNode) : List GameOperation :=
  (availableDests g).filterMap (fun dst =>
    if src = dst then none
    else if uniformEmptySkip opItem srcGroup (dstGroupAt g dst) then none
    else if dedicatedCond opItem (dstGroupAt g dst) then
      some (GameOperation.stepForward src dst)
    else if emptyCond (dstGroupAt g dst) then
      some (GameOperation.stepForward src dst)
    else if matchCond opItem (dstGroupAt g dst) then
      some (GameOperation.stepForward src dst)
    else none)

/-- The operative item of a source group: top for NORMAL / NO_COMBO, bottom
for QUEUE.  `none` when the group is empty (never the case inside `ops`). -/
def operativeItem (mode : GameMode) (grp : List GameNode) : Option GameNode :=
  match mode with
  | .queue => grp.head?
  | _ => grp.getLast?

/-- `Game.ops`. -/
def Game.ops (g : Game) : List GameOperation :=
  let forward :=
    (g.groups.enum.map (fun (src, srcGroup) =>
      if srcGroup.length = 0 then []
      else if isGroupCompleted g.group_capacity srcGroup then []
      else
        match operativeItem g.game_mode srcGroup with
        | none => []
        | some opItem => destCandidates g src srcGroup opItem)).flatten
  if g.contain_unknown ∧ g.previous_state.isSome ∧ 0 < g.undo_count then
    forward ++ [GameOperation.undo]
  else forward

/-! ## Game.apply_op -/

/-- NORMAL-mode pour: repeatedly move the top of src onto dst while src is
non-empty, its top has the operative color, and dst is below capacity.
The source list is passed top-first (reversed) for structural recursion. -/
def pourTopRev (cap : Nat) (c : Option Color) :
    List GameNode → List GameNode → List GameNode × List GameNode
  | [], dst => ([], dst)
  | n :: rest, dst =>
      if n.color = c ∧ dst.length < cap then pourTopRev cap c rest (dst ++ [n])
      else (n :: rest, dst)

/-- QUEUE-mode pour: repeatedly move the bottom of src onto dst while src is
non-empty, its bottom has the operative color, and dst is below capacity. -/
def pourBottom (cap : Nat) (c : Option Color) :
    List GameNode → List GameNode → List GameNode × List GameNode
  | [], dst => ([], dst)
  | n :: rest, dst =>
      if n.color = c ∧ dst.length < cap then pourBottom cap c rest (dst ++ [n])
      else (n :: rest, dst)

/-- Build a Game value with explicit previous/revealed fields (the field
assignments following the constructor call in `apply_op`). -/
def Game.withHistory (g : Game) (prev : Option Game) (rev : Finset Pos)
    (revNew : Bool) : Game :=
  match g with
  | .mk gr c u m cu _ _ _ => .mk gr c u m cu prev rev revNew

/-- The node movement of a StepForward: the pair (new src, new dst) before
the reveal step, as a function of the mode, capacity, operative item and
the two tubes. -/
def movedPair (mode : GameMode) (cap : Nat) (opItem : GameNode)
    (srcGroup dstGroup : List GameNode) : List GameNode × List GameNode :=
  if opItem.node_type = GameNodeType.unknownRevealed then
    -- one node from the END of src (list.pop()), regardless of mode
    (srcGroup.dropLast, dstGroup ++ srcGroup.getLast?.toList)
  else if opItem.isKnown then
    match mode with
    | .noCombo => (srcGroup.dropLast, dstGroup ++ srcGroup.getLast?.toList)
    | .normal =>
        let p := pourTopRev cap opItem.color srcGroup.reverse dstGroup
        (p.1.reverse, p.2)
    | .queue => pourBottom cap opItem.color srcGroup dstGroup
  else
    -- operative item UNKNOWN or EMPTY: no branch of the source moves
    (srcGroup, dstGroup)

/-- The reveal step's position: the `original_pos` of the new top of src
when that top is UNKNOWN. -/
def revealPosOf (srcGroup : List GameNode) : Option Pos :=
  match srcGroup.getLast? with
  | some n => if n.node_type = GameNodeType.unknown then some n.original_pos else none
  | none => none

/-- Rewrite the revealed top of src to UNKNOWN_REVEALED when a reveal
happened. -/
def revealTop (srcGroup : List GameNode) : List GameNode :=
  match revealPosOf srcGroup with
  | some p => srcGroup.dropLast ++ [⟨GameNodeType.unknownRevealed, p, none⟩]
  | none => srcGroup

/-- `Game.apply_op` for `OperationStepForward`.  `none` models a raised
exception (IndexError on a bad index or an empty source, or a constructor
failure).  The source aliases the two lists when `src = dst`; that call
either diverges in the pour loop or degenerates, and is never produced by
`ops()`, so it is modelled as a failure. -/
def applyStepForward (g : Game) (src dst : Nat) : Option Game :=
  if src = dst then none
  else
    match g.groups[src]? with
    | none => none
    | some srcGroup =>
        match g.groups[dst]? with
        | none => none
        | some dstGroup =>
            match operativeItem g.game_mode srcGroup with
            | none => none
            | some opItem =>
                let moved := movedPair g.game_mode g.group_capacity opItem
                  srcGroup dstGroup
                let newGroups :=
                  (g.groups.set src (revealTop moved.1)).set dst moved.2
                match mkGame newGroups g.undo_count (some g.group_capacity)
                    g.game_mode with
                | none => none
                | some base =>
                    match revealPosOf moved.1 with
                    | some p =>
                        some (base.withHistory (some g)
                          (insert p g.all_revealed) true)
                    | none =>
                        some (base.withHistory (some g) g.all_revealed false)

/-- The Undo rebuilding step: every node whose position is in the reveal
set becomes UNKNOWN_REVEALED (color dropped). -/
def revealRewrite (rev : Finset Pos) (grp : List GameNode) : List GameNode :=
  grp.map (fun n =>
    if n.original_pos ∈ rev
    then ⟨GameNodeType.unknownRevealed, n.original_pos, none⟩ else n)

/-- `Game.apply_op` for `OperationUndo`: rebuild the previous Game's tubes,
rewriting every node whose position is in `all_revealed` to
UNKNOWN_REVEALED; undo budget decremented; previous pointer skips to the
grandparent; the reveal set is copied.  `none` models the AttributeError
when `previous_state` is `None`, or a constructor failure. -/
def applyUndo (g : Game) : Option Game :=
  match g.previous_state with
  | none => none
  | some prev =>
      match mkGame (prev.groups.map (revealRewrite g.all_revealed))
          (g.undo_count - 1) (some g.group_capacity) g.game_mode with
      | none => none
      | some base =>
          some (base.withHistory prev.previous_state g.all_revealed base.revealed_new)

/-- `Game.apply_op`. -/
def Game.applyOp (g : Game) : GameOperation → Option Game
  | .stepForward src dst => applyStepForward g src dst
  | .undo => applyUndo g

/-- No EMPTY placeholder appears in any tube (true of every Game the
constructor produces, since trailing EMPTYs are trimmed and any other EMPTY
raises). -/
def noEmptyNodes (groups : List (List GameNode)) : Bool :=
  groups.all (fun grp => grp.all (fun n => ¬ n.isEmptyNode))

/-! ## Concrete boards used by the theorems -/

def red : Color := (255, 0, 0)

def blue : Color := (0, 0, 255)

def knownNode (p : Pos) (c : Color) : GameNode := ⟨GameNodeType.known, p, some c⟩

def unknownNode (p : Pos) : GameNode := ⟨GameNodeType.unknown, p, none⟩

def revealedNode (p : Pos) : GameNode := ⟨GameNodeType.unknownRevealed, p, none⟩

/-- A NORMAL board (capacity 2) where source 0 has a dedicated destination
(tube 1, uniform blue with a blue top) and also an empty destination. -/
def c1Game : Option Game :=
  mkGame [[knownNode (0, 0) red, knownNode (0, 1) blue],
          [knownNode (1, 0) blue], [knownNode (2, 0) red], []]
    5 (some 2) GameMode.normal

/-- A QUEUE board (capacity 2) whose tube 0 has an UNKNOWN_REVEALED bottom
below a KNOWN red top, with an empty destination tube 3. -/
def c2Game : Option Game :=
  mkGame [[revealedNode (0, 0), knownNode (0, 1) red],
          [knownNode (1, 0) red], [unknownNode (2, 0)], []]
    5 (some 2) GameMode.queue

/-- Two tubes, each red-below-blue (capacity 2). -/
def c3GameA : Option Game :=
  mkGame [[knownNode (0, 0) red, knownNode (0, 1) blue],
          [knownNode (1, 0) red, knownNode (1, 1) blue]]
    5 none GameMode.normal

/-- One tube, red-below-blue (capacity 2): same frozenset key as `c3GameA`
because the duplicate tube collapses in the unordered collection. -/
def c3GameB : Option Game :=
  mkGame [[knownNode (0, 0) red, knownNode (0, 1) blue]]
    5 none GameMode.normal

/-- Start of a two-forward-move chain used against the Undo claim. -/
def c6g0 : Option Game :=
  mkGame [[knownNode (0, 0) red, knownNode (0, 1) blue],
          [knownNode (1, 0) blue, knownNode (1, 1) red], []]
    5 (some 2) GameMode.normal

def c6g1 : Option Game :=
  c6g0.bind (fun g => g.applyOp (GameOperation.stepForward 0 2))

def c6g2 : Option Game :=
  c6g1.bind (fun g => g.applyOp (GameOperation.stepForward 1 2))

/-- The §3 construction invariants of a Game: tube lengths bounded by the
capacity, each KNOWN color key counted at most `capacity` times, the
non-empty node total a multiple of the capacity, no EMPTY placeholder in
any tube (§3: EMPTY never appears in a canonicalized Game, which subsumes
"no EMPTY below a non-empty node"), and `contain_unknown` equal to the
disjunction over all tubes. -/
def InvGame (g : Game) : Bool :=
  g.groups.all (fun grp => grp.length ≤ g.group_capacity) ∧
  knownCountsOk g.groups g.group_capacity ∧
  countedTotal g.groups % g.group_capacity = 0 ∧
  noEmptyNodes g.groups ∧
  (g.contain_unknown = g.groups.any (fun grp => grp.any (fun n => n.isUnknownish)))

/-- The pre-move Game of the frame-property witness. -/
def c10Game : Game :=
  Game.mk [[knownNode (0, 0) red, knownNode (0, 1) blue],
           [knownNode (1, 0) blue, knownNode (1, 1) red], []]
    2 5 GameMode.normal false none ∅ false

/-- The Game obtained from `c10Game` by the StepForward `0 → 2`. -/
def c10Game' : Game :=
  (Game.mk [[knownNode (0, 0) red],
            [knownNode (1, 0) blue, knownNode (1, 1) red],
            [knownNode (0, 1) blue]]
    2 5 GameMode.normal false none ∅ false).withHistory (some c10Game) ∅ false

/-! ## JSON identifier (json_identifier.py / Game.to_json) -/

/-- The string value of a `GameNodeType`, as in the Python enum
(`"?"`, `"!"`, `"."`, `"_"`). -/
def nodeTypeValue : GameNodeType → String
  | GameNodeType.unknown => "?"
  | GameNodeType.unknownRevealed => "!"
  | GameNodeType.known => "."
  | GameNodeType.empty => "_"

/-- `GameNodeType(s)`: enum lookup by value; a ValueError is `none`. -/
def nodeTypeOfString (s : String) : Option GameNodeType :=
  if s = "?" then some GameNodeType.unknown
  else if s = "!" then some GameNodeType.unknownRevealed
  else if s = "." then some GameNodeType.known
  else if s = "_" then some GameNodeType.empty
  else none

/-- Value of one hexadecimal digit, upper or lower case.  (Python
`int(-, 16)` additionally tolerates surrounding whitespace and a sign,
which no two-character slice of a color string exercises here.) -/
def hexDigitVal (c : Char) : Option Nat :=
  if '0' ≤ c ∧ c ≤ '9' then some (c.toNat - Char.toNat '0')
  else if 'a' ≤ c ∧ c ≤ 'f' then some (c.toNat - Char.toNat 'a' + 10)
  else if 'A' ≤ c ∧ c ≤ 'F' then some (c.toNat - Char.toNat 'A' + 10)
  else none

/-- `int(two-character slice, 16)`. -/
def hexPairVal (c1 c2 : Char) : Option Nat :=
  match hexDigitVal c1, hexDigitVal c2 with
  | some a, some b => some (16 * a + b)
  | _, _ => none

/-- `hex_to_rgb`: strip every leading `#`, require exactly six remaining
characters, and parse three two-digit pairs; ValueError is `none`. -/
def hex_to_rgb (s : String) : Option Color :=
  match s.data.dropWhile (fun c => c = '#') with
  | [r1, r2, g1, g2, b1, b2] =>
      match hexPairVal r1 r2, hexPairVal g1 g2, hexPairVal b1 b2 with
      | some r, some g, some b => some (r, g, b)
      | _, _, _ => none
  | _ => none

/-- `"%02x"`: lowercase hexadecimal, left-padded with zeros to width two. -/
def hexPad2 (n : Nat) : List Char :=
  let ds := Nat.toDigits 16 n
  if ds.length < 2 then '0' :: ds else ds

/-- `rgb_to_hex`: `"#%02x%02x%02x" % rgb` (lowercase hex digits). -/
def rgb_to_hex (c : Color) : String :=
  String.mk ('#' :: (hexPad2 c.1 ++ hexPad2 c.2.1 ++ hexPad2 c.2.2))

/-- A node object of the board JSON: `nodeType`, `originalPos`, and an
optional `color` string (a missing key is `none`). -/
structure NodeJson where
  nodeType : String
  originalPos : Pos
  color : Option String
deriving DecidableEq, Repr

/-- The board JSON object, restricted to the fields that `game_from_json`
reads and `game_to_json` writes.  A missing optional key is `none`; the
`gameMode` key holds the enum-name string, the legacy `mode` key the
numeric enum value.  The output-only fields `cols` and `colors` are
derived from `groups` and are not modelled. -/
structure BoardJson where
  groups : List (List NodeJson)
  undoCount : Option Int
  gameMode : Option String
  mode : Option Nat
  groupCapacity : Option Nat
  rows : Option Nat
deriving DecidableEq, Repr

/-- `node_from_json`: parse one node object; any ValueError (unknown
nodeType, KNOWN node missing its color, bad hex string) is `none`.  A
color key on a non-KNOWN node is ignored, as in the source. -/
def node_from_json (nd : NodeJson) : Option GameNode :=
  match nodeTypeOfString nd.nodeType with
  | none => none
  | some t =>
      if t = GameNodeType.known then
        match nd.color with
        | none => none
        | some s =>
            match hex_to_rgb s with
            | none => none
            | some c => some ⟨t, nd.originalPos, some c⟩
      else some ⟨t, nd.originalPos, none⟩

/-- `GameMode[name]`: enum lookup by member name. -/
def modeFromName (s : String) : Option GameMode :=
  if s = "NORMAL" then some GameMode.normal
  else if s = "NO_COMBO" then some GameMode.noCombo
  else if s = "QUEUE" then some GameMode.queue
  else none

/-- `GameMode(value)`: enum lookup by numeric value. -/
def modeFromValue (n : Nat) : Option GameMode :=
  if n = 0 then some GameMode.normal
  else if n = 1 then some GameMode.noCombo
  else if n = 2 then some GameMode.queue
  else none

/-- The game-mode parsing of `game_from_json`: the `gameMode` field wins
over the legacy `mode` field; a name string is tried first, then a
numeric string; every failure falls back silently to NORMAL. -/
def parseMode (gameMode : Option String) (mode : Option Nat) : GameMode :=
  match gameMode with
  | some s =>
      match modeFromName s with
      | some m => m
      | none =>
          match s.toInt? with
          | some n =>
              if 0 ≤ n then (modeFromValue n.toNat).getD GameMode.normal
              else GameMode.normal
          | none => GameMode.normal
  | none =>
      match mode with
      | some n => (modeFromValue n).getD GameMode.normal
      | none => GameMode.normal

/-- `[node_from_json(n) for n in g]`: the first ValueError aborts. -/
def parseNodes : List NodeJson → Option (List GameNode)
  | [] => some []
  | nd :: rest =>
      match node_from_json nd, parseNodes rest with
      | some n, some ns => some (n :: ns)
      | _, _ => none

/-- The groups loop of `game_from_json`. -/
def parseGroups : List (List NodeJson) → Option (List (List GameNode))
  | [] => some []
  | tube :: rest =>
      match parseNodes tube, parseGroups rest with
      | some g2, some gs => some (g2 :: gs)
      | _, _ => none

/-- `game_from_json` on an already-decoded board object: parse the node
grid, default `undoCount` to 5, take `groupCapacity` with `rows` as
fallback, parse the mode, and run the `Game` constructor. -/
def game_from_json (b : BoardJson) : Option Game :=
  match parseGroups b.groups with
  | none => none
  | some groups =>
      mkGame groups (b.undoCount.getD 5)
        (b.groupCapacity.orElse (fun _ => b.rows))
        (parseMode b.gameMode b.mode)

/-- `Game.to_json`'s node serialisation composed with the hex conversion
in `game_to_json`: the color key is present iff the node is KNOWN with a
color, and holds the lowercase `#rrggbb` string. -/
def node_to_json (n : GameNode) : NodeJson :=
  ⟨nodeTypeValue n.node_type, n.original_pos,
    match n.node_type, n.color with
    | GameNodeType.known, some c => some (rgb_to_hex c)
    | _, _ => none⟩

/-- `game_to_json`: serialise the tubes and `undoCount` (`Game.to_json`)
and add `gameMode` (enum name), `groupCapacity`, and the compatibility
fields `mode` (enum value) and `rows`. -/
def game_to_json (g : Game) : BoardJson :=
  ⟨g.groups.map (fun tube => tube.map node_to_json),
   some g.undo_count, some g.game_mode.name, some g.game_mode.value,
   some g.group_capacity, some g.group_capacity⟩

/-- A node object in the serialiser's canonical form: a KNOWN node
carries a color string that parses and re-serialises to itself (in
particular lowercase hex); every other node carries no color key. -/
def canonicalNode (nd : NodeJson) : Bool :=
  if nd.nodeType = "." then
    match nd.color with
    | some s => (hex_to_rgb s).map rgb_to_hex = some s
    | none => false
  else nd.color = none

/-- A valid board JSON per the schema (nodeType may be `"_"`): one tube
holding a single EMPTY node, capacity 1. -/
def c9Board : BoardJson :=
  ⟨[[⟨"_", (0, 0), none⟩]], some 5, some ("NORMAL"), none, some 1, none⟩

/-- A fully-known two-tube board in canonical serialised form. -/
def c9GoodBoard : BoardJson :=
  ⟨[[⟨".", (0, 0), some ("#ff0000")⟩, ⟨".", (0, 1), some ("#0000ff")⟩],
    [⟨".", (1, 0), some ("#0000ff")⟩, ⟨".", (1, 1), some ("#ff0000")⟩]],
   some 5, some ("NORMAL"), none, some 2, none⟩

/-- The node grid `game_from_json` parses out of `c9GoodBoard`. -/
def c9Gs : List (List GameNode) :=
  [[⟨GameNodeType.known, (0, 0), some (255, 0, 0)⟩,
    ⟨GameNodeType.known, (0, 1), some (0, 0, 255)⟩],
   [⟨GameNodeType.known, (1, 0), some (0, 0, 255)⟩,
    ⟨GameNodeType.known, (1, 1), some (255, 0, 0)⟩]]

/-- The Game `game_from_json` builds from `c9GoodBoard`. -/
def c9GoodGame : Game :=
  Game.mk c9Gs 2 5 GameMode.normal false none ∅ false

/-! ## Solver (solver.py, solve_no_unknown) -/

/-- `SearchState`: a game, the path that led to it, and the instance id
used as the final tie-breaker of the priority tuple. -/
structure SearchState where
  state_game : Game
  path : List GameOperation
  instance_id : Nat

/-- The priority tuple of `SearchState.value` in its fully-known branch
(`_contain_unknown` false): path length, then the structural heuristic
`(segments, completed_group_count)`, then the instance id.
`solve_no_unknown` is documented and used for fully-known starting boards
only, and every successor of a fully-known game is again fully known, so
this is the tuple every comparison in its queue evaluates. -/
def SearchState.value (s : SearchState) : Nat × Nat × Nat × Nat :=
  (s.path.length, s.state_game.segments,
   s.state_game.completed_group_count, s.instance_id)

/-- Lexicographic `<` on priority tuples (`SearchState.__lt__`). -/
def SearchState.valueLt (a b : SearchState) : Bool :=
  a.value.1 < b.value.1 ∨ (a.value.1 = b.value.1 ∧
    (a.value.2.1 < b.value.2.1 ∨ (a.value.2.1 = b.value.2.1 ∧
      (a.value.2.2.1 < b.value.2.2.1 ∨ (a.value.2.2.1 = b.value.2.2.1 ∧
        a.value.2.2.2 < b.value.2.2.2)))))

/-- `heapq.heappop`: extract a minimal element of the frontier.  The heap's
internal array layout is irrelevant to the search result, so the frontier
is kept as a plain list and the minimum extracted directly. -/
def popMin : SearchState → List SearchState → SearchState × List SearchState
  | x, [] => (x, [])
  | x, y :: rest =>
      if SearchState.valueLt y x then
        ((popMin y rest).1, x :: (popMin y rest).2)
      else
        ((popMin x rest).1, y :: (popMin x rest).2)

/-- `discovered_dict`, an association list keyed on `_to_frozensets`:
assignment prepends, lookup takes the newest binding. -/
def lookupKey : List (Finset TubeDesc × Int) → Finset TubeDesc → Option Int
  | [], _ => none
  | (k0, u) :: rest, k => if k0 = k then some u else lookupKey rest k

/-- The push loop of an expanded state: one new SearchState per op, with
`state_game.apply_op(op)` and the extended path; instance ids are assigned
in order.  An exception raised inside `apply_op` propagates out of
`solve_no_unknown` (nothing catches it), modelled as `none`. -/
def pushSuccessors (g : Game) (path : List GameOperation) (nid : Nat) :
    List GameOperation → Option (List SearchState)
  | [] => some []
  | op :: rest =>
      match g.applyOp op with
      | none => none
      | some g2 =>
          match pushSuccessors g path (nid + 1) rest with
          | none => none
          | some ss => some (⟨g2, path ++ [op], nid⟩ :: ss)

/-- The while loop of `solve_no_unknown`, with explicit fuel; `none` is
the model artifact for exhausted fuel or a crashed `apply_op`.  The two
prunings against `best_solution_length` are omitted: that variable is
assigned only in the same iteration as a `return`, so it is infinite at
every comparison the loop actually performs.  When the frontier empties,
the source returns `start_state`. -/
def solveNoUnknownGo (start : SearchState) :
    Nat → List SearchState → List (Finset TubeDesc × Int) → Nat →
    Option SearchState
  | 0, _, _, _ => none
  | _ + 1, [], _, _ => some start
  | fuel + 1, x :: xs, disc, nid =>
      if (match lookupKey disc (popMin x xs).1.state_game.toFrozensets with
          | some u => decide ((popMin x xs).1.state_game.undo_count ≤ u)
          | none => false) = true then
        solveNoUnknownGo start fuel (popMin x xs).2 disc nid
      else if (popMin x xs).1.state_game.is_winning_state then
        some (popMin x xs).1
      else
        match pushSuccessors (popMin x xs).1.state_game (popMin x xs).1.path
            nid ((popMin x xs).1.state_game.ops) with
        | none => none
        | some succs =>
            solveNoUnknownGo start fuel ((popMin x xs).2 ++ succs)
              (((popMin x xs).1.state_game.toFrozensets,
                (popMin x xs).1.state_game.undo_count) :: disc)
              (nid + succs.length)

/-- `solve_no_unknown`: queue seeded with the start state, empty
discovered dict. -/
def solve_no_unknown (start : SearchState) (fuel : Nat) : Option SearchState :=
  solveNoUnknownGo start fuel [start] [] (start.instance_id + 1)

/-- One legal operation leads from `g` to `g2`. -/
def StepsTo (g g2 : Game) : Prop :=
  ∃ op, op ∈ g.ops ∧ g.applyOp op = some g2

/-- Reachability by sequences of legal operations. -/
inductive Reaches : Game → Game → Prop
  | refl (g : Game) : Reaches g g
  | tail {g1 g2 g3 : Game} : Reaches g1 g2 → StepsTo g2 g3 → Reaches g1 g3

/-- All descriptor lists of length at most `k` over a finite descriptor
set `D`: a finite universe containing every per-tube key of a game whose
nodes draw their descriptors from `D`. -/
def listsUpTo (D : Finset (GameNodeType × Option Color × Option Pos)) :
    Nat → Finset TubeDesc
  | 0 => {[]}
  | k + 1 => {[]} ∪ D.biUnion (fun d => (listsUpTo D k).image (fun l => d :: l))

/-- The state properties preserved by every legal operation on a
fully-known game: the constructor invariants, no hidden nodes, and the
frame data (capacity, undo budget, tube count, descriptor universe) of the
start game. -/
def Conform (D : Finset (GameNodeType × Option Color × Option Pos))
    (cap : Nat) (u : Int) (n : Nat) (g : Game) : Prop :=
  InvGame g = true ∧ g.contain_unknown = false ∧
  g.group_capacity = cap ∧ g.undo_count = u ∧ g.groups.length = n ∧
  (∀ t ∈ g.groups, ∀ nd ∈ t, descOf nd ∈ D)

/-- A fully-known unsolvable board: two tubes, each full with the two
colors interleaved, and no empty tube; `ops()` is empty on it. -/
def c8Game : Game :=
  Game.mk [[knownNode (0, 0) red, knownNode (0, 1) blue],
           [knownNode (1, 0) blue, knownNode (1, 1) red]]
    2 5 GameMode.normal false none ∅ false

/-! ## Solution post-processing (solution_postprocess.py / solver.solve) -/

/-- Apply a list of operations in order; a raised exception aborts. -/
def applySeq (g : Game) : List GameOperation → Option Game
  | [] => some g
  | op :: rest =>
      match g.applyOp op with
      | none => none
      | some g2 => applySeq g2 rest

/-- The op `(src, dst)` touches tube `t`. -/
def touchesB (p : Nat × Nat) (t : Nat) : Bool :=
  p.1 = t ∨ p.2 = t

/-- Two ops share a tube.  The dependency graph built by
`solution_to_graph` chains, per tube, each op to the previous op touching
that tube, so two ops are ordered by the graph exactly when they share a
tube (transitively through the chain); a topological order of the graph —
such as the one `priority_topo_sort` yields — preserves the original
relative order of every tube-sharing pair, and that is the property the
reordering theorem assumes of the emitted order. -/
def sharesTubeB (a b : Nat × Nat) : Bool :=
  a.1 = b.1 ∨ a.1 = b.2 ∨ a.2 = b.1 ∨ a.2 = b.2

/-- The stage of tube `t` after the ops with indices in `Q` have been
performed: one past the largest performed index touching `t`, 0 if none. -/
def stage (opsL : List (Nat × Nat)) (Q : List Nat) (t : Nat) : Nat :=
  (Q.filter (fun i => touchesB (opsL.getD i (0, 0)) t)).foldr
    (fun i acc => max (i + 1) acc) 0

/-- The integer-node edges `solution_to_graph` adds: for each op `i`, one
edge from the most recent previous op touching `src_i` and one from the
most recent previous op touching `dst_i` (the `last_op_on_group_index`
bookkeeping). -/
def depEdge (opsL : List (Nat × Nat)) (j i : Nat) : Prop :=
  j < i ∧ i < opsL.length ∧
  ∃ t, touchesB (opsL.getD j (0, 0)) t = true ∧
    touchesB (opsL.getD i (0, 0)) t = true ∧
    (t = (opsL.getD i (0, 0)).1 ∨ t = (opsL.getD i (0, 0)).2) ∧
    ∀ m, j < m → m < i → touchesB (opsL.getD m (0, 0)) t = false

/-- `a` occurs before `b` wherever the two occur in the emitted order. -/
def beforeIn (π : List Nat) (a b : Nat) : Prop :=
  ∀ p q, p < π.length → q < π.length →
    π.getD p 0 = a → π.getD q 0 = b → p < q

/-- A one-move solvable NORMAL board for the reordering witness. -/
def c5g0 : Game :=
  Game.mk [[knownNode (0, 0) red], [knownNode (1, 0) red]]
    2 5 GameMode.normal false none ∅ false

/-- The winning state `apply_op(0 → 1)` produces from `c5g0`. -/
def c5g1 : Game :=
  (Game.mk [[], [knownNode (1, 0) red, knownNode (0, 0) red]]
    2 5 GameMode.normal false none ∅ false).withHistory (some c5g0) ∅ false

/-! ## Theorems -/

/-- Membership in the per-source candidate list of `ops()`. -/
theorem mem_destCandidates_iff (g : Game) (s src dst : Nat)
    (srcGroup : List GameNode) (opItem : GameNode) :
    GameOperation.stepForward src dst ∈ destCandidates g s srcGroup opItem ↔
      src = s ∧ dst ∈ availableDests g ∧ s ≠ dst ∧
      uniformEmptySkip opItem srcGroup (dstGroupAt g dst) = false ∧
      (dedicatedCond opItem (dstGroupAt g dst) = true
        ∨ emptyCond (dstGroupAt g dst) = true
        ∨ matchCond opItem (dstGroupAt g dst) = true) := by
  unfold destCandidates
  simp only [List.mem_filterMap]
  constructor
  · rintro ⟨d, hd, h⟩
    by_cases h1 : s = d
    · rw [if_pos h1] at h; exact absurd h (by simp)
    rw [if_neg h1] at h
    by_cases h2 : uniformEmptySkip opItem srcGroup (dstGroupAt g d) = true
    · rw [if_pos h2] at h; exact absurd h (by simp)
    rw [if_neg h2] at h
    have key : GameOperation.stepForward s d = GameOperation.stepForward src dst ∧
        (dedicatedCond opItem (dstGroupAt g d) = true
          ∨ emptyCond (dstGroupAt g d) = true
          ∨ matchCond opItem (dstGroupAt g d) = true) := by
      by_cases h3 : dedicatedCond opItem (dstGroupAt g d) = true
      · rw [if_pos h3] at h; exact ⟨Option.some.inj h, Or.inl h3⟩
      rw [if_neg h3] at h
      by_cases h4 : emptyCond (dstGroupAt g d) = true
      · rw [if_pos h4] at h; exact ⟨Option.some.inj h, Or.inr (Or.inl h4)⟩
      rw [if_neg h4] at h
      by_cases h5 : matchCond opItem (dstGroupAt g d) = true
      · rw [if_pos h5] at h; exact ⟨Option.some.inj h, Or.inr (Or.inr h5)⟩
      rw [if_neg h5] at h; exact absurd h (by simp)
    obtain ⟨heq, hrule⟩ := key
    obtain ⟨rfl, rfl⟩ := GameOperation.stepForward.inj heq
    exact ⟨rfl, hd, h1, Bool.eq_false_iff.mpr h2, hrule⟩
  · rintro ⟨rfl, hd, hne, hskip, hrule⟩
    refine ⟨dst, hd, ?_⟩
    rw [if_neg hne]
    rw [if_neg (by simp [hskip])]
    rcases hrule with h | h | h
    · rw [if_pos h]
    · by_cases hded : dedicatedCond opItem (dstGroupAt g dst) = true
      · rw [if_pos hded]
      · rw [if_neg hded, if_pos h]
    · by_cases hded : dedicatedCond opItem (dstGroupAt g dst) = true
      · rw [if_pos hded]
      · rw [if_neg hded]
        by_cases hemp : emptyCond (dstGroupAt g dst) = true
        · rw [if_pos hemp]
        · rw [if_neg hemp, if_pos h]

/-- Characterisation of StepForward membership in `ops()`: src is a legal
source (non-empty, not completed, with an operative item), dst is an
available destination other than src, the uniform-source-to-empty skip
does not apply, and one of the three rules — dedicated destination, empty
destination, color match — holds. -/
theorem ops_forward_membership (g : Game) (src dst : Nat) :
    GameOperation.stepForward src dst ∈ g.ops ↔
      ∃ srcGroup opItem,
        g.groups[src]? = some srcGroup ∧
        srcGroup.length ≠ 0 ∧
        isGroupCompleted g.group_capacity srcGroup = false ∧
        operativeItem g.game_mode srcGroup = some opItem ∧
        dst ∈ availableDests g ∧ src ≠ dst ∧
        uniformEmptySkip opItem srcGroup (dstGroupAt g dst) = false ∧
        (dedicatedCond opItem (dstGroupAt g dst) = true
          ∨ emptyCond (dstGroupAt g dst) = true
          ∨ matchCond opItem (dstGroupAt g dst) = true) := by
  have hstep : GameOperation.stepForward src dst ∈ g.ops ↔
      GameOperation.stepForward src dst ∈
        (g.groups.enum.map (fun (p : Nat × List GameNode) =>
          if p.2.length = 0 then []
          else if isGroupCompleted g.group_capacity p.2 then []
          else
            match operativeItem g.game_mode p.2 with
            | none => []
            | some opItem => destCandidates g p.1 p.2 opItem)).flatten := by
    show GameOperation.stepForward src dst ∈
        (if g.contain_unknown ∧ g.previous_state.isSome ∧ 0 < g.undo_count
         then _ ++ [GameOperation.undo] else _) ↔ _
    split
    · simp
    · rfl
  rw [hstep, List.mem_flatten]
  constructor
  · rintro ⟨l, hl, hmem⟩
    rw [List.mem_map] at hl
    obtain ⟨⟨i, grp⟩, hi, rfl⟩ := hl
    rw [List.mk_mem_enum_iff_getElem?] at hi
    simp only at hmem
    split at hmem
    · simp at hmem
    · split at hmem
      · simp at hmem
      · split at hmem
        · simp at hmem
        · rename_i opItem hop
          rw [mem_destCandidates_iff] at hmem
          obtain ⟨rfl, hd, hne, hskip, hrule⟩ := hmem
          exact ⟨grp, opItem, hi, by assumption, by simpa using (by assumption : ¬ isGroupCompleted g.group_capacity grp = true), hop, hd, hne, hskip, hrule⟩
  · rintro ⟨srcGroup, opItem, hsrc, hlen, hcomp, hop, hd, hne, hskip, hrule⟩
    refine ⟨destCandidates g src srcGroup opItem, ?_, ?_⟩
    · rw [List.mem_map]
      refine ⟨(src, srcGroup), ?_, ?_⟩
      · rw [List.mk_mem_enum_iff_getElem?]; exact hsrc
      · simp only
        rw [if_neg hlen, if_neg (by simp [hcomp]), hop]
    · rw [mem_destCandidates_iff]
      exact ⟨rfl, hd, hne, hskip, hrule⟩

/-- C1 (amended).  A `StepForward(src, dst)` is emitted by `ops()` iff src
is a legal source (non-empty, not completed, with an operative item), dst
is an available destination other than src, the uniform-source-to-empty
skip does not apply, and one of the three rules — dedicated destination,
empty destination, color match — holds.  In particular a dedicated
destination for src is always emitted, but it does not clear or override
the other candidates for that src: empty-destination and color-match moves
from the same src are emitted alongside it. -/
theorem c1_ops_forward_membership (g : Game) (src dst : Nat) :
    GameOperation.stepForward src dst ∈ g.ops ↔
      ∃ srcGroup opItem,
        g.groups[src]? = some srcGroup ∧
        srcGroup.length ≠ 0 ∧
        isGroupCompleted g.group_capacity srcGroup = false ∧
        operativeItem g.game_mode srcGroup = some opItem ∧
        dst ∈ availableDests g ∧ src ≠ dst ∧
        uniformEmptySkip opItem srcGroup (dstGroupAt g dst) = false ∧
        (dedicatedCond opItem (dstGroupAt g dst) = true
          ∨ emptyCond (dstGroupAt g dst) = true
          ∨ matchCond opItem (dstGroupAt g dst) = true) :=
  ops_forward_membership g src dst

/-- C1 counterexample.  On this board tube 1 is a dedicated destination for
source 0 (its operative item is the KNOWN blue top, tube 1 is non-empty,
uniformly blue, with a blue top), yet `ops()` emits TWO StepForwards for
source 0: the dedicated `0 → 1` and also the empty-destination `0 → 3`.
The dedicated rule appends its candidate and keeps scanning; it does not
clear or override the other candidates for that source. -/
theorem c1_dedicated_not_exclusive_cex :
    c1Game.map (fun g =>
      (g.ops,
       operativeItem g.game_mode (g.groups.getD 0 []),
       dedicatedCond (knownNode (0, 1) blue) (g.groups.getD 1 [])))
    = some ([GameOperation.stepForward 0 1, GameOperation.stepForward 0 3],
        some (knownNode (0, 1) blue), true) := by
  decide

/-- C2: evaluation of the code at the failing input.  Mode is QUEUE, the
operative item of source 0 is its bottom node (UNKNOWN_REVEALED at
position (0,0)), and `0 → 3` is enumerated by `ops()`.  Applying it,
`apply_op` executes `dst_group.append(src_group.pop())`, which moves the
KNOWN red TOP node (position (0,1)) to tube 3 and leaves the
UNKNOWN_REVEALED bottom in place — not the single operative-end node the
claim (and spec) require. -/
theorem c2_queue_revealed_moves_top_not_bottom :
    c2Game.map (fun g =>
      (g.game_mode, operativeItem g.game_mode (g.groups.getD 0 []), g.ops))
      = some (GameMode.queue, some (revealedNode (0, 0)),
          [GameOperation.stepForward 0 3, GameOperation.stepForward 2 3]) ∧
    (c2Game.bind (fun g => g.applyOp (GameOperation.stepForward 0 3))).map Game.groups
      = some [[revealedNode (0, 0)], [knownNode (1, 0) red],
              [unknownNode (2, 0)], [knownNode (0, 1) red]] := by
  constructor
  · decide
  · decide

/-- C3 counterexample.  `c3GameA` (two red-blue tubes) and `c3GameB` (one
red-blue tube) have equal full hashable keys — the frozenset of per-tube
descriptor tuples collapses the duplicate tube — and equal undo counts,
yet `segments` is 4 for the first and 2 for the second. -/
theorem c3_key_equal_segments_differ_cex :
    c3GameA.map Game.toHashable = c3GameB.map Game.toHashable ∧
    c3GameA.map Game.segments = some 4 ∧
    c3GameB.map Game.segments = some 2 := by
  refine ⟨?_, by decide, by decide⟩
  decide

theorem descOf_fst (n : GameNode) : (descOf n).1 = n.node_type := by
  unfold descOf; split <;> rfl

theorem descOf_color (n : GameNode) : (descOf n).2.1 = n.color := by
  unfold descOf; split <;> rfl

theorem tubeDesc_length (grp : List GameNode) : (tubeDesc grp).length = grp.length :=
  List.length_map _ _

theorem tubeDesc_colors (grp : List GameNode) :
    (tubeDesc grp).map (fun x => x.2.1) = grp.map (fun n => n.color) := by
  unfold tubeDesc
  rw [List.map_map]
  exact List.map_congr_left (fun n _ => descOf_color n)

theorem all_map_aux {α β : Type _} (f : α → β) (p : β → Bool) (l : List α) :
    (l.map f).all p = l.all (fun a => p (f a)) := by
  induction l with
  | nil => rfl
  | cons a l ih => simp [ih]

/-- A tube is completed iff its descriptor tuple is. -/
theorem isGroupCompleted_eq_desc (cap : Nat) (grp : List GameNode) :
    isGroupCompleted cap grp = completedDesc cap (tubeDesc grp) := by
  unfold isGroupCompleted completedDesc colorSetSize1 tubeDesc GameNode.isKnown
  rw [List.length_map, all_map_aux, List.map_map]
  simp only [Function.comp_def, descOf_fst, descOf_color]
  rw [decide_eq_decide]
  simp

/-- `is_winning_state` is determined by the frozenset key together with the
capacity: every descriptor in the key is empty or completed. -/
theorem is_winning_state_iff_desc (g : Game) :
    g.is_winning_state = true ↔
      ∀ d ∈ g.toFrozensets, d = [] ∨ completedDesc g.group_capacity d = true := by
  unfold Game.is_winning_state Game.toFrozensets
  rw [List.all_eq_true]
  constructor
  · intro h d hd
    rw [List.mem_toFinset, List.mem_map] at hd
    obtain ⟨grp, hg, rfl⟩ := hd
    have h2 := h grp hg
    rcases (by simpa using h2 :
        grp.isEmpty = true ∨ isGroupCompleted g.group_capacity grp = true) with he | hc
    · left
      have hnil : grp = [] := by simpa using he
      unfold tubeDesc
      simp [hnil]
    · right
      rw [← isGroupCompleted_eq_desc]
      exact hc
  · intro h grp hg
    have h2 := h (tubeDesc grp)
      (by rw [List.mem_toFinset, List.mem_map]; exact ⟨grp, hg, rfl⟩)
    rcases h2 with he | hc
    · have : grp = [] := by
        unfold tubeDesc at he
        exact List.map_eq_nil_iff.mp he
      simp [this]
    · rw [← isGroupCompleted_eq_desc] at hc
      simp [hc]

/-- Auxiliary: a list filtered by a predicate under which every element has
multiplicity at most one has as many elements as the filtered toFinset. -/
theorem filter_length_eq_card_of_count_le_one {α : Type _} [DecidableEq α]
    (L : List α) (p : α → Bool)
    (h : ∀ a, p a = true → L.countP (fun b => b = a) ≤ 1) :
    (L.filter p).length = (L.toFinset.filter (fun a => p a = true)).card := by
  induction L with
  | nil => simp
  | cons a L ih =>
    have hL : ∀ b, p b = true → L.countP (fun c => c = b) ≤ 1 := by
      intro b hb
      have hc := h b hb
      by_cases hab : a = b
      · rw [List.countP_cons_of_pos _ _ (by simp [hab])] at hc
        omega
      · rwa [List.countP_cons_of_neg _ _ (by simp [hab])] at hc
    by_cases hpa : p a = true
    · have hnm : a ∉ L := by
        have hc := h a hpa
        rw [List.countP_cons_of_pos _ _ (by simp)] at hc
        have hz : L.countP (fun c => c = a) = 0 := by omega
        intro hmem
        have : 0 < L.countP (fun c => c = a) :=
          List.countP_pos_iff.mpr ⟨a, hmem, decide_eq_true rfl⟩
        omega
      rw [List.filter_cons_of_pos hpa, List.toFinset_cons, Finset.filter_insert,
        if_pos hpa]
      rw [List.length_cons, ih hL,
        Finset.card_insert_of_not_mem (by simp [List.mem_toFinset, hnm])]
    · rw [List.filter_cons_of_neg hpa, List.toFinset_cons, Finset.filter_insert,
        if_neg hpa, ih hL]

/-- Auxiliary: two elements satisfying `p`, each with `f`-value at least
`k`, force the mapped sum to be at least `2 * k`. -/
theorem two_le_countP_sum_bound {α : Type _} (l : List α) (p : α → Bool)
    (f : α → Nat) (k : Nat) (hf : ∀ a ∈ l, p a = true → k ≤ f a)
    (h2 : 2 ≤ l.countP p) : 2 * k ≤ (l.map f).sum := by
  induction l with
  | nil => simp at h2
  | cons a l ih =>
    by_cases hpa : p a = true
    · rw [List.countP_cons_of_pos _ _ hpa] at h2
      obtain ⟨b, hb, hpb⟩ := List.countP_pos_iff.mp (by omega : 0 < l.countP p)
      have hfb : k ≤ f b := hf b (List.mem_cons_of_mem _ hb) hpb
      have hfa : k ≤ f a := hf a (List.mem_cons_self _ _) hpa
      have hsum : f b ≤ (l.map f).sum :=
        List.single_le_sum (by simp) _ (List.mem_map_of_mem f hb)
      rw [List.map_cons, List.sum_cons]
      omega
    · rw [List.countP_cons_of_neg _ _ hpa] at h2
      have := ih (fun x hx hp => hf x (List.mem_cons_of_mem _ hx) hp) h2
      rw [List.map_cons, List.sum_cons]
      omega

/-- Under the constructor's per-color count assertion, a completed
descriptor appears at most once among the per-tube descriptor tuples: two
tubes with the same completed descriptor would hold `2 * capacity` nodes of
one color. -/
theorem completed_tube_count_le_one (groups : List (List GameNode)) (cap : Nat)
    (hk : knownCountsOk groups cap = true) :
    ∀ d, completedDesc cap d = true →
      (groups.map tubeDesc).countP (fun b => b = d) ≤ 1 := by
  intro d hd
  by_contra hcon
  have h2 : 2 ≤ (groups.map tubeDesc).countP (fun b => b = d) := by omega
  obtain ⟨hlen, hall, hcol⟩ :
      d.length = cap ∧ (d.all (fun x => x.1 = GameNodeType.known)) = true ∧
        ((d.map (fun x => x.2.1)).dedup.length = 1) := by
    simpa [completedDesc] using hd
  -- all color entries of d coincide
  obtain ⟨c0, hc0⟩ : ∃ c0, ∀ x ∈ d, x.2.1 = c0 := by
    rcases hdedup : (d.map (fun x => x.2.1)).dedup with _ | ⟨c0, rest⟩
    · rw [hdedup] at hcol; simp at hcol
    · rcases rest with _ | ⟨c1, rest'⟩
      · refine ⟨c0, fun x hx => ?_⟩
        have : x.2.1 ∈ (d.map (fun x => x.2.1)).dedup := by
          rw [List.mem_dedup]
          exact List.mem_map_of_mem _ hx
        rw [hdedup] at this
        simpa using this
      · rw [hdedup] at hcol; simp at hcol
  have hne : d ≠ [] := by
    intro hnil
    rw [hnil] at hcol
    simp at hcol
  have hcap : 1 ≤ cap := by
    rcases d with _ | ⟨x, d'⟩
    · exact absurd rfl hne
    · simp at hlen; omega
  -- count over the mapped list as a countP over groups
  rw [List.countP_map] at h2
  have hcp : 2 ≤ groups.countP (fun grp => tubeDesc grp = d) := by
    have heq : ((fun b => decide (b = d)) ∘ tubeDesc)
        = (fun grp => decide (tubeDesc grp = d)) := rfl
    rwa [heq] at h2
  -- a full tube with descriptor d carries cap nodes of color c0
  have hfull : ∀ grp ∈ groups, decide (tubeDesc grp = d) = true →
      cap ≤ (grp.filter (fun n => n.isKnown ∧ n.color = c0)).length := by
    intro grp _ hgd
    have hgd' : tubeDesc grp = d := by simpa using hgd
    have hkeep : grp.filter (fun n => n.isKnown ∧ n.color = c0) = grp := by
      rw [List.filter_eq_self]
      intro n hn
      have hmem : descOf n ∈ d := by
        rw [← hgd']
        exact List.mem_map_of_mem _ hn
      have h1 : n.node_type = GameNodeType.known := by
        have := List.all_eq_true.mp hall _ hmem
        simpa [descOf_fst] using this
      have h2 : n.color = c0 := by
        have := hc0 _ hmem
        simpa [descOf_color] using this
      simp [GameNode.isKnown, h1, h2]
    rw [hkeep]
    have : grp.length = cap := by
      have := tubeDesc_length grp
      rw [hgd'] at this
      omega
    omega
  have hbound := two_le_countP_sum_bound groups (fun grp => tubeDesc grp = d)
    (fun grp => (grp.filter (fun n => n.isKnown ∧ n.color = c0)).length) cap hfull hcp
  -- the sum is the per-color count of the board, bounded by the assertion
  have hsum : ((groups.map
      (fun grp => (grp.filter (fun n => n.isKnown ∧ n.color = c0)).length)).sum)
      = knownOptColorCount groups c0 := rfl
  -- locate a KNOWN node of color c0 to instantiate the assertion
  obtain ⟨grp0, hg0, hp0⟩ := List.countP_pos_iff.mp (by omega : 0 < groups.countP
    (fun grp => tubeDesc grp = d))
  have hg0d : tubeDesc grp0 = d := by simpa using hp0
  rcases grp0 with _ | ⟨n0, grp0'⟩
  · rw [← hg0d] at hne
    exact hne rfl
  · have hmem0 : descOf n0 ∈ d := by
      rw [← hg0d]
      exact List.mem_map_of_mem _ (List.mem_cons_self _ _)
    have hn0k : n0.isKnown = true := by
      have := List.all_eq_true.mp hall _ hmem0
      simp only [descOf_fst] at this
      simpa [GameNode.isKnown] using this
    have hn0c : n0.color = c0 := by
      have := hc0 _ hmem0
      simpa [descOf_color] using this
    have hineq : knownOptColorCount groups n0.color ≤ cap := by
      have h3 := List.all_eq_true.mp hk _ hg0
      have h4 := List.all_eq_true.mp h3 _ (List.mem_cons_self _ _)
      rcases (by simpa using h4 :
          ¬ n0.isKnown = true ∨ knownOptColorCount groups n0.color ≤ cap) with h | h
      · exact absurd hn0k h
      · exact h
    rw [hn0c] at hineq
    rw [hsum] at hbound
    omega

/-- `completed_group_count` as a function of the frozenset key and the
capacity, valid under the constructor's per-color count assertion. -/
theorem completed_group_count_eq_card (g : Game)
    (hk : knownCountsOk g.groups g.group_capacity = true) :
    g.completed_group_count
      = (g.toFrozensets.filter
          (fun d => completedDesc g.group_capacity d = true)).card := by
  unfold Game.completed_group_count Game.toFrozensets
  have h1 : g.groups.filter (fun grp => isGroupCompleted g.group_capacity grp)
      = g.groups.filter (fun grp => completedDesc g.group_capacity (tubeDesc grp)) := by
    apply List.filter_congr
    intro grp _
    rw [isGroupCompleted_eq_desc]
  rw [h1]
  have h2 : (g.groups.filter
        (fun grp => completedDesc g.group_capacity (tubeDesc grp))).length
      = ((g.groups.map tubeDesc).filter
          (fun d => completedDesc g.group_capacity d)).length := by
    rw [List.filter_map]
    rw [List.length_map]
    rfl
  rw [h2]
  exact filter_length_eq_card_of_count_le_one _ _
    (completed_tube_count_le_one g.groups g.group_capacity hk)

/-- C3 (amended).  Equality of full hashable keys does NOT force equal
`segments` (see the counterexample: the frozenset collapses duplicate
tubes).  What does hold: two Games with the same capacity, both satisfying
the constructor's per-color count assertion, with equal full hashable keys
agree on `is_winning_state` and on `completed_group_count`. -/
theorem c3_key_equal_winning_and_completed (gA gB : Game)
    (hcap : gA.group_capacity = gB.group_capacity)
    (hA : knownCountsOk gA.groups gA.group_capacity = true)
    (hB : knownCountsOk gB.groups gB.group_capacity = true)
    (hkey : gA.toHashable = gB.toHashable) :
    gA.is_winning_state = gB.is_winning_state ∧
    gA.completed_group_count = gB.completed_group_count := by
  have hfz : gA.toFrozensets = gB.toFrozensets := congrArg Prod.fst hkey
  constructor
  · have hiff : (gA.is_winning_state = true) ↔ (gB.is_winning_state = true) := by
      rw [is_winning_state_iff_desc, is_winning_state_iff_desc, hfz, hcap]
    rcases hA' : gA.is_winning_state <;> rcases hB' : gB.is_winning_state <;>
      simp_all
  · rw [completed_group_count_eq_card gA hA, completed_group_count_eq_card gB hB,
      hfz, hcap]

/-- Witness for the amended C3 theorem: two tube-permuted winning boards of
capacity 2 with equal keys. -/
theorem c3_key_equal_winning_and_completed_witness :
    (Game.mk [[knownNode (0, 0) red, knownNode (0, 1) red],
              [knownNode (1, 0) blue, knownNode (1, 1) blue]]
        2 5 GameMode.normal false none ∅ false).is_winning_state
      = (Game.mk [[knownNode (1, 0) blue, knownNode (1, 1) blue],
                  [knownNode (0, 0) red, knownNode (0, 1) red]]
          2 5 GameMode.normal false none ∅ false).is_winning_state ∧
    (Game.mk [[knownNode (0, 0) red, knownNode (0, 1) red],
              [knownNode (1, 0) blue, knownNode (1, 1) blue]]
        2 5 GameMode.normal false none ∅ false).completed_group_count
      = (Game.mk [[knownNode (1, 0) blue, knownNode (1, 1) blue],
                  [knownNode (0, 0) red, knownNode (0, 1) red]]
          2 5 GameMode.normal false none ∅ false).completed_group_count :=
  c3_key_equal_winning_and_completed _ _ rfl (by decide) (by decide) (by decide)

/-- Trimming is the identity on a tube with no EMPTY nodes. -/
theorem trimGroup_of_noEmpty (grp : List GameNode)
    (h : grp.all (fun n => ¬ n.isEmptyNode) = true) : trimGroup grp = some grp := by
  have hall : ∀ n ∈ grp.reverse, n.isEmptyNode = false := by
    intro n hn
    have := List.all_eq_true.mp h n (List.mem_reverse.mp hn)
    simpa using this
  have hdrop : grp.reverse.dropWhile (fun n => n.isEmptyNode) = grp.reverse := by
    cases hrev : grp.reverse with
    | nil => rfl
    | cons a l =>
        rw [List.dropWhile_cons_of_neg]
        have := hall a (by rw [hrev]; exact List.mem_cons_self _ _)
        simp [this]
  unfold trimGroup
  rw [hdrop]
  rw [if_neg]
  · simp
  · intro hc
    obtain ⟨n, hn, hne⟩ := List.any_eq_true.mp hc
    rw [hall n hn] at hne
    cases hne

/-- Trimming is the identity on a board with no EMPTY nodes. -/
theorem trimGroups_of_noEmpty (groups : List (List GameNode))
    (h : noEmptyNodes groups = true) : trimGroups groups = some groups := by
  induction groups with
  | nil => rfl
  | cons grp gs ih =>
      unfold noEmptyNodes at h
      rw [List.all_cons] at h
      obtain ⟨h1, h2⟩ : (grp.all fun n => ¬ n.isEmptyNode) = true ∧
          (gs.all fun g => g.all fun n => ¬ n.isEmptyNode) = true := by
        simpa using h
      unfold trimGroups
      rw [trimGroup_of_noEmpty grp h1]
      rw [ih (by simpa [noEmptyNodes] using h2)]
      rfl

/-- When auto-completion does not trigger, the constructor is plain
validation: the Game's groups are exactly the input groups. -/
theorem mkGame_eq_of_checks (groups : List (List GameNode)) (undo : Int)
    (cap : Nat) (mode : GameMode)
    (hauto : autoCompleteTarget groups cap = none)
    (hne : noEmptyNodes groups = true)
    (hk : knownCountsOk groups cap = true)
    (hcap : cap ≠ 0)
    (hdiv : countedTotal groups % cap = 0) :
    mkGame groups undo (some cap) mode
      = some (Game.mk groups cap undo mode
          (groups.any (fun g => g.any (fun n => n.isUnknownish))) none ∅ false) := by
  have h1 : autoCompleteStep groups cap = groups := by
    unfold autoCompleteStep
    rw [hauto]
  show (match inferCapacity groups (some cap) with
    | none => none
    | some cap =>
        let groups' := autoCompleteStep groups cap
        match trimGroups groups' with
        | none => none
        | some trimmed =>
            if knownCountsOk trimmed cap ∧ cap ≠ 0 ∧ countedTotal trimmed % cap = 0 then
              some (Game.mk trimmed cap undo mode
                (groups'.any (fun g => g.any (fun n => n.isUnknownish))) none ∅ false)
            else none) = _
  have hinf : inferCapacity groups (some cap) = some cap := rfl
  rw [hinf]
  simp only [h1, trimGroups_of_noEmpty groups hne]
  rw [if_pos ⟨hk, hcap, hdiv⟩]

theorem nodeCount_cons (p : GameNode → Bool) (g : List GameNode)
    (gs : List (List GameNode)) :
    nodeCount p (g :: gs) = (g.filter p).length + nodeCount p gs := by
  simp [nodeCount]

/-- Replacing tube `i` changes a node count by the difference of the
tube counts. -/
theorem nodeCount_set (p : GameNode → Bool) (groups : List (List GameNode))
    (i : Nat) (x : List GameNode) (hi : i < groups.length) :
    nodeCount p (groups.set i x) + ((groups.getD i []).filter p).length
      = nodeCount p groups + (x.filter p).length := by
  induction groups generalizing i with
  | nil => simp at hi
  | cons g gs ih =>
      cases i with
      | zero => simp [nodeCount_cons]; omega
      | succ n =>
          rw [List.set_cons_succ, nodeCount_cons, nodeCount_cons, List.getD_cons_succ]
          have := ih n (by simpa using hi)
          omega

theorem pourTopRev_perm (cap : Nat) (c : Option Color) (s d : List GameNode) :
    List.Perm ((pourTopRev cap c s d).1 ++ (pourTopRev cap c s d).2) (s ++ d) := by
  induction s generalizing d with
  | nil => simp [pourTopRev]
  | cons n rest ih =>
      unfold pourTopRev
      split
      · refine (ih (d ++ [n])).trans ?_
        rw [← List.append_assoc]
        exact (List.perm_append_singleton n (rest ++ d)).trans (List.Perm.refl _)
      · exact List.Perm.refl _

theorem pourBottom_perm (cap : Nat) (c : Option Color) (s d : List GameNode) :
    List.Perm ((pourBottom cap c s d).1 ++ (pourBottom cap c s d).2) (s ++ d) := by
  induction s generalizing d with
  | nil => simp [pourBottom]
  | cons n rest ih =>
      unfold pourBottom
      split
      · refine (ih (d ++ [n])).trans ?_
        rw [← List.append_assoc]
        exact (List.perm_append_singleton n (rest ++ d)).trans (List.Perm.refl _)
      · exact List.Perm.refl _

theorem pourTopRev_dst_le (cap : Nat) (c : Option Color) (s d : List GameNode)
    (h : d.length ≤ cap) : (pourTopRev cap c s d).2.length ≤ cap := by
  induction s generalizing d with
  | nil => simpa [pourTopRev]
  | cons n rest ih =>
      unfold pourTopRev
      split
      · rename_i hcond
        exact ih (d ++ [n]) (by simp; omega)
      · simpa

theorem pourBottom_dst_le (cap : Nat) (c : Option Color) (s d : List GameNode)
    (h : d.length ≤ cap) : (pourBottom cap c s d).2.length ≤ cap := by
  induction s generalizing d with
  | nil => simpa [pourBottom]
  | cons n rest ih =>
      unfold pourBottom
      split
      · rename_i hcond
        exact ih (d ++ [n]) (by simp; omega)
      · simpa

theorem pourTopRev_dst_ge (cap : Nat) (c : Option Color) (s d : List GameNode) :
    d.length ≤ (pourTopRev cap c s d).2.length := by
  induction s generalizing d with
  | nil => simp [pourTopRev]
  | cons n rest ih =>
      unfold pourTopRev
      split
      · have := ih (d ++ [n])
        simp at this
        omega
      · simp

theorem pourBottom_dst_ge (cap : Nat) (c : Option Color) (s d : List GameNode) :
    d.length ≤ (pourBottom cap c s d).2.length := by
  induction s generalizing d with
  | nil => simp [pourBottom]
  | cons n rest ih =>
      unfold pourBottom
      split
      · have := ih (d ++ [n])
        simp at this
        omega
      · simp

theorem dropLast_append_getLastQ (l : List GameNode) :
    l.dropLast ++ l.getLast?.toList = l := by
  rcases List.eq_nil_or_concat l with rfl | ⟨l', a, rfl⟩
  · rfl
  · rw [List.concat_eq_append, List.dropLast_concat, List.getLast?_concat]
    rfl

/-- The combined contents of the two tubes are preserved by the move (as a
multiset). -/
theorem movedPair_perm (mode : GameMode) (cap : Nat) (it : GameNode)
    (s d : List GameNode) :
    List.Perm ((movedPair mode cap it s d).1 ++ (movedPair mode cap it s d).2)
      (s ++ d) := by
  have hpop : List.Perm (s.dropLast ++ (d ++ s.getLast?.toList)) (s ++ d) := by
    have h1 : List.Perm (d ++ s.getLast?.toList) (s.getLast?.toList ++ d) :=
      List.perm_append_comm
    refine (List.Perm.append_left s.dropLast h1).trans ?_
    rw [← List.append_assoc, dropLast_append_getLastQ]
  unfold movedPair
  split
  · exact hpop
  · split
    · match mode with
      | .noCombo => exact hpop
      | .normal =>
          have h1 : List.Perm ((pourTopRev cap it.color s.reverse d).1.reverse
              ++ (pourTopRev cap it.color s.reverse d).2)
            ((pourTopRev cap it.color s.reverse d).1
              ++ (pourTopRev cap it.color s.reverse d).2) :=
            List.Perm.append_right _ (List.reverse_perm _)
          refine h1.trans ((pourTopRev_perm cap it.color s.reverse d).trans ?_)
          exact List.Perm.append_right d (List.reverse_perm s)
      | .queue => exact pourBottom_perm cap it.color s d
    · exact List.Perm.refl _

theorem movedPair_dst_le (mode : GameMode) (cap : Nat) (it : GameNode)
    (s d : List GameNode) (hd : d.length < cap) :
    (movedPair mode cap it s d).2.length ≤ cap := by
  have hpop : (d ++ s.getLast?.toList).length ≤ cap := by
    rcases List.eq_nil_or_concat s with rfl | ⟨l', a, rfl⟩
    · simpa using Nat.le_of_lt hd
    · rw [List.concat_eq_append, List.getLast?_concat]
      simp
      omega
  unfold movedPair
  split
  · exact hpop
  · split
    · match mode with
      | .noCombo => exact hpop
      | .normal => exact pourTopRev_dst_le cap it.color s.reverse d (Nat.le_of_lt hd)
      | .queue => exact pourBottom_dst_le cap it.color s d (Nat.le_of_lt hd)
    · exact Nat.le_of_lt hd

theorem movedPair_src_le (mode : GameMode) (cap : Nat) (it : GameNode)
    (s d : List GameNode) :
    (movedPair mode cap it s d).1.length ≤ s.length := by
  have hlen := List.Perm.length_eq (movedPair_perm mode cap it s d)
  rw [List.length_append, List.length_append] at hlen
  have hdge : d.length ≤ (movedPair mode cap it s d).2.length := by
    unfold movedPair
    split
    · simp
    · split
      · match mode with
        | .noCombo => simp
        | .normal => exact pourTopRev_dst_ge cap it.color s.reverse d
        | .queue => exact pourBottom_dst_ge cap it.color s d
      · simp
  omega

/-- Predicates that do not distinguish an UNKNOWN node from its
UNKNOWN_REVEALED rewrite. -/
def revealStable (p : GameNode → Bool) : Prop :=
  ∀ q c, p ⟨GameNodeType.unknown, q, c⟩ = p ⟨GameNodeType.unknownRevealed, q, none⟩

/-- Characterization of the revealed position: either no reveal, or the
top is an UNKNOWN node and the tube decomposes around it. -/
theorem revealPosOf_cases (l : List GameNode) :
    (revealPosOf l = none ∧ revealTop l = l) ∨
    (∃ n, l.getLast? = some n ∧ n.node_type = GameNodeType.unknown ∧
      revealPosOf l = some n.original_pos ∧
      l = l.dropLast ++ [n] ∧
      revealTop l = l.dropLast
        ++ [⟨GameNodeType.unknownRevealed, n.original_pos, none⟩]) := by
  cases hl : l.getLast? with
  | none =>
      left
      have hrp : revealPosOf l = none := by unfold revealPosOf; rw [hl]
      refine ⟨hrp, ?_⟩
      unfold revealTop
      rw [hrp]
  | some n =>
      by_cases hu : n.node_type = GameNodeType.unknown
      · right
        have hrp : revealPosOf l = some n.original_pos := by
          unfold revealPosOf
          rw [hl]
          show (if n.node_type = GameNodeType.unknown
            then some n.original_pos else none) = _
          rw [if_pos hu]
        have hrec : l.dropLast ++ [n] = l := by
          have h0 := dropLast_append_getLastQ l
          rw [hl] at h0
          simpa using h0
        refine ⟨n, rfl, hu, hrp, hrec.symm, ?_⟩
        unfold revealTop
        rw [hrp]
      · left
        have hrp : revealPosOf l = none := by
          unfold revealPosOf
          rw [hl]
          show (if n.node_type = GameNodeType.unknown
            then some n.original_pos else none) = _
          rw [if_neg hu]
        refine ⟨hrp, ?_⟩
        unfold revealTop
        rw [hrp]

theorem revealTop_filter (p : GameNode → Bool) (hp : revealStable p)
    (l : List GameNode) :
    ((revealTop l).filter p).length = (l.filter p).length := by
  rcases revealPosOf_cases l with ⟨_, hid⟩ | ⟨n, _, hu, _, hdec, hrt⟩
  · rw [hid]
  · rw [hrt]
    conv_rhs => rw [hdec]
    have hn : p n = p ⟨GameNodeType.unknownRevealed, n.original_pos, none⟩ := by
      have hn2 : n = ⟨GameNodeType.unknown, n.original_pos, n.color⟩ := by
        cases n
        simp only [GameNode.mk.injEq]
        exact ⟨hu, trivial, trivial⟩
      rw [hn2]
      exact hp n.original_pos n.color
    rw [List.filter_append, List.filter_append, List.length_append,
      List.length_append]
    have hsingle : (List.filter p
        [(⟨GameNodeType.unknownRevealed, n.original_pos, none⟩ : GameNode)]).length
        = (List.filter p [n]).length := by
      rw [List.filter_cons, List.filter_cons, ← hn]
      cases hpn : p n <;> simp [hpn]
    rw [hsingle]

theorem revealTop_length (l : List GameNode) :
    (revealTop l).length = l.length := by
  rcases revealPosOf_cases l with ⟨_, hid⟩ | ⟨n, _, hu, _, hdec, hrt⟩
  · rw [hid]
  · rw [hrt]
    conv_rhs => rw [hdec]
    simp

theorem revealTop_mem (l : List GameNode) (x : GameNode) (hx : x ∈ revealTop l) :
    x ∈ l ∨ x.node_type = GameNodeType.unknownRevealed := by
  rcases revealPosOf_cases l with ⟨_, hid⟩ | ⟨n, _, hu, _, hdec, hrt⟩
  · rw [hid] at hx
    exact Or.inl hx
  · rw [hrt] at hx
    rcases List.mem_append.mp hx with h | h
    · exact Or.inl (List.dropLast_subset _ h)
    · right
      simp at h
      rw [h]

/-- A StepForward (including the reveal rewrite) preserves every
reveal-stable node count. -/
theorem move_nodeCount (g : Game) (src dst : Nat)
    (srcGroup dstGroup : List GameNode) (hsd : src ≠ dst)
    (hs : g.groups[src]? = some srcGroup) (hd : g.groups[dst]? = some dstGroup)
    (opItem : GameNode) (p : GameNode → Bool) (hp : revealStable p) :
    nodeCount p ((g.groups.set src
        (revealTop (movedPair g.game_mode g.group_capacity opItem
          srcGroup dstGroup).1)).set dst
        (movedPair g.game_mode g.group_capacity opItem srcGroup dstGroup).2)
      = nodeCount p g.groups := by
  have hsl : src < g.groups.length := by
    by_contra hcon
    rw [List.getElem?_eq_none (by omega)] at hs
    cases hs
  have hdl : dst < g.groups.length := by
    by_contra hcon
    rw [List.getElem?_eq_none (by omega)] at hd
    cases hd
  have hgds : g.groups.getD src [] = srcGroup := by
    rw [List.getD_eq_getElem?_getD, hs]
    rfl
  have hgdd : g.groups.getD dst [] = dstGroup := by
    rw [List.getD_eq_getElem?_getD, hd]
    rfl
  have h1 := nodeCount_set p g.groups src
    (revealTop (movedPair g.game_mode g.group_capacity opItem srcGroup dstGroup).1) hsl
  rw [hgds] at h1
  have h2 := nodeCount_set p (g.groups.set src
      (revealTop (movedPair g.game_mode g.group_capacity opItem srcGroup dstGroup).1))
    dst (movedPair g.game_mode g.group_capacity opItem srcGroup dstGroup).2
    (by rw [List.length_set]; omega)
  have hgdd2 : (g.groups.set src
      (revealTop (movedPair g.game_mode g.group_capacity opItem srcGroup dstGroup).1)).getD
        dst [] = dstGroup := by
    rw [List.getD_eq_getElem?_getD, List.getElem?_set_ne hsd, hd]
    rfl
  rw [hgdd2] at h2
  have h3 := revealTop_filter p hp
    (movedPair g.game_mode g.group_capacity opItem srcGroup dstGroup).1
  have h4 : ((movedPair g.game_mode g.group_capacity opItem srcGroup dstGroup).1.filter
        p).length
      + ((movedPair g.game_mode g.group_capacity opItem srcGroup dstGroup).2.filter
        p).length
      = (srcGroup.filter p).length + (dstGroup.filter p).length := by
    have hperm := movedPair_perm g.game_mode g.group_capacity opItem srcGroup dstGroup
    have := List.Perm.countP_congr hperm (fun x _ => rfl (a := p x))
    rw [List.countP_append, List.countP_append,
      List.countP_eq_length_filter, List.countP_eq_length_filter,
      List.countP_eq_length_filter, List.countP_eq_length_filter] at this
    omega
  omega

/-- Every index in the destination scan is in range with a tube strictly
below capacity. -/
theorem mem_availableDests (g : Game) (j : Nat) (hj : j ∈ availableDests g) :
    j < g.groups.length ∧ (dstGroupAt g j).length < g.group_capacity := by
  have key : ∀ (l : List (List GameNode)) (i : Nat) (flag : Bool),
      ∀ k ∈ availableDests.go g i l flag,
        ∃ m, m < l.length ∧ k = i + m ∧ (l.getD m []).length < g.group_capacity := by
    intro l
    induction l with
    | nil =>
        intro i flag k hk
        simp [availableDests.go] at hk
    | cons grp rest ih =>
        intro i flag k hk
        unfold availableDests.go at hk
        by_cases hlen : grp.length < g.group_capacity
        · rw [if_pos hlen] at hk
          by_cases hzero : grp.length = 0
          · rw [if_pos hzero] at hk
            cases flag with
            | true =>
                rw [if_pos rfl] at hk
                obtain ⟨m, hm, rfl, hlt⟩ := ih (i+1) true k hk
                exact ⟨m + 1, by simpa using hm, by omega, by simpa using hlt⟩
            | false =>
                rw [if_neg (by simp)] at hk
                rcases List.mem_cons.mp hk with rfl | hk'
                · exact ⟨0, by simp, by omega, by simpa [hzero] using hlen⟩
                · obtain ⟨m, hm, rfl, hlt⟩ := ih (i+1) true k hk'
                  exact ⟨m + 1, by simpa using hm, by omega, by simpa using hlt⟩
          · rw [if_neg hzero] at hk
            rcases List.mem_cons.mp hk with rfl | hk'
            · exact ⟨0, by simp, by omega, by simpa using hlen⟩
            · obtain ⟨m, hm, rfl, hlt⟩ := ih (i+1) flag k hk'
              exact ⟨m + 1, by simpa using hm, by omega, by simpa using hlt⟩
        · rw [if_neg hlen] at hk
          obtain ⟨m, hm, rfl, hlt⟩ := ih (i+1) flag k hk
          exact ⟨m + 1, by simpa using hm, by omega, by simpa using hlt⟩
  obtain ⟨m, hm, hk, hlt⟩ := key g.groups 0 false j hj
  subst hk
  simp only [Nat.zero_add]
  exact ⟨hm, by simpa [dstGroupAt] using hlt⟩

/-- A color is listed among the board's known colors iff its count is
positive. -/
theorem nodeCount_pos_iff (p : GameNode → Bool) (groups : List (List GameNode)) :
    0 < nodeCount p groups ↔ ∃ grp ∈ groups, ∃ n ∈ grp, p n = true := by
  induction groups with
  | nil => simp [nodeCount]
  | cons grp gs ih =>
      rw [nodeCount_cons]
      constructor
      · intro h
        by_cases h1 : 0 < (grp.filter p).length
        · obtain ⟨n, hn⟩ := List.exists_mem_of_length_pos h1
          have := List.mem_filter.mp hn
          exact ⟨grp, List.mem_cons_self _ _, n, this.1, this.2⟩
        · have h2 : 0 < nodeCount p gs := by omega
          obtain ⟨g1, hg1, n, hn, hpn⟩ := ih.mp h2
          exact ⟨g1, List.mem_cons_of_mem _ hg1, n, hn, hpn⟩
      · rintro ⟨g1, hg1, n, hn, hpn⟩
        rcases List.mem_cons.mp hg1 with rfl | hg1'
        · have : n ∈ g1.filter p := List.mem_filter.mpr ⟨hn, hpn⟩
          have := List.length_pos.mpr (List.ne_nil_of_mem this)
          omega
        · have : 0 < nodeCount p gs := ih.mpr ⟨g1, hg1', n, hn, hpn⟩
          omega

theorem mem_knownColors_iff (groups : List (List GameNode)) (c : Color) :
    c ∈ knownColors groups ↔ 0 < knownColorCount groups c := by
  unfold knownColors knownColorCount
  rw [List.mem_dedup, List.mem_flatten, nodeCount_pos_iff]
  constructor
  · rintro ⟨l, hl, hc⟩
    rw [List.mem_map] at hl
    obtain ⟨grp, hg, rfl⟩ := hl
    rw [List.mem_filterMap] at hc
    obtain ⟨n, hn, hfc⟩ := hc
    by_cases hk : n.isKnown = true
    · rw [if_pos hk] at hfc
      exact ⟨grp, hg, n, hn, by simp [hk, hfc]⟩
    · rw [if_neg hk] at hfc
      cases hfc
  · rintro ⟨grp, hg, n, hn, hpn⟩
    obtain ⟨hk, hc⟩ : n.isKnown = true ∧ n.color = some c := by simpa using hpn
    refine ⟨grp.filterMap (fun n => if n.isKnown then n.color else none),
      List.mem_map_of_mem _ hg, ?_⟩
    rw [List.mem_filterMap]
    exact ⟨n, hn, by rw [if_pos hk, hc]⟩

/-- A nodup list filtered to a singleton is characterised by a unique
satisfying element. -/
theorem nodup_filter_singleton_iff {α : Type _} (l : List α) (hl : l.Nodup)
    (p : α → Bool) (hmem : ∀ x, p x = true → x ∈ l) (c : α) :
    l.filter p = [c] ↔ (p c = true ∧ ∀ x, p x = true → x = c) := by
  constructor
  · intro h
    have hc : c ∈ l.filter p := by
      rw [h]
      exact List.mem_cons_self _ _
    refine ⟨(List.mem_filter.mp hc).2, fun x hx => ?_⟩
    have hx2 : x ∈ l.filter p := List.mem_filter.mpr ⟨hmem x hx, hx⟩
    rw [h] at hx2
    simpa using hx2
  · rintro ⟨hpc, huniq⟩
    have hsub : ∀ x ∈ l.filter p, x = c := fun x hx =>
      huniq x (List.mem_filter.mp hx).2
    have hcin : c ∈ l.filter p := List.mem_filter.mpr ⟨hmem c hpc, hpc⟩
    have hnd : (l.filter p).Nodup := hl.filter p
    cases hf : l.filter p with
    | nil =>
        rw [hf] at hcin
        cases hcin
    | cons a rest =>
        have ha : a = c := hsub a (by rw [hf]; exact List.mem_cons_self _ _)
        cases rest with
        | nil => rw [ha]
        | cons b rest' =>
            have hb : b = c := hsub b
              (by rw [hf]; exact List.mem_cons_of_mem _ (List.mem_cons_self _ _))
            rw [hf] at hnd
            rw [List.nodup_cons] at hnd
            exact absurd (by rw [ha, hb] : a = b) (by
              intro hab
              exact hnd.1 (hab ▸ List.mem_cons_self _ _))

/-- The auto-completion trigger depends only on the per-color counts and
the hidden-unit total. -/
theorem autoCompleteTarget_congr (A B : List (List GameNode)) (cap : Nat)
    (hc : ∀ c, knownColorCount A c = knownColorCount B c)
    (hu : unknownTotal A = unknownTotal B) :
    autoCompleteTarget A cap = autoCompleteTarget B cap := by
  unfold autoCompleteTarget
  have hp : (fun c => decide (0 < knownColorCount A c ∧ knownColorCount A c < cap))
      = (fun c => decide (0 < knownColorCount B c ∧ knownColorCount B c < cap)) := by
    funext c
    rw [hc c]
  have hmemA : ∀ x, decide (0 < knownColorCount A x ∧ knownColorCount A x < cap)
      = true → x ∈ knownColors A := by
    intro x hx
    rw [mem_knownColors_iff]
    exact (of_decide_eq_true hx).1
  have hmemB : ∀ x, decide (0 < knownColorCount B x ∧ knownColorCount B x < cap)
      = true → x ∈ knownColors B := by
    intro x hx
    rw [mem_knownColors_iff]
    exact (of_decide_eq_true hx).1
  cases hA : (knownColors A).filter
      (fun c => decide (0 < knownColorCount A c ∧ knownColorCount A c < cap)) with
  | nil =>
      have hnone : ∀ x, decide (0 < knownColorCount A x ∧ knownColorCount A x < cap)
          = false := by
        intro x
        by_cases hx : decide (0 < knownColorCount A x ∧ knownColorCount A x < cap) = true
        · have hmem := hmemA x hx
          have : x ∈ (knownColors A).filter
              (fun c => decide (0 < knownColorCount A c ∧ knownColorCount A c < cap)) :=
            List.mem_filter.mpr ⟨hmem, hx⟩
          rw [hA] at this
          cases this
        · simpa using hx
      have hB : (knownColors B).filter
          (fun c => decide (0 < knownColorCount B c ∧ knownColorCount B c < cap)) = [] := by
        rw [List.filter_eq_nil_iff]
        intro x _
        have h0 : decide (0 < knownColorCount B x ∧ knownColorCount B x < cap)
            = false := by
          rw [← congrFun hp x]
          exact hnone x
        simp [h0]
      rw [hB]
  | cons c rest =>
      cases rest with
      | nil =>
          obtain ⟨hpc, huniq⟩ := (nodup_filter_singleton_iff (knownColors A)
            (List.nodup_dedup _) _ hmemA c).mp hA
          have hB : (knownColors B).filter
              (fun x => decide (0 < knownColorCount B x ∧ knownColorCount B x < cap))
              = [c] := by
            rw [nodup_filter_singleton_iff (knownColors B) (List.nodup_dedup _) _ hmemB c]
            constructor
            · rw [← congrFun hp c]
              exact hpc
            · intro x hx
              refine huniq x ?_
              rw [congrFun hp x]
              exact hx
          rw [hB]
          show (if unknownTotal A = cap - knownColorCount A c ∧ 0 < unknownTotal A
            then some c else none)
            = (if unknownTotal B = cap - knownColorCount B c ∧ 0 < unknownTotal B
              then some c else none)
          rw [hc c, hu]
      | cons c' rest' =>
          have hcA : c ∈ (knownColors A).filter
              (fun x => decide (0 < knownColorCount A x ∧ knownColorCount A x < cap)) := by
            rw [hA]
            exact List.mem_cons_self _ _
          have hcA' : c' ∈ (knownColors A).filter
              (fun x => decide (0 < knownColorCount A x ∧ knownColorCount A x < cap)) := by
            rw [hA]
            exact List.mem_cons_of_mem _ (List.mem_cons_self _ _)
          have hnd : ((knownColors A).filter
              (fun x => decide (0 < knownColorCount A x ∧ knownColorCount A x < cap))).Nodup :=
            (List.nodup_dedup _).filter _
          have hcne : c ≠ c' := by
            rw [hA, List.nodup_cons] at hnd
            intro hcc
            apply hnd.1
            rw [hcc]
            exact List.mem_cons_self _ _
          have hcB : c ∈ (knownColors B).filter
              (fun x => decide (0 < knownColorCount B x ∧ knownColorCount B x < cap)) := by
            have hpc := (List.mem_filter.mp hcA).2
            rw [congrFun hp c] at hpc
            exact List.mem_filter.mpr ⟨hmemB c hpc, hpc⟩
          have hcB' : c' ∈ (knownColors B).filter
              (fun x => decide (0 < knownColorCount B x ∧ knownColorCount B x < cap)) := by
            have hpc := (List.mem_filter.mp hcA').2
            rw [congrFun hp c'] at hpc
            exact List.mem_filter.mpr ⟨hmemB c' hpc, hpc⟩
          cases hB : (knownColors B).filter
              (fun x => decide (0 < knownColorCount B x ∧ knownColorCount B x < cap)) with
          | nil =>
              rw [hB] at hcB
          | cons b rest'' =>
              cases rest'' with
              | nil =>
                  rw [hB] at hcB hcB'
                  have h1 : c = b := by simpa using hcB
                  have h2 : c' = b := by simpa using hcB'
                  exact absurd (h1.trans h2.symm) hcne
              | cons b' rest''' => rfl

theorem withHistory_groups (g : Game) (prev : Option Game) (rev : Finset Pos)
    (b : Bool) : (g.withHistory prev rev b).groups = g.groups := by
  cases g
  rfl

theorem withHistory_capacity (g : Game) (prev : Option Game) (rev : Finset Pos)
    (b : Bool) : (g.withHistory prev rev b).group_capacity = g.group_capacity := by
  cases g
  rfl

theorem withHistory_undo (g : Game) (prev : Option Game) (rev : Finset Pos)
    (b : Bool) : (g.withHistory prev rev b).undo_count = g.undo_count := by
  cases g
  rfl

theorem withHistory_mode (g : Game) (prev : Option Game) (rev : Finset Pos)
    (b : Bool) : (g.withHistory prev rev b).game_mode = g.game_mode := by
  cases g
  rfl

theorem withHistory_prev (g : Game) (prev : Option Game) (rev : Finset Pos)
    (b : Bool) : (g.withHistory prev rev b).previous_state = prev := by
  cases g
  rfl

theorem withHistory_revealed (g : Game) (prev : Option Game) (rev : Finset Pos)
    (b : Bool) : (g.withHistory prev rev b).all_revealed = rev := by
  cases g
  rfl

/-- Inversion for the constructor when auto-completion does not trigger and
there is nothing to trim: the produced Game is fully determined. -/
theorem mkGame_inv (gs : List (List GameNode)) (u : Int) (cap : Nat)
    (m : GameMode) (b : Game)
    (hauto : autoCompleteTarget gs cap = none)
    (hne : noEmptyNodes gs = true)
    (hmk : mkGame gs u (some cap) m = some b) :
    b = Game.mk gs cap u m (gs.any (fun g => g.any (fun n => n.isUnknownish)))
      none ∅ false := by
  have h1 : autoCompleteStep gs cap = gs := by
    unfold autoCompleteStep
    rw [hauto]
  have hmk2 : (match trimGroups (autoCompleteStep gs cap) with
    | none => none
    | some trimmed =>
        if knownCountsOk trimmed cap ∧ cap ≠ 0 ∧ countedTotal trimmed % cap = 0 then
          some (Game.mk trimmed cap u m
            ((autoCompleteStep gs cap).any (fun g => g.any (fun n => n.isUnknownish)))
            none ∅ false)
        else none) = some b := hmk
  rw [h1, trimGroups_of_noEmpty gs hne] at hmk2
  have hmk3 : (if knownCountsOk gs cap ∧ cap ≠ 0 ∧ countedTotal gs % cap = 0 then
      some (Game.mk gs cap u m (gs.any (fun g => g.any (fun n => n.isUnknownish)))
        none ∅ false)
    else none) = some b := hmk2
  split at hmk3
  · exact (Option.some.inj hmk3).symm
  · cases hmk3

/-- The two count functions that drive auto-completion are reveal-stable. -/
theorem knownColorPred_revealStable (c : Color) :
    revealStable (fun n => n.isKnown ∧ n.color = some c) := by
  intro q cc
  simp [GameNode.isKnown]

theorem unknownishPred_revealStable : revealStable (fun n => n.isUnknownish) := by
  intro q cc
  simp [GameNode.isUnknownish]

theorem notEmptyPred_revealStable : revealStable (fun n => ¬ n.isEmptyNode) := by
  intro q cc
  simp [GameNode.isEmptyNode]

/-- Membership extraction for tubes of the post-move board. -/
theorem mem_move_groups (g : Game) (src dst : Nat)
    (srcGroup dstGroup : List GameNode) (opItem : GameNode)
    (tube : List GameNode)
    (ht : tube ∈ (g.groups.set src
        (revealTop (movedPair g.game_mode g.group_capacity opItem
          srcGroup dstGroup).1)).set dst
        (movedPair g.game_mode g.group_capacity opItem srcGroup dstGroup).2) :
    tube ∈ g.groups
      ∨ tube = revealTop (movedPair g.game_mode g.group_capacity opItem
          srcGroup dstGroup).1
      ∨ tube = (movedPair g.game_mode g.group_capacity opItem srcGroup dstGroup).2 := by
  rcases List.mem_or_eq_of_mem_set ht with h1 | h1
  · rcases List.mem_or_eq_of_mem_set h1 with h2 | h2
    · exact Or.inl h2
    · exact Or.inr (Or.inl h2)
  · exact Or.inr (Or.inr h1)

/-- The post-move board still has no EMPTY nodes. -/
theorem noEmpty_move (g : Game) (src dst : Nat)
    (srcGroup dstGroup : List GameNode) (opItem : GameNode)
    (hne : noEmptyNodes g.groups = true)
    (hs : g.groups[src]? = some srcGroup) (hd : g.groups[dst]? = some dstGroup) :
    noEmptyNodes ((g.groups.set src
        (revealTop (movedPair g.game_mode g.group_capacity opItem
          srcGroup dstGroup).1)).set dst
        (movedPair g.game_mode g.group_capacity opItem srcGroup dstGroup).2)
      = true := by
  have hsrc_mem : srcGroup ∈ g.groups := List.getElem?_mem hs
  have hdst_mem : dstGroup ∈ g.groups := List.getElem?_mem hd
  have htube : ∀ tube ∈ g.groups, ∀ n ∈ tube, n.isEmptyNode = false := by
    intro tube htube n hn
    have h1 := List.all_eq_true.mp hne tube htube
    have h2 := List.all_eq_true.mp h1 n hn
    simpa using h2
  have hmoved : ∀ n, n ∈ (movedPair g.game_mode g.group_capacity opItem
      srcGroup dstGroup).1 ++ (movedPair g.game_mode g.group_capacity opItem
      srcGroup dstGroup).2 → n.isEmptyNode = false := by
    intro n hn
    have := (movedPair_perm g.game_mode g.group_capacity opItem
      srcGroup dstGroup).mem_iff.mp hn
    rcases List.mem_append.mp this with h | h
    · exact htube srcGroup hsrc_mem n h
    · exact htube dstGroup hdst_mem n h
  rw [noEmptyNodes, List.all_eq_true]
  intro tube htmem
  rw [List.all_eq_true]
  intro n hn
  rcases mem_move_groups g src dst srcGroup dstGroup opItem tube htmem with
    h | h | h
  · simp [htube tube h n hn]
  · subst h
    rcases revealTop_mem _ n hn with h2 | h2
    · have := hmoved n (List.mem_append.mpr (Or.inl h2))
      simp [this]
    · simp [GameNode.isEmptyNode, h2]
  · subst h
    have := hmoved n (List.mem_append.mpr (Or.inr hn))
    simp [this]

/-- C10.  A StepForward changes at most the src and dst tubes: every other
tube of the resulting Game is exactly the corresponding tube of the
pre-move Game, and the number of tubes is unchanged.  Hypotheses: the
pre-move Game is canonical (no EMPTY placeholders, auto-completion does not
trigger on its board — both hold for every constructor-produced Game). -/
theorem c10_step_forward_frame (g g' : Game) (src dst : Nat)
    (hne : noEmptyNodes g.groups = true)
    (hauto : autoCompleteTarget g.groups g.group_capacity = none)
    (happ : g.applyOp (GameOperation.stepForward src dst) = some g') :
    g'.groups.length = g.groups.length ∧
    ∀ i, i ≠ src → i ≠ dst → g'.groups[i]? = g.groups[i]? := by
  replace happ : applyStepForward g src dst = some g' := happ
  unfold applyStepForward at happ
  by_cases hsd : src = dst
  · rw [if_pos hsd] at happ
    cases happ
  rw [if_neg hsd] at happ
  split at happ
  · cases happ
  rename_i srcGroup hs
  split at happ
  · cases happ
  rename_i dstGroup hd
  split at happ
  · cases happ
  rename_i opItem hop
  replace happ : (match mkGame ((g.groups.set src
      (revealTop (movedPair g.game_mode g.group_capacity opItem
        srcGroup dstGroup).1)).set dst
      (movedPair g.game_mode g.group_capacity opItem srcGroup dstGroup).2)
      g.undo_count (some g.group_capacity) g.game_mode with
    | none => none
    | some base =>
        match revealPosOf (movedPair g.game_mode g.group_capacity opItem
            srcGroup dstGroup).1 with
        | some q => some (base.withHistory (some g) (insert q g.all_revealed) true)
        | none => some (base.withHistory (some g) g.all_revealed false)) = some g' :=
    happ
  split at happ
  · cases happ
  rename_i base hmk
  have hautoNew : autoCompleteTarget ((g.groups.set src
      (revealTop (movedPair g.game_mode g.group_capacity opItem
        srcGroup dstGroup).1)).set dst
      (movedPair g.game_mode g.group_capacity opItem srcGroup dstGroup).2)
      g.group_capacity = none := by
    rw [autoCompleteTarget_congr _ g.groups g.group_capacity ?_ ?_]
    · exact hauto
    · intro c
      exact move_nodeCount g src dst srcGroup dstGroup hsd hs hd opItem _
        (knownColorPred_revealStable c)
    · exact move_nodeCount g src dst srcGroup dstGroup hsd hs hd opItem _
        unknownishPred_revealStable
  have hneNew := noEmpty_move g src dst srcGroup dstGroup opItem hne hs hd
  have hbase := mkGame_inv _ _ _ _ _ hautoNew hneNew hmk
  have hgroups : g'.groups = (g.groups.set src
      (revealTop (movedPair g.game_mode g.group_capacity opItem
        srcGroup dstGroup).1)).set dst
      (movedPair g.game_mode g.group_capacity opItem srcGroup dstGroup).2 := by
    split at happ <;>
      (have hg' := Option.some.inj happ
       rw [← hg', withHistory_groups, hbase]
       rfl)
  constructor
  · rw [hgroups, List.length_set, List.length_set]
  · intro i hisrc hidst
    rw [hgroups, List.getElem?_set_ne (fun h => hidst h.symm),
      List.getElem?_set_ne (fun h => hisrc h.symm)]

/-- Witness for the C10 frame theorem: on a concrete three-tube board the
move `0 → 2` leaves tube 1 untouched. -/
theorem c10_step_forward_frame_witness :
    c10Game'.groups.length = c10Game.groups.length ∧
    c10Game'.groups[1]? = c10Game.groups[1]? :=
  ⟨(c10_step_forward_frame c10Game c10Game' 0 2 (by decide) (by decide) rfl).1,
   (c10_step_forward_frame c10Game c10Game' 0 2 (by decide) (by decide) rfl).2
     1 (by decide) (by decide)⟩

theorem filter_map_length {α β : Type _} (f : α → β) (p : β → Bool) (l : List α) :
    ((l.map f).filter p).length = (l.filter (fun a => p (f a))).length := by
  induction l with
  | nil => rfl
  | cons a l ih =>
      rw [List.map_cons, List.filter_cons, List.filter_cons]
      by_cases h : p (f a) = true
      · rw [if_pos h, if_pos h]
        simp [ih]
      · rw [if_neg h, if_neg h]
        exact ih

/-- Counting over a node-wise rewritten board. -/
theorem nodeCount_map (f : GameNode → GameNode) (p : GameNode → Bool)
    (gs : List (List GameNode)) :
    nodeCount p (gs.map (List.map f)) = nodeCount (fun n => p (f n)) gs := by
  unfold nodeCount
  rw [List.map_map]
  congr 1
  apply List.map_congr_left
  intro grp _
  exact filter_map_length f p grp

theorem nodeCount_congr_mem (p : GameNode → Bool) (gs : List (List GameNode))
    (f : GameNode → GameNode)
    (h : ∀ grp ∈ gs, ∀ n ∈ grp, p (f n) = p n) :
    nodeCount p (gs.map (List.map f)) = nodeCount p gs := by
  rw [nodeCount_map]
  unfold nodeCount
  congr 1
  apply List.map_congr_left
  intro grp hgrp
  congr 1
  exact List.filter_congr (fun n hn => h grp hgrp n hn)

theorem nodeCount_congr (p q : GameNode → Bool) (gs : List (List GameNode))
    (h : ∀ n, p n = q n) : nodeCount p gs = nodeCount q gs := by
  unfold nodeCount
  congr 1
  apply List.map_congr_left
  intro grp _
  congr 1
  exact List.filter_congr (fun n _ => h n)

theorem filter_length_split (l : List GameNode) (p q : GameNode → Bool) :
    (l.filter p).length = (l.filter (fun n => p n && q n)).length
      + (l.filter (fun n => p n && ! q n)).length := by
  induction l with
  | nil => rfl
  | cons a l ih =>
      rw [List.filter_cons, List.filter_cons, List.filter_cons]
      by_cases hp : p a = true
      · by_cases hq : q a = true
        · rw [if_pos hp, if_pos (by simp [hp, hq]), if_neg (by simp [hq])]
          simp only [List.length_cons]
          omega
        · rw [if_pos hp, if_neg (by simp [hq]), if_pos (by simp [hp, hq])]
          simp only [List.length_cons]
          omega
      · rw [if_neg hp, if_neg (by simp [hp]), if_neg (by simp [hp])]
        exact ih

theorem nodeCount_split (p q : GameNode → Bool) (gs : List (List GameNode)) :
    nodeCount p gs = nodeCount (fun n => p n && q n) gs
      + nodeCount (fun n => p n && ! q n) gs := by
  induction gs with
  | nil => rfl
  | cons grp gs ih =>
      rw [nodeCount_cons, nodeCount_cons, nodeCount_cons, ih,
        filter_length_split grp p q]
      omega

theorem nodeCount_false (gs : List (List GameNode)) :
    nodeCount (fun _ => false) gs = 0 := by
  unfold nodeCount
  induction gs with
  | nil => rfl
  | cons g gs ih => simpa using ih

/-- A node cannot be both KNOWN and hidden. -/
theorem known_not_unknownish (n : GameNode) :
    n.isKnown = true → n.isUnknownish = false := by
  unfold GameNode.isKnown GameNode.isUnknownish
  cases n.node_type <;> simp

/-- Specification of a successful auto-completion trigger. -/
theorem autoCompleteTarget_spec (gs : List (List GameNode)) (cap : Nat) (c : Color)
    (h : autoCompleteTarget gs cap = some c) :
    0 < knownColorCount gs c ∧ knownColorCount gs c < cap ∧
    unknownTotal gs = cap - knownColorCount gs c ∧ 0 < unknownTotal gs := by
  unfold autoCompleteTarget at h
  cases hf : (knownColors gs).filter
      (fun x => decide (0 < knownColorCount gs x ∧ knownColorCount gs x < cap)) with
  | nil => rw [hf] at h; cases h
  | cons c0 rest =>
      cases rest with
      | nil =>
          rw [hf] at h
          have hc0 : c0 ∈ (knownColors gs).filter
              (fun x => decide (0 < knownColorCount gs x ∧ knownColorCount gs x < cap)) := by
            rw [hf]
            exact List.mem_cons_self _ _
          have hp0 := of_decide_eq_true (List.mem_filter.mp hc0).2
          replace h : (if unknownTotal gs = cap - knownColorCount gs c0
              ∧ 0 < unknownTotal gs then some c0 else none) = some c := h
          split at h
          · obtain rfl : c0 = c := Option.some.inj h
            rename_i hcond
            exact ⟨hp0.1, hp0.2, hcond.1, hcond.2⟩
          · cases h
      | cons c1 rest' =>
          rw [hf] at h
          cases h

/-- The auto-completion replacement, counted: a KNOWN-color key gains the
hidden-unit total when it is the target color and is unchanged otherwise. -/
theorem knownOptCount_autoReplace (gs : List (List GameNode)) (c : Color)
    (d : Option Color) :
    knownOptColorCount (gs.map (List.map (fun n =>
        if n.isUnknownish then ⟨GameNodeType.known, n.original_pos, some c⟩ else n))) d
      = (if d = some c then unknownTotal gs else 0) + knownOptColorCount gs d := by
  have hmap : knownOptColorCount (gs.map (List.map (fun n =>
      if n.isUnknownish then ⟨GameNodeType.known, n.original_pos, some c⟩ else n))) d
      = nodeCount (fun n =>
          ((if n.isUnknownish
            then (⟨GameNodeType.known, n.original_pos, some c⟩ : GameNode)
            else n).isKnown
          ∧ (if n.isUnknownish
            then (⟨GameNodeType.known, n.original_pos, some c⟩ : GameNode)
            else n).color = d : Bool)) gs :=
    nodeCount_map _ _ gs
  have hsplitL := nodeCount_split (fun n =>
      ((if n.isUnknownish
        then (⟨GameNodeType.known, n.original_pos, some c⟩ : GameNode)
        else n).isKnown
      ∧ (if n.isUnknownish
        then (⟨GameNodeType.known, n.original_pos, some c⟩ : GameNode)
        else n).color = d : Bool)) (fun n => n.isUnknownish) gs
  have hsplitR := nodeCount_split (fun n => (n.isKnown ∧ n.color = d : Bool))
    (fun n => n.isUnknownish) gs
  have hA : nodeCount (fun n =>
      ((if n.isUnknownish
        then (⟨GameNodeType.known, n.original_pos, some c⟩ : GameNode)
        else n).isKnown
      ∧ (if n.isUnknownish
        then (⟨GameNodeType.known, n.original_pos, some c⟩ : GameNode)
        else n).color = d : Bool) && n.isUnknownish) gs
      = (if d = some c then unknownTotal gs else 0) := by
    by_cases hd : d = some c
    · rw [if_pos hd]
      subst hd
      unfold unknownTotal
      apply nodeCount_congr
      intro n
      by_cases hu : n.isUnknownish = true
      · simp [hu, GameNode.isKnown]
      · simp [hu]
    · rw [if_neg hd]
      rw [← nodeCount_false gs]
      apply nodeCount_congr
      intro n
      by_cases hu : n.isUnknownish = true
      · simp [hu, GameNode.isKnown]
        intro h
        exact hd h.symm
      · simp [hu]
  have hB : nodeCount (fun n =>
      ((if n.isUnknownish
        then (⟨GameNodeType.known, n.original_pos, some c⟩ : GameNode)
        else n).isKnown
      ∧ (if n.isUnknownish
        then (⟨GameNodeType.known, n.original_pos, some c⟩ : GameNode)
        else n).color = d : Bool) && ! n.isUnknownish) gs
      = nodeCount (fun n => (n.isKnown ∧ n.color = d : Bool) && ! n.isUnknownish) gs := by
    apply nodeCount_congr
    intro n
    by_cases hu : n.isUnknownish = true
    · simp [hu]
    · simp only [hu]
      rw [if_neg (by simpa using hu)]
  have hC : nodeCount (fun n => (n.isKnown ∧ n.color = d : Bool) && n.isUnknownish) gs
      = 0 := by
    rw [← nodeCount_false gs]
    apply nodeCount_congr
    intro n
    by_cases hk : n.isKnown = true
    · simp [known_not_unknownish n hk]
    · simp [hk]
  have hdefR : knownOptColorCount gs d
      = nodeCount (fun n => (n.isKnown ∧ n.color = d : Bool)) gs := rfl
  rw [hmap, hsplitL, hA, hB, hdefR, hsplitR, hC]
  omega

/-- Auto-completion keeps the board free of EMPTY nodes. -/
theorem noEmpty_autoComplete (gs : List (List GameNode)) (cap : Nat)
    (hne : noEmptyNodes gs = true) :
    noEmptyNodes (autoCompleteStep gs cap) = true := by
  unfold autoCompleteStep
  cases autoCompleteTarget gs cap with
  | none => exact hne
  | some c =>
      rw [noEmptyNodes, List.all_eq_true]
      intro tube ht
      rw [List.mem_map] at ht
      obtain ⟨grp, hg, rfl⟩ := ht
      rw [List.all_eq_true]
      intro n hn
      rw [List.mem_map] at hn
      obtain ⟨n0, hn0, rfl⟩ := hn
      have horig := List.all_eq_true.mp (List.all_eq_true.mp hne grp hg) n0 hn0
      by_cases hu : n0.isUnknownish = true
      · simp [hu, GameNode.isEmptyNode]
      · simpa [hu] using horig

/-- Auto-completion preserves the non-empty node total. -/
theorem countedTotal_autoComplete (gs : List (List GameNode)) (cap : Nat) :
    countedTotal (autoCompleteStep gs cap) = countedTotal gs := by
  unfold autoCompleteStep
  cases autoCompleteTarget gs cap with
  | none => rfl
  | some c =>
      unfold countedTotal
      rw [nodeCount_map]
      apply nodeCount_congr
      intro n
      by_cases hu : n.isUnknownish = true
      · have hemp : ¬ n.node_type = GameNodeType.empty := by
          unfold GameNode.isUnknownish at hu
          rcases (by simpa using hu :
              n.node_type = GameNodeType.unknown
                ∨ n.node_type = GameNodeType.unknownRevealed) with h | h <;> simp [h]
        simp [hu, GameNode.isEmptyNode, hemp]
      · simp [hu]

/-- Auto-completion keeps every KNOWN color within the capacity. -/
theorem knownCountsOk_autoComplete (gs : List (List GameNode)) (cap : Nat)
    (hk : knownCountsOk gs cap = true) :
    knownCountsOk (autoCompleteStep gs cap) cap = true := by
  cases htarget : autoCompleteTarget gs cap with
  | none =>
      unfold autoCompleteStep
      rw [htarget]
      exact hk
  | some c =>
      obtain ⟨hpos, hlt, hunk, hupos⟩ := autoCompleteTarget_spec gs cap c htarget
      have hstep : autoCompleteStep gs cap = gs.map (List.map (fun n =>
          if n.isUnknownish then ⟨GameNodeType.known, n.original_pos, some c⟩ else n)) := by
        unfold autoCompleteStep
        rw [htarget]
      have hcount : ∀ d, knownOptColorCount (autoCompleteStep gs cap) d
          = (if d = some c then unknownTotal gs else 0) + knownOptColorCount gs d := by
        intro d
        rw [hstep]
        exact knownOptCount_autoReplace gs c d
      rw [knownCountsOk, List.all_eq_true]
      intro tube ht
      rw [List.all_eq_true]
      intro n hn
      rw [hstep] at ht
      rw [List.mem_map] at ht
      obtain ⟨grp, hg, rfl⟩ := ht
      rw [List.mem_map] at hn
      obtain ⟨n0, hn0, rfl⟩ := hn
      by_cases hu : n0.isUnknownish = true
      · have hrw : (if n0.isUnknownish
            then (⟨GameNodeType.known, n0.original_pos, some c⟩ : GameNode) else n0)
            = ⟨GameNodeType.known, n0.original_pos, some c⟩ := by rw [if_pos hu]
        rw [hrw]
        have hceq : knownOptColorCount (autoCompleteStep gs cap) (some c) = cap := by
          rw [hcount (some c), if_pos rfl]
          have : knownOptColorCount gs (some c) = knownColorCount gs c := rfl
          rw [this, hunk]
          omega
        simp only [hceq]
        simp
      · have hrw : (if n0.isUnknownish
            then (⟨GameNodeType.known, n0.original_pos, some c⟩ : GameNode) else n0)
            = n0 := by rw [if_neg (by simpa using hu)]
        rw [hrw]
        by_cases hkn : n0.isKnown = true
        · have hbound := List.all_eq_true.mp (List.all_eq_true.mp hk grp hg) n0 hn0
          rcases (by simpa using hbound :
              ¬ n0.isKnown = true ∨ knownOptColorCount gs n0.color ≤ cap) with h | h
          · exact absurd hkn h
          · by_cases hdc : n0.color = some c
            · have : knownOptColorCount (autoCompleteStep gs cap) (some c) = cap := by
                rw [hcount (some c), if_pos rfl]
                have heq : knownOptColorCount gs (some c) = knownColorCount gs c := rfl
                rw [heq, hunk]
                omega
              simp [hdc, this]
            · have hcnt : knownOptColorCount (autoCompleteStep gs cap) n0.color
                  = knownOptColorCount gs n0.color := by
                rw [hcount n0.color, if_neg hdc]
                omega
              simp [hcnt, h]
        · simp [hkn]

/-- Sufficient conditions for the constructor to succeed, and the exact
Game it builds. -/
theorem mkGame_succeeds (gs : List (List GameNode)) (u : Int) (cap : Nat)
    (m : GameMode)
    (hne : noEmptyNodes gs = true) (hk : knownCountsOk gs cap = true)
    (hcap : cap ≠ 0) (hdiv : countedTotal gs % cap = 0) :
    mkGame gs u (some cap) m = some (Game.mk (autoCompleteStep gs cap) cap u m
      ((autoCompleteStep gs cap).any (fun t => t.any (fun n => n.isUnknownish)))
      none ∅ false) := by
  have hne' := noEmpty_autoComplete gs cap hne
  have hk' := knownCountsOk_autoComplete gs cap hk
  have hdiv' : countedTotal (autoCompleteStep gs cap) % cap = 0 := by
    rw [countedTotal_autoComplete]
    exact hdiv
  show (match inferCapacity gs (some cap) with
    | none => none
    | some cap =>
        let groups := autoCompleteStep gs cap
        match trimGroups groups with
        | none => none
        | some trimmed =>
            if knownCountsOk trimmed cap ∧ cap ≠ 0 ∧ countedTotal trimmed % cap = 0 then
              some (Game.mk trimmed cap u m
                (groups.any (fun g => g.any (fun n => n.isUnknownish))) none ∅ false)
            else none) = _
  rw [show inferCapacity gs (some cap) = some cap from rfl]
  simp only [trimGroups_of_noEmpty _ hne']
  rw [if_pos ⟨hk', hcap, hdiv'⟩]

/-- Every element of the per-source candidate list is a StepForward. -/
theorem destCandidates_shape (g : Game) (s : Nat) (grp : List GameNode)
    (it : GameNode) (x : GameOperation) (hx : x ∈ destCandidates g s grp it) :
    ∃ a b, x = GameOperation.stepForward a b := by
  unfold destCandidates at hx
  rw [List.mem_filterMap] at hx
  obtain ⟨d, _, h⟩ := hx
  split_ifs at h <;>
    first
      | (exact Option.noConfusion h)
      | (rw [← Option.some.inj h]
         exact ⟨s, d, rfl⟩)

/-- If Undo is enumerated, the Undo-availability condition holds. -/
theorem undo_mem_ops (g : Game) (h : GameOperation.undo ∈ g.ops) :
    g.contain_unknown = true ∧ g.previous_state.isSome = true ∧ 0 < g.undo_count := by
  have hfwd : GameOperation.undo ∉ (g.groups.enum.map
      (fun (p : Nat × List GameNode) =>
        if p.2.length = 0 then []
        else if isGroupCompleted g.group_capacity p.2 then []
        else
          match operativeItem g.game_mode p.2 with
          | none => []
          | some opItem => destCandidates g p.1 p.2 opItem)).flatten := by
    intro hmem
    rw [List.mem_flatten] at hmem
    obtain ⟨l, hl, hx⟩ := hmem
    rw [List.mem_map] at hl
    obtain ⟨⟨i, grp⟩, _, rfl⟩ := hl
    simp only at hx
    split at hx
    · cases hx
    split at hx
    · cases hx
    split at hx
    · cases hx
    · obtain ⟨a, b, hab⟩ := destCandidates_shape _ _ _ _ _ hx
      cases hab
  by_cases hcond : g.contain_unknown = true ∧ g.previous_state.isSome = true
      ∧ 0 < g.undo_count
  · exact hcond
  · exfalso
    apply hfwd
    have : g.ops = (g.groups.enum.map
        (fun (p : Nat × List GameNode) =>
          if p.2.length = 0 then []
          else if isGroupCompleted g.group_capacity p.2 then []
          else
            match operativeItem g.game_mode p.2 with
            | none => []
            | some opItem => destCandidates g p.1 p.2 opItem)).flatten := by
      show (if g.contain_unknown ∧ g.previous_state.isSome ∧ 0 < g.undo_count
        then _ ++ [GameOperation.undo] else _) = _
      rw [if_neg (by simpa using hcond)]
    rw [this] at h
    exact h

/-- C6 (amended).  For a Game `g` with `previous_state = some p`:
`apply_op(Undo)` rebuilds `p`'s tubes with every node at a position in
`g.all_revealed` rewritten to UNKNOWN_REVEALED and feeds them to the
constructor; provided the rebuilt board does not trigger auto-completion
(otherwise the rewritten nodes are turned back into KNOWN) and passes the
constructor checks, the result has exactly those rewritten tubes, its
`previous_state` is `p.previous_state` — the grandparent, skipping the
undone state — its `undo_count` is `g.undo_count - 1`, and its
`all_revealed` is a copy of `g.all_revealed`. -/
theorem c6_undo_semantics (g p : Game)
    (hprev : g.previous_state = some p)
    (hauto : autoCompleteTarget (p.groups.map (revealRewrite g.all_revealed))
        g.group_capacity = none)
    (hne : noEmptyNodes (p.groups.map (revealRewrite g.all_revealed)) = true)
    (hk : knownCountsOk (p.groups.map (revealRewrite g.all_revealed))
        g.group_capacity = true)
    (hcap : g.group_capacity ≠ 0)
    (hdiv : countedTotal (p.groups.map (revealRewrite g.all_revealed))
        % g.group_capacity = 0) :
    ∃ g', g.applyOp GameOperation.undo = some g' ∧
      g'.groups = p.groups.map (revealRewrite g.all_revealed) ∧
      g'.previous_state = p.previous_state ∧
      g'.undo_count = g.undo_count - 1 ∧
      g'.all_revealed = g.all_revealed := by
  have hmk := mkGame_eq_of_checks (p.groups.map (revealRewrite g.all_revealed))
    (g.undo_count - 1) g.group_capacity g.game_mode hauto hne hk hcap hdiv
  refine ⟨(Game.mk (p.groups.map (revealRewrite g.all_revealed)) g.group_capacity
      (g.undo_count - 1) g.game_mode
      ((p.groups.map (revealRewrite g.all_revealed)).any
        (fun gg => gg.any (fun n => n.isUnknownish))) none ∅ false).withHistory
      p.previous_state g.all_revealed false, ?_, rfl, rfl, rfl, rfl⟩
  show applyUndo g = _
  unfold applyUndo
  rw [hprev]
  show (match mkGame (p.groups.map (revealRewrite g.all_revealed))
      (g.undo_count - 1) (some g.group_capacity) g.game_mode with
    | none => none
    | some base =>
        some (base.withHistory p.previous_state g.all_revealed base.revealed_new)) = _
  rw [hmk]
  rfl

/-- Witness for the amended C6 theorem, at a concrete two-tube board whose
parent has a recorded previous state. -/
theorem c6_undo_semantics_witness :
    ∃ g', (Game.mk [[knownNode (0, 0) red, knownNode (1, 0) red], []]
        2 5 GameMode.normal false
        (some (Game.mk [[knownNode (0, 0) red], [knownNode (1, 0) red]]
          2 5 GameMode.normal false none ∅ false)) ∅ false).applyOp
        GameOperation.undo = some g' ∧
      g'.groups = [[knownNode (0, 0) red], [knownNode (1, 0) red]] ∧
      g'.previous_state = none ∧
      g'.undo_count = 4 ∧
      g'.all_revealed = ∅ :=
  c6_undo_semantics
    (Game.mk [[knownNode (0, 0) red, knownNode (1, 0) red], []]
      2 5 GameMode.normal false
      (some (Game.mk [[knownNode (0, 0) red], [knownNode (1, 0) red]]
        2 5 GameMode.normal false none ∅ false)) ∅ false)
    (Game.mk [[knownNode (0, 0) red], [knownNode (1, 0) red]]
      2 5 GameMode.normal false none ∅ false)
    rfl (by decide) (by decide) (by decide) (by decide) (by decide)

/-- C6 counterexample.  After two forward moves from `c6g0`, the Game
`c6g2` has `previous_state = c6g1`.  Applying Undo returns a Game whose
`previous_state` is `c6g0` — the previous Game's `previous_state` (the
grandparent) — and NOT `c6g2`'s own `previous_state` `c6g1`, refuting the
claim's reading of "the pre-move Game's previous_state" (the pre-move Game
is `c6g2`, consistent with the claim's undo_count and all_revealed
clauses). -/
theorem c6_undo_previous_state_cex :
    (c6g2.bind (fun g => g.applyOp GameOperation.undo)).map
        (fun g => g.previous_state.map Game.groups)
      = some (some [[knownNode (0, 0) red, knownNode (0, 1) blue],
                    [knownNode (1, 0) blue, knownNode (1, 1) red], []]) ∧
    c6g2.map (fun g => g.previous_state.map Game.groups)
      = some (some [[knownNode (0, 0) red],
                    [knownNode (1, 0) blue, knownNode (1, 1) red],
                    [knownNode (0, 1) blue]]) ∧
    ([[knownNode (0, 0) red, knownNode (0, 1) blue],
      [knownNode (1, 0) blue, knownNode (1, 1) red], ([] : List GameNode)]
     ≠ [[knownNode (0, 0) red],
        [knownNode (1, 0) blue, knownNode (1, 1) red],
        [knownNode (0, 1) blue]]) := by
  refine ⟨by decide, by decide, by decide⟩

theorem nodeCount_mono (p q : GameNode → Bool) (gs : List (List GameNode))
    (h : ∀ n, p n = true → q n = true) : nodeCount p gs ≤ nodeCount q gs := by
  induction gs with
  | nil => exact Nat.le_refl _
  | cons grp gs ih =>
      rw [nodeCount_cons, nodeCount_cons]
      have hg : (grp.filter p).length ≤ (grp.filter q).length := by
        rw [← List.countP_eq_length_filter, ← List.countP_eq_length_filter]
        exact List.countP_mono_left (fun a _ hpa => h a hpa)
      omega

theorem knownOptPred_revealStable (d : Option Color) :
    revealStable (fun n => n.isKnown ∧ n.color = d) := by
  intro q cc
  simp [GameNode.isKnown]

theorem withHistory_cu (g : Game) (prev : Option Game) (rev : Finset Pos)
    (b : Bool) : (g.withHistory prev rev b).contain_unknown = g.contain_unknown := by
  cases g
  rfl

/-- Auto-completion preserves every tube length. -/
theorem lengths_le_autoComplete (gs : List (List GameNode)) (cap capb : Nat)
    (h : ∀ t ∈ gs, t.length ≤ capb) :
    ∀ t ∈ autoCompleteStep gs cap, t.length ≤ capb := by
  unfold autoCompleteStep
  cases autoCompleteTarget gs cap with
  | none => exact h
  | some c =>
      intro t ht
      rw [List.mem_map] at ht
      obtain ⟨t0, ht0, rfl⟩ := ht
      rw [List.length_map]
      exact h t0 ht0

/-- Auto-completion preserves the invariant tying `contain_unknown` to the
board: the Game built by a successful constructor run satisfies it by
construction (its flag is computed from the very groups it stores). -/
theorem invGame_of_mkGame (gs : List (List GameNode)) (u : Int) (cap : Nat)
    (m : GameMode)
    (hne : noEmptyNodes gs = true) (hk : knownCountsOk gs cap = true)
    (hcap : cap ≠ 0) (hdiv : countedTotal gs % cap = 0)
    (hlen : ∀ t ∈ gs, t.length ≤ cap) :
    InvGame (Game.mk (autoCompleteStep gs cap) cap u m
      ((autoCompleteStep gs cap).any (fun t => t.any (fun n => n.isUnknownish)))
      none ∅ false) = true := by
  have hne' := noEmpty_autoComplete gs cap hne
  have hk' := knownCountsOk_autoComplete gs cap hk
  have hdiv' : countedTotal (autoCompleteStep gs cap) % cap = 0 := by
    rw [countedTotal_autoComplete]
    exact hdiv
  have hlen' := lengths_le_autoComplete gs cap cap hlen
  unfold InvGame
  simp only [Game.groups, Game.group_capacity, Game.contain_unknown]
  refine decide_eq_true ?_
  refine ⟨?_, hk', hdiv', hne', trivial⟩
  rw [List.all_eq_true]
  intro t ht
  simpa using hlen' t ht

/-- A Game also satisfies the invariants after replacing its history
fields. -/
theorem invGame_withHistory (g : Game) (prev : Option Game) (rev : Finset Pos)
    (b : Bool) (h : InvGame g = true) : InvGame (g.withHistory prev rev b) = true := by
  cases g
  exact h

/-- Capacity ≥ 1 whenever the board holds at least one node within the
length bound. -/
theorem cap_pos_of_mem (g : Game) (grp : List GameNode) (n : GameNode)
    (hg : grp ∈ g.groups) (hn : n ∈ grp)
    (hlen : (g.groups.all (fun t => t.length ≤ g.group_capacity)) = true) :
    g.group_capacity ≠ 0 := by
  have h1 := List.all_eq_true.mp hlen grp hg
  have h2 : 1 ≤ grp.length := List.length_pos.mpr (List.ne_nil_of_mem hn)
  have h3 : grp.length ≤ g.group_capacity := by simpa using h1
  omega

/-- C7.  For every Game satisfying the §3 construction invariants — with
the invariants holding for its recorded previous state as well, at the same
capacity — and every op enumerated by `ops()`, `apply_op(op)` succeeds (no
assertion failure, no exception) and produces a Game that again satisfies
the construction invariants: tube lengths at most the capacity, every
distinct KNOWN color key counted at most `capacity` times, the non-empty
node total a multiple of the capacity, no EMPTY below a non-empty node
(indeed no EMPTY at all), and `contain_unknown` equal to the disjunction
over all tubes; the capacity is unchanged. -/
theorem c7_ops_apply_safe (g : Game) (op : GameOperation)
    (hop : op ∈ g.ops) (hinv : InvGame g = true)
    (hprev : ∀ p, g.previous_state = some p →
      InvGame p = true ∧ p.group_capacity = g.group_capacity) :
    ∃ g', g.applyOp op = some g' ∧ InvGame g' = true
      ∧ g'.group_capacity = g.group_capacity := by
  obtain ⟨hlen, hk, hdiv, hne, hcu⟩ :
      (g.groups.all (fun grp => grp.length ≤ g.group_capacity)) = true ∧
      knownCountsOk g.groups g.group_capacity = true ∧
      countedTotal g.groups % g.group_capacity = 0 ∧
      noEmptyNodes g.groups = true ∧
      g.contain_unknown
        = g.groups.any (fun grp => grp.any (fun n => n.isUnknownish)) := by
    simpa [InvGame] using hinv
  cases op with
  | undo =>
      obtain ⟨hcut, hpsome, hupos⟩ := undo_mem_ops g hop
      obtain ⟨p, hp⟩ := Option.isSome_iff_exists.mp hpsome
      obtain ⟨hpinv, hpcap⟩ := hprev p hp
      obtain ⟨hplen, hpk, hpdiv, hpne, hpcu⟩ :
          (p.groups.all (fun grp => grp.length ≤ p.group_capacity)) = true ∧
          knownCountsOk p.groups p.group_capacity = true ∧
          countedTotal p.groups % p.group_capacity = 0 ∧
          noEmptyNodes p.groups = true ∧
          p.contain_unknown
            = p.groups.any (fun grp => grp.any (fun n => n.isUnknownish)) := by
        simpa [InvGame] using hpinv
      have hcap0 : g.group_capacity ≠ 0 := by
        have hany : g.groups.any (fun grp => grp.any (fun n => n.isUnknownish))
            = true := by
          rw [← hcu]
          exact hcut
        obtain ⟨grp, hg, h2⟩ := List.any_eq_true.mp hany
        obtain ⟨n, hn, _⟩ := List.any_eq_true.mp h2
        exact cap_pos_of_mem g grp n hg hn hlen
      have hRnodes : p.groups.map (revealRewrite g.all_revealed)
          = p.groups.map (List.map (fun n =>
              if n.original_pos ∈ g.all_revealed
              then ⟨GameNodeType.unknownRevealed, n.original_pos, none⟩ else n)) := rfl
      have hneR : noEmptyNodes (p.groups.map (revealRewrite g.all_revealed)) = true := by
        rw [noEmptyNodes, List.all_eq_true]
        intro tube ht
        rw [List.mem_map] at ht
        obtain ⟨t0, ht0, rfl⟩ := ht
        rw [List.all_eq_true]
        intro n hn
        rw [revealRewrite, List.mem_map] at hn
        obtain ⟨n0, hn0, rfl⟩ := hn
        have h0 := List.all_eq_true.mp (List.all_eq_true.mp hpne t0 ht0) n0 hn0
        by_cases hrv : n0.original_pos ∈ g.all_revealed
        · simp [hrv, GameNode.isEmptyNode]
        · simpa [hrv] using h0
      have hcntR : ∀ d, knownOptColorCount (p.groups.map (revealRewrite g.all_revealed)) d
          ≤ knownOptColorCount p.groups d := by
        intro d
        rw [hRnodes]
        unfold knownOptColorCount
        rw [nodeCount_map]
        apply nodeCount_mono
        intro n hpn
        by_cases hrv : n.original_pos ∈ g.all_revealed
        · rw [if_pos hrv] at hpn
          exact absurd hpn (by simp [GameNode.isKnown])
        · rwa [if_neg hrv] at hpn
      have hkR : knownCountsOk (p.groups.map (revealRewrite g.all_revealed))
          g.group_capacity = true := by
        rw [knownCountsOk, List.all_eq_true]
        intro tube ht
        rw [List.all_eq_true]
        intro n hn
        have hmemR := ht
        rw [List.mem_map] at hmemR
        obtain ⟨t0, ht0, rfl⟩ := hmemR
        have hn' := hn
        rw [revealRewrite, List.mem_map] at hn'
        obtain ⟨n0, hn0, rfl⟩ := hn'
        by_cases hrv : n0.original_pos ∈ g.all_revealed
        · rw [if_pos hrv]
          simp [GameNode.isKnown]
        · rw [if_neg hrv]
          by_cases hknown : n0.isKnown = true
          · have hb := List.all_eq_true.mp (List.all_eq_true.mp hpk t0 ht0) n0 hn0
            rcases (by simpa using hb :
                ¬ n0.isKnown = true
                  ∨ knownOptColorCount p.groups n0.color ≤ p.group_capacity) with hx | hx
            · exact absurd hknown hx
            · have hle := hcntR n0.color
              rw [hpcap] at hx
              simpa using Or.inr (le_trans hle hx)
          · simpa using Or.inl hknown
      have hdivR : countedTotal (p.groups.map (revealRewrite g.all_revealed))
          % g.group_capacity = 0 := by
        have hcongr : countedTotal (p.groups.map (revealRewrite g.all_revealed))
            = countedTotal p.groups := by
          rw [hRnodes]
          unfold countedTotal
          apply nodeCount_congr_mem
          intro t0 ht0 n0 hn0
          have h0 := List.all_eq_true.mp (List.all_eq_true.mp hpne t0 ht0) n0 hn0
          by_cases hrv : n0.original_pos ∈ g.all_revealed
          · rw [if_pos hrv]
            have h0' : ¬ n0.node_type = GameNodeType.empty := by
              simpa [GameNode.isEmptyNode] using h0
            simp [GameNode.isEmptyNode, h0']
          · rw [if_neg hrv]
        rw [hcongr, ← hpcap]
        exact hpdiv
      have hmk := mkGame_succeeds (p.groups.map (revealRewrite g.all_revealed))
        (g.undo_count - 1) g.group_capacity g.game_mode hneR hkR hcap0 hdivR
      refine ⟨(Game.mk (autoCompleteStep (p.groups.map (revealRewrite g.all_revealed))
          g.group_capacity) g.group_capacity (g.undo_count - 1) g.game_mode
          ((autoCompleteStep (p.groups.map (revealRewrite g.all_revealed))
            g.group_capacity).any (fun t => t.any (fun n => n.isUnknownish)))
          none ∅ false).withHistory p.previous_state g.all_revealed false,
        ?_, ?_, ?_⟩
      · show applyUndo g = _
        unfold applyUndo
        rw [hp]
        show (match mkGame (p.groups.map (revealRewrite g.all_revealed))
            (g.undo_count - 1) (some g.group_capacity) g.game_mode with
          | none => none
          | some base =>
              some (base.withHistory p.previous_state g.all_revealed
                base.revealed_new)) = _
        rw [hmk]
        rfl
      · apply invGame_withHistory
        apply invGame_of_mkGame _ _ _ _ hneR hkR hcap0 hdivR
        intro t ht
        rw [List.mem_map] at ht
        obtain ⟨t0, ht0, rfl⟩ := ht
        rw [revealRewrite, List.length_map]
        have h1 := List.all_eq_true.mp hplen t0 ht0
        rw [← hpcap]
        simpa using h1
      · rw [withHistory_capacity]
        rfl
  | stepForward src dst =>
      obtain ⟨srcGroup, opItem, hsrc, hslen, hscomp, hopitem, hdmem, hsd, hskip, hrule⟩ :=
        (ops_forward_membership g src dst).mp hop
      obtain ⟨hdlt, hdcap⟩ := mem_availableDests g dst hdmem
      obtain ⟨dstGroup, hd⟩ : ∃ dg, g.groups[dst]? = some dg := by
        cases hcase : g.groups[dst]? with
        | none =>
            rw [List.getElem?_eq_none_iff] at hcase
            omega
        | some dg => exact ⟨dg, rfl⟩
      have hdg : dstGroupAt g dst = dstGroup := by
        rw [dstGroupAt, List.getD_eq_getElem?_getD, hd]
        rfl
      have hdglen : dstGroup.length < g.group_capacity := by
        rw [← hdg]
        exact hdcap
      have hsmem : srcGroup ∈ g.groups := List.getElem?_mem hsrc
      have hdmem' : dstGroup ∈ g.groups := List.getElem?_mem hd
      have hsnonnil : srcGroup ≠ [] := by
        intro h0
        rw [h0] at hslen
        exact hslen rfl
      obtain ⟨n0, hn0⟩ := List.exists_mem_of_ne_nil srcGroup hsnonnil
      have hcap0 := cap_pos_of_mem g srcGroup n0 hsmem hn0 hlen
      have hcnt : ∀ (pb : GameNode → Bool), revealStable pb →
          nodeCount pb ((g.groups.set src
            (revealTop (movedPair g.game_mode g.group_capacity opItem
              srcGroup dstGroup).1)).set dst
            (movedPair g.game_mode g.group_capacity opItem srcGroup dstGroup).2)
          = nodeCount pb g.groups :=
        fun pb hpb => move_nodeCount g src dst srcGroup dstGroup hsd hsrc hd opItem pb hpb
      have hneNG := noEmpty_move g src dst srcGroup dstGroup opItem hne hsrc hd
      have hkNG : knownCountsOk ((g.groups.set src
          (revealTop (movedPair g.game_mode g.group_capacity opItem
            srcGroup dstGroup).1)).set dst
          (movedPair g.game_mode g.group_capacity opItem srcGroup dstGroup).2)
          g.group_capacity = true := by
        rw [knownCountsOk, List.all_eq_true]
        intro tube ht
        rw [List.all_eq_true]
        intro n hn
        by_cases hknown : n.isKnown = true
        · have hnmem : ∃ t ∈ g.groups, n ∈ t := by
            rcases mem_move_groups g src dst srcGroup dstGroup opItem tube ht with
              h | h | h
            · exact ⟨tube, h, hn⟩
            · subst h
              rcases revealTop_mem _ n hn with h2 | h2
              · have h3 := (movedPair_perm g.game_mode g.group_capacity opItem
                  srcGroup dstGroup).mem_iff.mp (List.mem_append.mpr (Or.inl h2))
                rcases List.mem_append.mp h3 with h4 | h4
                · exact ⟨srcGroup, hsmem, h4⟩
                · exact ⟨dstGroup, hdmem', h4⟩
              · exact absurd hknown (by simp [GameNode.isKnown, h2])
            · subst h
              have h3 := (movedPair_perm g.game_mode g.group_capacity opItem
                srcGroup dstGroup).mem_iff.mp (List.mem_append.mpr (Or.inr hn))
              rcases List.mem_append.mp h3 with h4 | h4
              · exact ⟨srcGroup, hsmem, h4⟩
              · exact ⟨dstGroup, hdmem', h4⟩
          obtain ⟨t, htmem, hnt⟩ := hnmem
          have hb := List.all_eq_true.mp (List.all_eq_true.mp hk t htmem) n hnt
          rcases (by simpa using hb : ¬ n.isKnown = true
              ∨ knownOptColorCount g.groups n.color ≤ g.group_capacity) with hx | hx
          · exact absurd hknown hx
          · have hEq : knownOptColorCount ((g.groups.set src
                (revealTop (movedPair g.game_mode g.group_capacity opItem
                  srcGroup dstGroup).1)).set dst
                (movedPair g.game_mode g.group_capacity opItem srcGroup dstGroup).2)
                n.color
                = knownOptColorCount g.groups n.color :=
              hcnt _ (knownOptPred_revealStable n.color)
            simpa [hEq] using Or.inr hx
        · simpa using Or.inl hknown
      have hdivNG : countedTotal ((g.groups.set src
          (revealTop (movedPair g.game_mode g.group_capacity opItem
            srcGroup dstGroup).1)).set dst
          (movedPair g.game_mode g.group_capacity opItem srcGroup dstGroup).2)
          % g.group_capacity = 0 := by
        have h1 : countedTotal ((g.groups.set src
            (revealTop (movedPair g.game_mode g.group_capacity opItem
              srcGroup dstGroup).1)).set dst
            (movedPair g.game_mode g.group_capacity opItem srcGroup dstGroup).2)
            = countedTotal g.groups := hcnt _ notEmptyPred_revealStable
        rw [h1]
        exact hdiv
      have hlenNG : ∀ t ∈ ((g.groups.set src
          (revealTop (movedPair g.game_mode g.group_capacity opItem
            srcGroup dstGroup).1)).set dst
          (movedPair g.game_mode g.group_capacity opItem srcGroup dstGroup).2),
          t.length ≤ g.group_capacity := by
        intro t ht
        rcases mem_move_groups g src dst srcGroup dstGroup opItem t ht with h | h | h
        · simpa using List.all_eq_true.mp hlen t h
        · subst h
          rw [revealTop_length]
          have h1 := movedPair_src_le g.game_mode g.group_capacity opItem
            srcGroup dstGroup
          have h2 : srcGroup.length ≤ g.group_capacity := by
            simpa using List.all_eq_true.mp hlen srcGroup hsmem
          omega
        · subst h
          exact movedPair_dst_le g.game_mode g.group_capacity opItem
            srcGroup dstGroup hdglen
      have hmk := mkGame_succeeds ((g.groups.set src
          (revealTop (movedPair g.game_mode g.group_capacity opItem
            srcGroup dstGroup).1)).set dst
          (movedPair g.game_mode g.group_capacity opItem srcGroup dstGroup).2)
        g.undo_count g.group_capacity g.game_mode hneNG hkNG hcap0 hdivNG
      cases hrpc : revealPosOf (movedPair g.game_mode g.group_capacity opItem
          srcGroup dstGroup).1 with
      | some q =>
          refine ⟨(Game.mk (autoCompleteStep ((g.groups.set src
                  (revealTop (movedPair g.game_mode g.group_capacity opItem
                    srcGroup dstGroup).1)).set dst
                  (movedPair g.game_mode g.group_capacity opItem
                    srcGroup dstGroup).2) g.group_capacity)
                g.group_capacity g.undo_count g.game_mode
                ((autoCompleteStep ((g.groups.set src
                  (revealTop (movedPair g.game_mode g.group_capacity opItem
                    srcGroup dstGroup).1)).set dst
                  (movedPair g.game_mode g.group_capacity opItem
                    srcGroup dstGroup).2) g.group_capacity).any
                  (fun t => t.any (fun n => n.isUnknownish)))
                none ∅ false).withHistory (some g) (insert q g.all_revealed) true,
            ?_, ?_, ?_⟩
          · show applyStepForward g src dst = _
            unfold applyStepForward
            rw [if_neg hsd]
            simp only [hsrc, hd, hopitem, hmk, hrpc]
          · apply invGame_withHistory
            exact invGame_of_mkGame _ g.undo_count g.group_capacity g.game_mode
              hneNG hkNG hcap0 hdivNG hlenNG
          · rw [withHistory_capacity]
            rfl
      | none =>
          refine ⟨(Game.mk (autoCompleteStep ((g.groups.set src
                  (revealTop (movedPair g.game_mode g.group_capacity opItem
                    srcGroup dstGroup).1)).set dst
                  (movedPair g.game_mode g.group_capacity opItem
                    srcGroup dstGroup).2) g.group_capacity)
                g.group_capacity g.undo_count g.game_mode
                ((autoCompleteStep ((g.groups.set src
                  (revealTop (movedPair g.game_mode g.group_capacity opItem
                    srcGroup dstGroup).1)).set dst
                  (movedPair g.game_mode g.group_capacity opItem
                    srcGroup dstGroup).2) g.group_capacity).any
                  (fun t => t.any (fun n => n.isUnknownish)))
                none ∅ false).withHistory (some g) g.all_revealed false,
            ?_, ?_, ?_⟩
          · show applyStepForward g src dst = _
            unfold applyStepForward
            rw [if_neg hsd]
            simp only [hsrc, hd, hopitem, hmk, hrpc]
          · apply invGame_withHistory
            exact invGame_of_mkGame _ g.undo_count g.group_capacity g.game_mode
              hneNG hkNG hcap0 hdivNG hlenNG
          · rw [withHistory_capacity]
            rfl

/-- Witness for C7: the theorem applied at the concrete board `c10Game`
with the operation StepForward 0 → 2, all hypotheses discharged there. -/
theorem c7_ops_apply_safe_witness :
    ∃ g', c10Game.applyOp (GameOperation.stepForward 0 2) = some g'
      ∧ InvGame g' = true ∧ g'.group_capacity = c10Game.group_capacity :=
  c7_ops_apply_safe c10Game (GameOperation.stepForward 0 2)
    (by decide) (by decide)
    (fun p hp => Option.noConfusion hp)

theorem nodeTypeOfString_value (s : String) (t : GameNodeType)
    (h : nodeTypeOfString s = some t) : nodeTypeValue t = s := by
  unfold nodeTypeOfString at h
  split_ifs at h with h1 h2 h3 h4
  · cases h
    subst h1
    rfl
  · cases h
    subst h2
    rfl
  · cases h
    subst h3
    rfl
  · cases h
    subst h4
    rfl

theorem modeFromName_name (s : String) (m : GameMode)
    (h : modeFromName s = some m) : m.name = s := by
  unfold modeFromName at h
  split_ifs at h with h1 h2 h3
  · cases h
    subst h1
    rfl
  · cases h
    subst h2
    rfl
  · cases h
    subst h3
    rfl

/-- Parsing then re-serialising one canonical node object is the
identity. -/
theorem node_to_from_json (nd : NodeJson) (n : GameNode)
    (hc : canonicalNode nd = true) (h : node_from_json nd = some n) :
    node_to_json n = nd := by
  unfold node_from_json at h
  cases ht : nodeTypeOfString nd.nodeType with
  | none =>
      rw [ht] at h
      exact Option.noConfusion h
  | some t =>
      rw [ht] at h
      have hval := nodeTypeOfString_value nd.nodeType t ht
      replace h : (if t = GameNodeType.known then
          match nd.color with
          | none => none
          | some s =>
              match hex_to_rgb s with
              | none => none
              | some c => some (⟨t, nd.originalPos, some c⟩ : GameNode)
        else some (⟨t, nd.originalPos, none⟩ : GameNode)) = some n := h
      by_cases hk : t = GameNodeType.known
      · rw [if_pos hk] at h
        cases hcol : nd.color with
        | none =>
            rw [hcol] at h
            exact Option.noConfusion h
        | some s =>
            rw [hcol] at h
            replace h : (match hex_to_rgb s with
              | none => none
              | some c => some (⟨t, nd.originalPos, some c⟩ : GameNode))
                = some n := h
            cases hx : hex_to_rgb s with
            | none =>
                rw [hx] at h
                exact Option.noConfusion h
            | some c =>
                rw [hx] at h
                have hn := Option.some.inj h
                subst hk
                have hcanon : rgb_to_hex c = s := by
                  unfold canonicalNode at hc
                  rw [if_pos (by rw [← hval]; rfl), hcol] at hc
                  replace hc : decide (Option.map rgb_to_hex (hex_to_rgb s)
                      = some s) = true := hc
                  rw [hx] at hc
                  simpa using hc
                cases nd with
                | mk ntStr pos col =>
                    rw [← hn]
                    show (⟨".", pos, some (rgb_to_hex c)⟩ : NodeJson)
                      = ⟨ntStr, pos, col⟩
                    simp only [NodeJson.mk.injEq]
                    refine ⟨hval, trivial, ?_⟩
                    rw [hcanon]
                    exact hcol.symm
      · rw [if_neg hk] at h
        replace h : some (⟨t, nd.originalPos, none⟩ : GameNode) = some n := h
        have hn := Option.some.inj h
        have hdot : nd.nodeType ≠ "." := by
          intro hdot
          apply hk
          have h2 : nodeTypeOfString nd.nodeType = some GameNodeType.known := by
            rw [hdot]
            rfl
          exact Option.some.inj (ht.symm.trans h2)
        have hcol : nd.color = none := by
          unfold canonicalNode at hc
          rw [if_neg hdot] at hc
          simpa using hc
        cases t with
        | known => exact absurd rfl hk
        | unknown =>
            cases nd with
            | mk ntStr pos col =>
                rw [← hn]
                show (⟨"?", pos, none⟩ : NodeJson) = ⟨ntStr, pos, col⟩
                simp only [NodeJson.mk.injEq]
                exact ⟨hval, trivial, hcol.symm⟩
        | unknownRevealed =>
            cases nd with
            | mk ntStr pos col =>
                rw [← hn]
                show (⟨"!", pos, none⟩ : NodeJson) = ⟨ntStr, pos, col⟩
                simp only [NodeJson.mk.injEq]
                exact ⟨hval, trivial, hcol.symm⟩
        | empty =>
            cases nd with
            | mk ntStr pos col =>
                rw [← hn]
                show (⟨"_", pos, none⟩ : NodeJson) = ⟨ntStr, pos, col⟩
                simp only [NodeJson.mk.injEq]
                exact ⟨hval, trivial, hcol.symm⟩

/-- Parsing then re-serialising a canonical tube is the identity. -/
theorem parseNodes_to_json (tube : List NodeJson) (ns : List GameNode)
    (hc : tube.all (fun nd => canonicalNode nd) = true)
    (h : parseNodes tube = some ns) :
    ns.map node_to_json = tube := by
  induction tube generalizing ns with
  | nil =>
      replace h : some ([] : List GameNode) = some ns := h
      rw [← Option.some.inj h]
      rfl
  | cons nd rest ih =>
      rw [List.all_cons] at hc
      obtain ⟨hc1, hc2⟩ : canonicalNode nd = true ∧
          (rest.all fun x => canonicalNode x) = true := by simpa using hc
      unfold parseNodes at h
      cases hnd : node_from_json nd with
      | none =>
          rw [hnd] at h
          exact Option.noConfusion h
      | some n =>
          rw [hnd] at h
          cases hrest : parseNodes rest with
          | none =>
              rw [hrest] at h
              exact Option.noConfusion h
          | some ns0 =>
              rw [hrest] at h
              replace h : some (n :: ns0) = some ns := h
              rw [← Option.some.inj h]
              rw [List.map_cons]
              rw [node_to_from_json nd n hc1 hnd, ih ns0 hc2 hrest]

/-- Parsing then re-serialising a canonical node grid is the identity. -/
theorem parseGroups_to_json (tubes : List (List NodeJson))
    (gs : List (List GameNode))
    (hc : tubes.all (fun tube => tube.all (fun nd => canonicalNode nd)) = true)
    (h : parseGroups tubes = some gs) :
    gs.map (fun ns => ns.map node_to_json) = tubes := by
  induction tubes generalizing gs with
  | nil =>
      replace h : some ([] : List (List GameNode)) = some gs := h
      rw [← Option.some.inj h]
      rfl
  | cons tube rest ih =>
      rw [List.all_cons] at hc
      obtain ⟨hc1, hc2⟩ : (tube.all fun nd => canonicalNode nd) = true ∧
          (rest.all fun x => x.all fun nd => canonicalNode nd) = true := by
        simpa using hc
      unfold parseGroups at h
      cases htube : parseNodes tube with
      | none =>
          rw [htube] at h
          exact Option.noConfusion h
      | some g2 =>
          rw [htube] at h
          cases hrest : parseGroups rest with
          | none =>
              rw [hrest] at h
              exact Option.noConfusion h
          | some gs0 =>
              rw [hrest] at h
              replace h : some (g2 :: gs0) = some gs := h
              rw [← Option.some.inj h]
              rw [List.map_cons]
              rw [parseNodes_to_json tube g2 hc1 htube, ih gs0 hc2 hrest]

/-- A parsed node whose JSON type is not `"_"` is not an EMPTY node. -/
theorem node_from_json_not_empty (nd : NodeJson) (n : GameNode)
    (hnu : nd.nodeType ≠ "_") (h : node_from_json nd = some n) :
    n.isEmptyNode = false := by
  unfold node_from_json at h
  cases ht : nodeTypeOfString nd.nodeType with
  | none =>
      rw [ht] at h
      exact Option.noConfusion h
  | some t =>
      rw [ht] at h
      have hval := nodeTypeOfString_value nd.nodeType t ht
      replace h : (if t = GameNodeType.known then
          match nd.color with
          | none => none
          | some s =>
              match hex_to_rgb s with
              | none => none
              | some c => some (⟨t, nd.originalPos, some c⟩ : GameNode)
        else some (⟨t, nd.originalPos, none⟩ : GameNode)) = some n := h
      have hte : t ≠ GameNodeType.empty := by
        intro hte
        apply hnu
        rw [← hval, hte]
        rfl
      by_cases hk : t = GameNodeType.known
      · rw [if_pos hk] at h
        cases hcol : nd.color with
        | none =>
            rw [hcol] at h
            exact Option.noConfusion h
        | some s =>
            rw [hcol] at h
            replace h : (match hex_to_rgb s with
              | none => none
              | some c => some (⟨t, nd.originalPos, some c⟩ : GameNode))
                = some n := h
            cases hx : hex_to_rgb s with
            | none =>
                rw [hx] at h
                exact Option.noConfusion h
            | some c =>
                rw [hx] at h
                rw [← Option.some.inj h]
                simp [GameNode.isEmptyNode, hte]
      · rw [if_neg hk] at h
        replace h : some (⟨t, nd.originalPos, none⟩ : GameNode) = some n := h
        rw [← Option.some.inj h]
        simp [GameNode.isEmptyNode, hte]

/-- A parsed tube with no `"_"` node objects has no EMPTY nodes. -/
theorem parseNodes_noEmpty (tube : List NodeJson) (ns : List GameNode)
    (hnu : tube.all (fun nd => nd.nodeType ≠ "_") = true)
    (h : parseNodes tube = some ns) :
    ns.all (fun n => ! n.isEmptyNode) = true := by
  induction tube generalizing ns with
  | nil =>
      replace h : some ([] : List GameNode) = some ns := h
      rw [← Option.some.inj h]
      rfl
  | cons nd rest ih =>
      rw [List.all_cons] at hnu
      obtain ⟨h1, h2⟩ : nd.nodeType ≠ "_" ∧
          (rest.all fun x => decide ¬ x.nodeType = "_") = true := by simpa using hnu
      unfold parseNodes at h
      cases hnd : node_from_json nd with
      | none =>
          rw [hnd] at h
          exact Option.noConfusion h
      | some n =>
          rw [hnd] at h
          cases hrest : parseNodes rest with
          | none =>
              rw [hrest] at h
              exact Option.noConfusion h
          | some ns0 =>
              rw [hrest] at h
              replace h : some (n :: ns0) = some ns := h
              rw [← Option.some.inj h]
              rw [List.all_cons]
              rw [node_from_json_not_empty nd n h1 hnd, ih ns0 h2 hrest]
              rfl

/-- A parsed node grid with no `"_"` node objects has no EMPTY nodes. -/
theorem parseGroups_noEmpty (tubes : List (List NodeJson))
    (gs : List (List GameNode))
    (hnu : tubes.all (fun tube => tube.all (fun nd => nd.nodeType ≠ "_")) = true)
    (h : parseGroups tubes = some gs) :
    noEmptyNodes gs = true := by
  induction tubes generalizing gs with
  | nil =>
      replace h : some ([] : List (List GameNode)) = some gs := h
      rw [← Option.some.inj h]
      rfl
  | cons tube rest ih =>
      rw [List.all_cons] at hnu
      obtain ⟨h1, h2⟩ : (tube.all fun nd => decide ¬ nd.nodeType = "_") = true ∧
          (rest.all fun x => x.all fun nd => decide ¬ nd.nodeType = "_") = true := by
        simpa using hnu
      unfold parseGroups at h
      cases htube : parseNodes tube with
      | none =>
          rw [htube] at h
          exact Option.noConfusion h
      | some g2 =>
          rw [htube] at h
          cases hrest : parseGroups rest with
          | none =>
              rw [hrest] at h
              exact Option.noConfusion h
          | some gs0 =>
              rw [hrest] at h
              replace h : some (g2 :: gs0) = some gs := h
              rw [← Option.some.inj h]
              unfold noEmptyNodes
              rw [List.all_cons]
              have hg2 : (g2.all fun n => ! n.isEmptyNode) = true := by
                have := parseNodes_noEmpty tube g2 (by simpa using h1) htube
                simpa using this
              have hgs0 := ih gs0 h2 hrest
              unfold noEmptyNodes at hgs0
              rw [show (g2.all fun n => decide ¬ n.isEmptyNode = true) = true by
                simpa using hg2]
              rw [hgs0]
              rfl

/-- C9 counterexample.  `c9Board` is a valid board JSON — its single tube
holds one EMPTY (`"_"`) node, which the schema allows — and
`game_from_json` accepts it, but the constructor trims the EMPTY node, so
`game_to_json(game_from_json(x))` reproduces neither the tube contents
nor the node: the serialised `groups` is `[[]]`, not `x["groups"]`. -/
theorem c9_round_trip_cex :
    (game_from_json c9Board).isSome = true ∧
    (game_from_json c9Board).map (fun g => (game_to_json g).groups)
      ≠ some c9Board.groups := by
  decide

/-- C9 (amended).  The round trip `game_to_json ∘ game_from_json` is the
identity on the modelled fields only for boards already in the
serialiser's canonical form: every color string lowercase `#rrggbb`, no
EMPTY (`"_"`) nodes (the constructor trims them), a board that does not
trigger the constructor's auto-completion (which rewrites unknown nodes
to KNOWN), an explicit `groupCapacity`, and a `gameMode` name string.
Then the parsed Game re-serialises to the same `groups`, `undoCount`,
`gameMode`, `groupCapacity` and `rows`. -/
theorem c9_round_trip (b : BoardJson) (gs : List (List GameNode)) (g : Game)
    (u : Int) (cap : Nat) (s : String) (m : GameMode)
    (hu : b.undoCount = some u)
    (hcap : b.groupCapacity = some cap)
    (hs : b.gameMode = some s)
    (hm : modeFromName s = some m)
    (hgs : parseGroups b.groups = some gs)
    (hcanon : b.groups.all (fun tube => tube.all (fun nd => canonicalNode nd)) = true)
    (hnu : b.groups.all (fun tube => tube.all (fun nd => nd.nodeType ≠ "_")) = true)
    (hauto : autoCompleteTarget gs cap = none)
    (hparse : game_from_json b = some g) :
    (game_to_json g).groups = b.groups ∧
    (game_to_json g).undoCount = some u ∧
    (game_to_json g).gameMode = some s ∧
    (game_to_json g).groupCapacity = some cap ∧
    (game_to_json g).rows = some cap := by
  unfold game_from_json at hparse
  rw [hgs] at hparse
  replace hparse : mkGame gs (b.undoCount.getD 5)
      (b.groupCapacity.orElse (fun _ => b.rows))
      (parseMode b.gameMode b.mode) = some g := hparse
  rw [hu, hcap, hs] at hparse
  have hmode : parseMode (some s) b.mode = m := by
    show (match modeFromName s with
      | some m => m
      | none =>
          match s.toInt? with
          | some n =>
              if 0 ≤ n then (modeFromValue n.toNat).getD GameMode.normal
              else GameMode.normal
          | none => GameMode.normal) = m
    rw [hm]
  rw [hmode] at hparse
  replace hparse : mkGame gs u (some cap) m = some g := hparse
  have hnegs : noEmptyNodes gs = true := parseGroups_noEmpty b.groups gs hnu hgs
  have hg := mkGame_inv gs u cap m g hauto hnegs hparse
  subst hg
  refine ⟨?_, rfl, ?_, rfl, rfl⟩
  · show gs.map (fun ns => ns.map node_to_json) = b.groups
    exact parseGroups_to_json b.groups gs hcanon hgs
  · show some m.name = some s
    rw [modeFromName_name s m hm]

/-- Witness for the amended C9 theorem at the concrete canonical board
`c9GoodBoard`, whose parse is `c9GoodGame`. -/
theorem c9_round_trip_witness :
    (game_to_json c9GoodGame).groups = c9GoodBoard.groups ∧
    (game_to_json c9GoodGame).undoCount = some 5 ∧
    (game_to_json c9GoodGame).gameMode = some ("NORMAL") ∧
    (game_to_json c9GoodGame).groupCapacity = some 2 ∧
    (game_to_json c9GoodGame).rows = some 2 :=
  c9_round_trip c9GoodBoard c9Gs c9GoodGame 5 2 "NORMAL" GameMode.normal
    rfl rfl rfl rfl rfl (by decide) (by decide) (by decide) rfl

/-- The popped element together with the rest is a permutation of the
frontier. -/
theorem popMin_perm (x : SearchState) (xs : List SearchState) :
    List.Perm ((popMin x xs).1 :: (popMin x xs).2) (x :: xs) := by
  induction xs generalizing x with
  | nil => exact List.Perm.refl _
  | cons y rest ih =>
      unfold popMin
      by_cases h : SearchState.valueLt y x = true
      · rw [if_pos h]
        have h1 := ih y
        have h2 : List.Perm ((popMin y rest).1 :: x :: (popMin y rest).2)
            (x :: (popMin y rest).1 :: (popMin y rest).2) :=
          List.Perm.swap _ _ _
        exact h2.trans (List.Perm.cons x h1)
      · rw [if_neg h]
        have h1 := ih x
        have h2 : List.Perm ((popMin x rest).1 :: y :: (popMin x rest).2)
            (y :: (popMin x rest).1 :: (popMin x rest).2) :=
          List.Perm.swap _ _ _
        exact (h2.trans (List.Perm.cons y h1)).trans (List.Perm.swap x y rest)

theorem lookupKey_none_iff (d : List (Finset TubeDesc × Int))
    (k : Finset TubeDesc) :
    lookupKey d k = none ↔ ∀ kv ∈ d, kv.1 ≠ k := by
  induction d with
  | nil => simp [lookupKey]
  | cons kv rest ih =>
      rcases kv with ⟨k0, u⟩
      unfold lookupKey
      by_cases h : k0 = k
      · rw [if_pos h]
        simp [h]
      · rw [if_neg h]
        rw [ih]
        constructor
        · intro ha
          intro kv2 hkv2
          rcases List.mem_cons.mp hkv2 with h2 | h2
          · rw [h2]
            exact h
          · exact ha kv2 h2
        · intro ha kv2 hkv2
          exact ha kv2 (List.mem_cons_of_mem _ hkv2)

/-- Every list over `D` of length at most `k` lies in `listsUpTo D k`. -/
theorem mem_listsUpTo (D : Finset (GameNodeType × Option Color × Option Pos))
    (l : TubeDesc) :
    ∀ (k : Nat), (∀ x ∈ l, x ∈ D) → l.length ≤ k → l ∈ listsUpTo D k := by
  induction l with
  | nil =>
      intro k _ _
      cases k with
      | zero => simp [listsUpTo]
      | succ k => simp [listsUpTo]
  | cons d rest ih =>
      intro k hmem hlen
      cases k with
      | zero => simp at hlen
      | succ k =>
          unfold listsUpTo
          rw [Finset.mem_union]
          right
          rw [Finset.mem_biUnion]
          refine ⟨d, hmem d (List.mem_cons_self d rest), ?_⟩
          rw [Finset.mem_image]
          refine ⟨rest, ?_, rfl⟩
          exact ih k (fun x hx => hmem x (List.mem_cons_of_mem d hx))
            (by simp at hlen; omega)

/-- The structural key of a game whose node descriptors draw on `D` and
whose tubes respect the capacity lies inside the powerset of
`listsUpTo D cap`. -/
theorem toFrozensets_mem_powerset (g : Game)
    (D : Finset (GameNodeType × Option Color × Option Pos)) (cap : Nat)
    (hD : ∀ t ∈ g.groups, ∀ nd ∈ t, descOf nd ∈ D)
    (hlen : ∀ t ∈ g.groups, t.length ≤ cap) :
    g.toFrozensets ∈ (listsUpTo D cap).powerset := by
  rw [Finset.mem_powerset]
  intro d hd
  unfold Game.toFrozensets at hd
  rw [List.mem_toFinset, List.mem_map] at hd
  obtain ⟨t, ht, rfl⟩ := hd
  unfold tubeDesc
  apply mem_listsUpTo
  · intro x hx
    rw [List.mem_map] at hx
    obtain ⟨nd, hnd, rfl⟩ := hx
    exact hD t ht nd hnd
  · rw [List.length_map]
    exact hlen t ht

/-- A duplicate-free list of elements of a finset is no longer than its
card. -/
theorem nodup_mem_length_le {α : Type _} [DecidableEq α] (l : List α)
    (s : Finset α) (hnd : l.Nodup) (hmem : ∀ x ∈ l, x ∈ s) :
    l.length ≤ s.card := by
  have h1 : l.toFinset.card = l.length := List.toFinset_card_of_nodup hnd
  have h2 : l.toFinset ⊆ s := by
    intro x hx
    exact hmem x (List.mem_toFinset.mp hx)
  rw [← h1]
  exact Finset.card_le_card h2

theorem availableDests_go_length (g : Game) (l : List (List GameNode)) :
    ∀ (i : Nat) (flag : Bool), (availableDests.go g i l flag).length ≤ l.length := by
  induction l with
  | nil =>
      intro i flag
      simp [availableDests.go]
  | cons grp rest ih =>
      intro i flag
      unfold availableDests.go
      split
      · split
        · split
          · exact Nat.le_succ_of_le (ih (i+1) flag)
          · simpa using Nat.succ_le_succ (ih (i+1) true)
        · simpa using Nat.succ_le_succ (ih (i+1) flag)
      · exact Nat.le_succ_of_le (ih (i+1) flag)

/-- On a fully-known game, `ops()` has at most (number of tubes)² entries. -/
theorem ops_length_le (g : Game) (hcu : g.contain_unknown = false) :
    g.ops.length ≤ g.groups.length * g.groups.length := by
  have hforward : g.ops = (g.groups.enum.map (fun (p : Nat × List GameNode) =>
      if p.2.length = 0 then []
      else if isGroupCompleted g.group_capacity p.2 then []
      else
        match operativeItem g.game_mode p.2 with
        | none => []
        | some opItem => destCandidates g p.1 p.2 opItem)).flatten := by
    show (if g.contain_unknown ∧ g.previous_state.isSome ∧ 0 < g.undo_count
        then _ ++ [GameOperation.undo] else _) = _
    rw [if_neg (by simp [hcu])]
  rw [hforward]
  rw [List.length_flatten]
  have hbound : ∀ x ∈ (g.groups.enum.map (fun (p : Nat × List GameNode) =>
      if p.2.length = 0 then []
      else if isGroupCompleted g.group_capacity p.2 then []
      else
        match operativeItem g.game_mode p.2 with
        | none => []
        | some opItem => destCandidates g p.1 p.2 opItem)).map List.length,
      x ≤ g.groups.length := by
    intro x hx
    rw [List.map_map, List.mem_map] at hx
    obtain ⟨⟨i, grp⟩, _, rfl⟩ := hx
    simp only [Function.comp]
    split
    · simp
    · split
      · simp
      · split
        · simp
        · refine le_trans (List.length_filterMap_le _ _) ?_
          have h1 := availableDests_go_length g g.groups 0 false
          simpa [availableDests] using h1
  have hlen2 : ((g.groups.enum.map (fun (p : Nat × List GameNode) =>
      if p.2.length = 0 then []
      else if isGroupCompleted g.group_capacity p.2 then []
      else
        match operativeItem g.game_mode p.2 with
        | none => []
        | some opItem => destCandidates g p.1 p.2 opItem)).map List.length).length
      = g.groups.length := by
    rw [List.length_map, List.length_map, List.enum_length]
  calc ((g.groups.enum.map _).map List.length).sum
      ≤ ((g.groups.enum.map (fun (p : Nat × List GameNode) =>
          if p.2.length = 0 then []
          else if isGroupCompleted g.group_capacity p.2 then []
          else
            match operativeItem g.game_mode p.2 with
            | none => []
            | some opItem => destCandidates g p.1 p.2 opItem)).map
              List.length).length * g.groups.length :=
        List.sum_le_card_nsmul _ _ hbound
    _ = g.groups.length * g.groups.length := by rw [hlen2]

/-- On a board with no hidden units, auto-completion never triggers. -/
theorem autoCompleteTarget_of_noUnknown (gs : List (List GameNode)) (cap : Nat)
    (h : unknownTotal gs = 0) : autoCompleteTarget gs cap = none := by
  unfold autoCompleteTarget
  split
  · rw [if_neg]
    rw [h]
    simp
  · rfl

/-- A tube with no hidden nodes reveals nothing. -/
theorem revealPosOf_of_noUnknown (l : List GameNode)
    (h : ∀ nd ∈ l, nd.isUnknownish = false) : revealPosOf l = none := by
  unfold revealPosOf
  cases hl : l.getLast? with
  | none => rfl
  | some nd =>
      have hmem : nd ∈ l := List.mem_of_mem_getLast? hl
      have h2 := h nd hmem
      rw [GameNode.isUnknownish] at h2
      show (if nd.node_type = GameNodeType.unknown
        then some nd.original_pos else none) = none
      rw [if_neg]
      intro hu
      rw [hu] at h2
      simp at h2

/-- A game's hidden-node total is zero when its tubes have none. -/
theorem unknownTotal_eq_zero (gs : List (List GameNode))
    (h : ∀ t ∈ gs, ∀ nd ∈ t, nd.isUnknownish = false) :
    unknownTotal gs = 0 := by
  by_contra hpos
  obtain ⟨t, ht, nd, hnd, hu⟩ := (nodeCount_pos_iff _ gs).mp
    (Nat.pos_of_ne_zero hpos)
  rw [h t ht nd hnd] at hu
  exact Bool.noConfusion hu

/-- Every legal operation on a conformant (fully-known) game succeeds and
yields a conformant game. -/
theorem conform_apply (D : Finset (GameNodeType × Option Color × Option Pos))
    (cap : Nat) (u : Int) (n : Nat) (g : Game) (op : GameOperation)
    (hop : op ∈ g.ops) (hc : Conform D cap u n g) :
    ∃ g2, g.applyOp op = some g2 ∧ Conform D cap u n g2 := by
  obtain ⟨hinv, hcu, hcap, hu, hn, hD⟩ := hc
  obtain ⟨hlen, hk, hdiv, hne, hcueq⟩ :
      (g.groups.all (fun grp => grp.length ≤ g.group_capacity)) = true ∧
      knownCountsOk g.groups g.group_capacity = true ∧
      countedTotal g.groups % g.group_capacity = 0 ∧
      noEmptyNodes g.groups = true ∧
      g.contain_unknown
        = g.groups.any (fun grp => grp.any (fun nd => nd.isUnknownish)) := by
    simpa [InvGame] using hinv
  have hnou : ∀ t ∈ g.groups, ∀ nd ∈ t, nd.isUnknownish = false := by
    intro t ht nd hnd
    by_contra hx
    have hx2 : nd.isUnknownish = true := by
      cases hxx : nd.isUnknownish
      · exact absurd hxx hx
      · rfl
    have : g.groups.any (fun grp => grp.any (fun nd => nd.isUnknownish)) = true :=
      List.any_eq_true.mpr ⟨t, ht, List.any_eq_true.mpr ⟨nd, hnd, hx2⟩⟩
    rw [← hcueq, hcu] at this
    exact Bool.noConfusion this
  cases op with
  | undo =>
      obtain ⟨hcut, _, _⟩ := undo_mem_ops g hop
      rw [hcu] at hcut
      exact Bool.noConfusion hcut
  | stepForward src dst =>
      obtain ⟨srcGroup, opItem, hsrc, hslen, hscomp, hopitem, hdmem, hsd, hskip, hrule⟩ :=
        (ops_forward_membership g src dst).mp hop
      obtain ⟨hdlt, hdcap⟩ := mem_availableDests g dst hdmem
      obtain ⟨dstGroup, hd⟩ : ∃ dg, g.groups[dst]? = some dg := by
        cases hcase : g.groups[dst]? with
        | none =>
            rw [List.getElem?_eq_none_iff] at hcase
            omega
        | some dg => exact ⟨dg, rfl⟩
      have hdg : dstGroupAt g dst = dstGroup := by
        rw [dstGroupAt, List.getD_eq_getElem?_getD, hd]
        rfl
      have hdglen : dstGroup.length < g.group_capacity := by
        rw [← hdg]
        exact hdcap
      have hsmem : srcGroup ∈ g.groups := List.getElem?_mem hsrc
      have hdmem' : dstGroup ∈ g.groups := List.getElem?_mem hd
      have hsnonnil : srcGroup ≠ [] := by
        intro h0
        rw [h0] at hslen
        exact hslen rfl
      obtain ⟨n0, hn0⟩ := List.exists_mem_of_ne_nil srcGroup hsnonnil
      have hcap0 := cap_pos_of_mem g srcGroup n0 hsmem hn0 hlen
      have hmovedmem : ∀ x, (x ∈ (movedPair g.game_mode g.group_capacity opItem
          srcGroup dstGroup).1 ∨ x ∈ (movedPair g.game_mode g.group_capacity opItem
          srcGroup dstGroup).2) → x ∈ srcGroup ∨ x ∈ dstGroup := by
        intro x hx
        have h1 := (movedPair_perm g.game_mode g.group_capacity opItem
          srcGroup dstGroup).mem_iff.mp (List.mem_append.mpr hx)
        exact List.mem_append.mp h1
      have hm1nou : ∀ x ∈ (movedPair g.game_mode g.group_capacity opItem
          srcGroup dstGroup).1, x.isUnknownish = false := by
        intro x hx
        rcases hmovedmem x (Or.inl hx) with h1 | h1
        · exact hnou srcGroup hsmem x h1
        · exact hnou dstGroup hdmem' x h1
      have hrp : revealPosOf (movedPair g.game_mode g.group_capacity opItem
          srcGroup dstGroup).1 = none := revealPosOf_of_noUnknown _ hm1nou
      have hrt : revealTop (movedPair g.game_mode g.group_capacity opItem
          srcGroup dstGroup).1 = (movedPair g.game_mode g.group_capacity opItem
          srcGroup dstGroup).1 := by
        unfold revealTop
        rw [hrp]
      have hcnt : ∀ (pb : GameNode → Bool), revealStable pb →
          nodeCount pb ((g.groups.set src
            (revealTop (movedPair g.game_mode g.group_capacity opItem
              srcGroup dstGroup).1)).set dst
            (movedPair g.game_mode g.group_capacity opItem srcGroup dstGroup).2)
          = nodeCount pb g.groups :=
        fun pb hpb => move_nodeCount g src dst srcGroup dstGroup hsd hsrc hd opItem pb hpb
      have hneNG := noEmpty_move g src dst srcGroup dstGroup opItem hne hsrc hd
      have hmemNG : ∀ t ∈ ((g.groups.set src
          (revealTop (movedPair g.game_mode g.group_capacity opItem
            srcGroup dstGroup).1)).set dst
          (movedPair g.game_mode g.group_capacity opItem srcGroup dstGroup).2),
          ∀ nd ∈ t, ∃ t2 ∈ g.groups, nd ∈ t2 := by
        intro t ht nd hnd
        rcases mem_move_groups g src dst srcGroup dstGroup opItem t ht with h1 | h1 | h1
        · exact ⟨t, h1, hnd⟩
        · subst h1
          rw [hrt] at hnd
          rcases hmovedmem nd (Or.inl hnd) with h2 | h2
          · exact ⟨srcGroup, hsmem, h2⟩
          · exact ⟨dstGroup, hdmem', h2⟩
        · subst h1
          rcases hmovedmem nd (Or.inr hnd) with h2 | h2
          · exact ⟨srcGroup, hsmem, h2⟩
          · exact ⟨dstGroup, hdmem', h2⟩
      have hkNG : knownCountsOk ((g.groups.set src
          (revealTop (movedPair g.game_mode g.group_capacity opItem
            srcGroup dstGroup).1)).set dst
          (movedPair g.game_mode g.group_capacity opItem srcGroup dstGroup).2)
          g.group_capacity = true := by
        rw [knownCountsOk, List.all_eq_true]
        intro tube ht
        rw [List.all_eq_true]
        intro nd hnd
        by_cases hknown : nd.isKnown = true
        · obtain ⟨t2, ht2, hnt2⟩ := hmemNG tube ht nd hnd
          have hb := List.all_eq_true.mp (List.all_eq_true.mp hk t2 ht2) nd hnt2
          rcases (by simpa using hb : ¬ nd.isKnown = true
              ∨ knownOptColorCount g.groups nd.color ≤ g.group_capacity) with hx | hx
          · exact absurd hknown hx
          · have hEq : knownOptColorCount ((g.groups.set src
                (revealTop (movedPair g.game_mode g.group_capacity opItem
                  srcGroup dstGroup).1)).set dst
                (movedPair g.game_mode g.group_capacity opItem srcGroup dstGroup).2)
                nd.color
                = knownOptColorCount g.groups nd.color :=
              hcnt _ (knownOptPred_revealStable nd.color)
            simpa [hEq] using Or.inr hx
        · simpa using Or.inl hknown
      have hdivNG : countedTotal ((g.groups.set src
          (revealTop (movedPair g.game_mode g.group_capacity opItem
            srcGroup dstGroup).1)).set dst
          (movedPair g.game_mode g.group_capacity opItem srcGroup dstGroup).2)
          % g.group_capacity = 0 := by
        have h1 : countedTotal ((g.groups.set src
            (revealTop (movedPair g.game_mode g.group_capacity opItem
              srcGroup dstGroup).1)).set dst
            (movedPair g.game_mode g.group_capacity opItem srcGroup dstGroup).2)
            = countedTotal g.groups := hcnt _ notEmptyPred_revealStable
        rw [h1]
        exact hdiv
      have hlenNG : ∀ t ∈ ((g.groups.set src
          (revealTop (movedPair g.game_mode g.group_capacity opItem
            srcGroup dstGroup).1)).set dst
          (movedPair g.game_mode g.group_capacity opItem srcGroup dstGroup).2),
          t.length ≤ g.group_capacity := by
        intro t ht
        rcases mem_move_groups g src dst srcGroup dstGroup opItem t ht with h1 | h1 | h1
        · simpa using List.all_eq_true.mp hlen t h1
        · subst h1
          rw [revealTop_length]
          have h2 := movedPair_src_le g.game_mode g.group_capacity opItem
            srcGroup dstGroup
          have h3 : srcGroup.length ≤ g.group_capacity := by
            simpa using List.all_eq_true.mp hlen srcGroup hsmem
          omega
        · subst h1
          exact movedPair_dst_le g.game_mode g.group_capacity opItem
            srcGroup dstGroup hdglen
      have hnouNG : ∀ t ∈ ((g.groups.set src
          (revealTop (movedPair g.game_mode g.group_capacity opItem
            srcGroup dstGroup).1)).set dst
          (movedPair g.game_mode g.group_capacity opItem srcGroup dstGroup).2),
          ∀ nd ∈ t, nd.isUnknownish = false := by
        intro t ht nd hnd
        obtain ⟨t2, ht2, hnt2⟩ := hmemNG t ht nd hnd
        exact hnou t2 ht2 nd hnt2
      have hUNG : unknownTotal ((g.groups.set src
          (revealTop (movedPair g.game_mode g.group_capacity opItem
            srcGroup dstGroup).1)).set dst
          (movedPair g.game_mode g.group_capacity opItem srcGroup dstGroup).2)
          = 0 := unknownTotal_eq_zero _ hnouNG
      have hauto := autoCompleteTarget_of_noUnknown ((g.groups.set src
          (revealTop (movedPair g.game_mode g.group_capacity opItem
            srcGroup dstGroup).1)).set dst
          (movedPair g.game_mode g.group_capacity opItem srcGroup dstGroup).2)
        g.group_capacity hUNG
      have hanyNG : ((g.groups.set src
          (revealTop (movedPair g.game_mode g.group_capacity opItem
            srcGroup dstGroup).1)).set dst
          (movedPair g.game_mode g.group_capacity opItem srcGroup dstGroup).2).any
          (fun t => t.any (fun nd => nd.isUnknownish)) = false := by
        cases hca : ((g.groups.set src
            (revealTop (movedPair g.game_mode g.group_capacity opItem
              srcGroup dstGroup).1)).set dst
            (movedPair g.game_mode g.group_capacity opItem srcGroup dstGroup).2).any
            (fun t => t.any (fun nd => nd.isUnknownish)) with
        | false => rfl
        | true =>
            obtain ⟨t, ht, h2⟩ := List.any_eq_true.mp hca
            obtain ⟨nd, hnd, h3⟩ := List.any_eq_true.mp h2
            rw [hnouNG t ht nd hnd] at h3
            exact Bool.noConfusion h3
      have hmk := mkGame_eq_of_checks ((g.groups.set src
          (revealTop (movedPair g.game_mode g.group_capacity opItem
            srcGroup dstGroup).1)).set dst
          (movedPair g.game_mode g.group_capacity opItem srcGroup dstGroup).2)
        g.undo_count g.group_capacity g.game_mode hauto hneNG hkNG hcap0 hdivNG
      rw [hanyNG] at hmk
      refine ⟨(Game.mk ((g.groups.set src
          (revealTop (movedPair g.game_mode g.group_capacity opItem
            srcGroup dstGroup).1)).set dst
          (movedPair g.game_mode g.group_capacity opItem srcGroup dstGroup).2)
          g.group_capacity g.undo_count g.game_mode false none ∅
          false).withHistory (some g) g.all_revealed false, ?_, ?_⟩
      · show applyStepForward g src dst = _
        unfold applyStepForward
        rw [if_neg hsd]
        simp only [hsrc, hd, hopitem, hmk, hrp]
      · have hstep : autoCompleteStep ((g.groups.set src
            (revealTop (movedPair g.game_mode g.group_capacity opItem
              srcGroup dstGroup).1)).set dst
            (movedPair g.game_mode g.group_capacity opItem srcGroup dstGroup).2)
            g.group_capacity
            = ((g.groups.set src
            (revealTop (movedPair g.game_mode g.group_capacity opItem
              srcGroup dstGroup).1)).set dst
            (movedPair g.game_mode g.group_capacity opItem srcGroup dstGroup).2) := by
          unfold autoCompleteStep
          rw [hauto]
        have hinv2 := invGame_of_mkGame ((g.groups.set src
            (revealTop (movedPair g.game_mode g.group_capacity opItem
              srcGroup dstGroup).1)).set dst
            (movedPair g.game_mode g.group_capacity opItem srcGroup dstGroup).2)
          g.undo_count g.group_capacity g.game_mode hneNG hkNG hcap0 hdivNG hlenNG
        rw [hstep, hanyNG] at hinv2
        refine ⟨invGame_withHistory _ _ _ _ hinv2, ?_, ?_, ?_, ?_, ?_⟩
        · rw [withHistory_cu]
          rfl
        · rw [withHistory_capacity]
          exact hcap
        · rw [withHistory_undo]
          exact hu
        · rw [withHistory_groups]
          show ((g.groups.set src
            (revealTop (movedPair g.game_mode g.group_capacity opItem
              srcGroup dstGroup).1)).set dst
            (movedPair g.game_mode g.group_capacity opItem
              srcGroup dstGroup).2).length = n
          rw [List.length_set, List.length_set]
          exact hn
        · rw [withHistory_groups]
          intro t ht nd hnd
          obtain ⟨t2, ht2, hnt2⟩ := hmemNG t ht nd hnd
          exact hD t2 ht2 nd hnt2

theorem lookupKey_some_mem (d : List (Finset TubeDesc × Int))
    (k : Finset TubeDesc) (v : Int) (h : lookupKey d k = some v) : (k, v) ∈ d := by
  induction d with
  | nil => exact Option.noConfusion h
  | cons kv rest ih =>
      rcases kv with ⟨k0, u0⟩
      unfold lookupKey at h
      by_cases he : k0 = k
      · rw [if_pos he] at h
        have hv := Option.some.inj h
        subst he
        rw [← hv]
        exact List.mem_cons_self _ _
      · rw [if_neg he] at h
        exact List.mem_cons_of_mem _ (ih h)

/-- Expanding a conformant reachable state succeeds and produces
conformant reachable successors, one per op. -/
theorem pushSuccessors_ok (g0 : Game)
    (D : Finset (GameNodeType × Option Color × Option Pos))
    (cap : Nat) (u : Int) (n : Nat) (g : Game) (path : List GameOperation)
    (hg : Reaches g0 g) (hc : Conform D cap u n g) :
    ∀ (ops2 : List GameOperation) (nid : Nat), (∀ op ∈ ops2, op ∈ g.ops) →
    ∃ ss, pushSuccessors g path nid ops2 = some ss ∧
      ss.length = ops2.length ∧
      ∀ s ∈ ss, Conform D cap u n s.state_game ∧ Reaches g0 s.state_game := by
  intro ops2
  induction ops2 with
  | nil =>
      intro nid _
      exact ⟨[], rfl, rfl, by intro s hs; cases hs⟩
  | cons op rest ih =>
      intro nid hall
      obtain ⟨g2, happ, hc2⟩ := conform_apply D cap u n g op
        (hall op (List.mem_cons_self op rest)) hc
      obtain ⟨ss, hss, hlen, hprop⟩ := ih (nid + 1)
        (fun o ho => hall o (List.mem_cons_of_mem op ho))
      refine ⟨⟨g2, path ++ [op], nid⟩ :: ss, ?_, ?_, ?_⟩
      · have e1 : pushSuccessors g path nid (op :: rest)
            = (match pushSuccessors g path (nid + 1) rest with
              | none => none
              | some ss2 =>
                  some (⟨g2, path ++ [op], nid⟩ :: ss2 : List SearchState)) := by
          show (match g.applyOp op with
            | none => none
            | some g3 =>
                match pushSuccessors g path (nid + 1) rest with
                | none => none
                | some ss2 =>
                    some (⟨g3, path ++ [op], nid⟩ :: ss2 : List SearchState)) = _
          rw [happ]
        rw [e1, hss]
      · simp [hlen]
      · intro s hs
        rcases List.mem_cons.mp hs with h1 | h1
        · subst h1
          exact ⟨hc2, Reaches.tail hg
            ⟨op, hall op (List.mem_cons_self op rest), happ⟩⟩
        · exact hprop s h1

/-- Exhaustion of the search loop: when no reachable state is winning and
the frontier and discovered dict are conformant, enough fuel drains the
frontier and the loop returns `start`. -/
theorem go_exhausts (g0 : Game)
    (D : Finset (GameNodeType × Option Color × Option Pos))
    (cap : Nat) (u : Int) (n : Nat) (start : SearchState)
    (hnowin : ∀ g, Reaches g0 g → g.is_winning_state = false) :
    ∀ (fuel : Nat) (fr : List SearchState)
      (disc : List (Finset TubeDesc × Int)) (nid : Nat),
      fr.length + ((listsUpTo D cap).powerset.card - disc.length) * (n * n + 1)
        < fuel →
      (∀ s ∈ fr, Conform D cap u n s.state_game ∧ Reaches g0 s.state_game) →
      (disc.map Prod.fst).Nodup →
      (∀ kv ∈ disc, kv.2 = u ∧ kv.1 ∈ (listsUpTo D cap).powerset) →
      solveNoUnknownGo start fuel fr disc nid = some start := by
  intro fuel
  induction fuel with
  | zero =>
      intro fr disc nid hm _ _ _
      exact absurd hm (Nat.not_lt_zero _)
  | succ fuel ih =>
      intro fr disc nid hm hfr hnd hdisc
      cases fr with
      | nil => rfl
      | cons x xs =>
          rw [List.length_cons] at hm
          have hgo : solveNoUnknownGo start (fuel+1) (x :: xs) disc nid
              = (if (match lookupKey disc (popMin x xs).1.state_game.toFrozensets with
                    | some u2 => decide ((popMin x xs).1.state_game.undo_count ≤ u2)
                    | none => false) = true then
                  solveNoUnknownGo start fuel (popMin x xs).2 disc nid
                else if (popMin x xs).1.state_game.is_winning_state then
                  some (popMin x xs).1
                else
                  match pushSuccessors (popMin x xs).1.state_game
                      (popMin x xs).1.path nid ((popMin x xs).1.state_game.ops) with
                  | none => none
                  | some succs =>
                      solveNoUnknownGo start fuel ((popMin x xs).2 ++ succs)
                        (((popMin x xs).1.state_game.toFrozensets,
                          (popMin x xs).1.state_game.undo_count) :: disc)
                        (nid + succs.length)) := rfl
          rw [hgo]
          set cur := (popMin x xs).1 with hcur1
          set rest := (popMin x xs).2 with hrest1
          have hperm := popMin_perm x xs
          rw [← hcur1, ← hrest1] at hperm
          have hcur := hfr cur (hperm.subset (List.mem_cons_self cur rest))
          have hrest : ∀ s ∈ rest, Conform D cap u n s.state_game
              ∧ Reaches g0 s.state_game :=
            fun s hs => hfr s (hperm.subset (List.mem_cons_of_mem cur hs))
          have hlenr : rest.length = xs.length := by
            have h1 := hperm.length_eq
            simpa using h1
          obtain ⟨hcinv, hccu, hccap, hcundo, hclen, hcD⟩ := hcur.1
          cases hl : lookupKey disc cur.state_game.toFrozensets with
          | some u2 =>
              have hu2 : u2 = u := by
                have hmem := lookupKey_some_mem disc _ u2 hl
                exact (hdisc _ hmem).1
              have hcond : (match (some u2 : Option Int) with
                  | some u3 => decide (cur.state_game.undo_count ≤ u3)
                  | none => false) = true := by
                show decide (cur.state_game.undo_count ≤ u2) = true
                rw [hu2, hcundo]
                exact decide_eq_true (le_refl u)
              rw [if_pos hcond]
              apply ih rest disc nid ?_ hrest hnd hdisc
              omega
          | none =>
              have hcond : ¬ ((match (none : Option Int) with
                  | some u3 => decide (cur.state_game.undo_count ≤ u3)
                  | none => false) = true) := by
                show ¬ (false = true)
                simp
              rw [if_neg hcond]
              have hwin : cur.state_game.is_winning_state = false :=
                hnowin _ hcur.2
              rw [hwin]
              rw [if_neg (by simp)]
              obtain ⟨succs, hss, hsslen, hsprop⟩ :=
                pushSuccessors_ok g0 D cap u n cur.state_game cur.path
                  hcur.2 hcur.1 (cur.state_game.ops) nid (fun _ ho => ho)
              rw [hss]
              have hlenle : ∀ t ∈ cur.state_game.groups, t.length ≤ cap := by
                intro t ht
                obtain ⟨hL, _, _, _, _⟩ : (cur.state_game.groups.all
                    (fun grp => grp.length ≤ cur.state_game.group_capacity)) = true ∧
                    knownCountsOk cur.state_game.groups
                      cur.state_game.group_capacity = true ∧
                    countedTotal cur.state_game.groups
                      % cur.state_game.group_capacity = 0 ∧
                    noEmptyNodes cur.state_game.groups = true ∧
                    cur.state_game.contain_unknown = cur.state_game.groups.any
                      (fun grp => grp.any (fun nd => nd.isUnknownish)) := by
                  simpa [InvGame] using hcinv
                have h2 := List.all_eq_true.mp hL t ht
                rw [← hccap]
                simpa using h2
              have hkey : cur.state_game.toFrozensets ∈ (listsUpTo D cap).powerset :=
                toFrozensets_mem_powerset cur.state_game D cap hcD hlenle
              have hfresh : cur.state_game.toFrozensets ∉ disc.map Prod.fst := by
                intro hmem
                rw [List.mem_map] at hmem
                obtain ⟨kv, hkv, hkv2⟩ := hmem
                exact ((lookupKey_none_iff disc _).mp hl kv hkv) hkv2
              have hnd2 : (((cur.state_game.toFrozensets,
                  cur.state_game.undo_count) :: disc).map Prod.fst).Nodup := by
                rw [List.map_cons]
                exact List.nodup_cons.mpr ⟨hfresh, hnd⟩
              have hdisc2 : ∀ kv ∈ ((cur.state_game.toFrozensets,
                  cur.state_game.undo_count) :: disc),
                  kv.2 = u ∧ kv.1 ∈ (listsUpTo D cap).powerset := by
                intro kv hkv
                rcases List.mem_cons.mp hkv with h1 | h1
                · rw [h1]
                  exact ⟨hcundo, hkey⟩
                · exact hdisc kv h1
              have hfr2 : ∀ s ∈ rest ++ succs, Conform D cap u n s.state_game
                  ∧ Reaches g0 s.state_game := by
                intro s hs
                rcases List.mem_append.mp hs with h1 | h1
                · exact hrest s h1
                · exact hsprop s h1
              have hdlt : disc.length + 1 ≤ (listsUpTo D cap).powerset.card := by
                have hlen3 := nodup_mem_length_le
                  (cur.state_game.toFrozensets :: disc.map Prod.fst)
                  ((listsUpTo D cap).powerset)
                  (List.nodup_cons.mpr ⟨hfresh, hnd⟩)
                  (by
                    intro k hk
                    rcases List.mem_cons.mp hk with h1 | h1
                    · rw [h1]
                      exact hkey
                    · rw [List.mem_map] at h1
                      obtain ⟨kv, hkv, hkv2⟩ := h1
                      rw [← hkv2]
                      exact (hdisc kv hkv).2)
                simpa using hlen3
              have hopsle : succs.length ≤ n * n := by
                rw [hsslen]
                have h2 := ops_length_le cur.state_game hccu
                rw [hclen] at h2
                exact h2
              have hsplit : ((listsUpTo D cap).powerset.card - disc.length)
                    * (n * n + 1)
                  = ((listsUpTo D cap).powerset.card - (disc.length + 1))
                    * (n * n + 1) + (n * n + 1) := by
                have h1 : (listsUpTo D cap).powerset.card - disc.length
                    = ((listsUpTo D cap).powerset.card - (disc.length + 1)) + 1 := by
                  omega
                rw [h1, Nat.succ_mul]
              rw [hsplit] at hm
              apply ih (rest ++ succs) _ (nid + succs.length) ?_ hfr2 hnd2 hdisc2
              rw [List.length_append, List.length_cons]
              omega

/-- C8.  On a fully-known board (constructor invariants, no hidden nodes)
from which no winning state is reachable by legal operations,
`solve_no_unknown` terminates by exhausting its frontier — some finite
fuel suffices for the modelled loop — and returns the start SearchState
itself, whose game is not a winning state: an outcome distinguishable from
a normal solved return, which always carries a winning game. -/
theorem c8_unsolvable_returns_start (g0 : Game)
    (hinv : InvGame g0 = true) (hfk : g0.contain_unknown = false)
    (hnowin : ∀ g, Reaches g0 g → g.is_winning_state = false) :
    ∃ fuel, solve_no_unknown ⟨g0, [], 0⟩ fuel = some ⟨g0, [], 0⟩
      ∧ g0.is_winning_state = false := by
  refine ⟨(listsUpTo ((g0.groups.flatten.map descOf).toFinset)
      g0.group_capacity).powerset.card
      * (g0.groups.length * g0.groups.length + 1) + 2, ?_, hnowin g0 (Reaches.refl g0)⟩
  show solveNoUnknownGo ⟨g0, [], 0⟩ _ [⟨g0, [], 0⟩] [] 1 = some ⟨g0, [], 0⟩
  apply go_exhausts g0 ((g0.groups.flatten.map descOf).toFinset)
    g0.group_capacity g0.undo_count g0.groups.length ⟨g0, [], 0⟩ hnowin
  · simp
    omega
  · intro s hs
    rcases List.mem_cons.mp hs with h1 | h1
    · rw [h1]
      refine ⟨⟨hinv, hfk, rfl, rfl, rfl, ?_⟩, Reaches.refl g0⟩
      intro t ht nd hnd
      rw [List.mem_toFinset, List.mem_map]
      exact ⟨nd, List.mem_flatten.mpr ⟨t, ht, hnd⟩, rfl⟩
    · cases h1
  · exact List.nodup_nil
  · intro kv hkv
    cases hkv

/-- On `c8Game` no operation is available, so the only reachable state is
`c8Game` itself. -/
theorem c8Game_reaches_self (g : Game) (h : Reaches c8Game g) : g = c8Game := by
  induction h with
  | refl => rfl
  | tail h12 hstep ih =>
      obtain ⟨op, hop, _⟩ := hstep
      rw [ih] at hop
      have hz : c8Game.ops = [] := by decide
      rw [hz] at hop
      cases hop

/-- Witness for C8 at the concrete unsolvable board `c8Game`. -/
theorem c8_unsolvable_returns_start_witness :
    ∃ fuel, solve_no_unknown ⟨c8Game, [], 0⟩ fuel = some ⟨c8Game, [], 0⟩
      ∧ c8Game.is_winning_state = false :=
  c8_unsolvable_returns_start c8Game (by decide) (by decide)
    (fun g hr => by rw [c8Game_reaches_self g hr]; decide)

/-- Refined step lemma: on a conformant fully-known game, a StepForward
whose two tubes are known (src non-empty, dst strictly below capacity)
succeeds, and the successor's tubes are the two-tube update by the poured
pair; conformity and the game mode are preserved.  (The hypotheses hold in
particular whenever the op is enumerated by `ops()`, but also whenever the
two tubes merely match the tubes of a state where it was enumerated, which
is what the reordering argument needs.) -/
theorem stepForward_local (D : Finset (GameNodeType × Option Color × Option Pos))
    (cap : Nat) (u : Int) (n : Nat) (g : Game) (src dst : Nat)
    (srcGroup dstGroup : List GameNode) (opItem : GameNode)
    (hc : Conform D cap u n g)
    (hsrc : g.groups[src]? = some srcGroup)
    (hd : g.groups[dst]? = some dstGroup)
    (hsd : src ≠ dst) (hsnonnil : srcGroup ≠ [])
    (hdglen : dstGroup.length < g.group_capacity)
    (hopitem : operativeItem g.game_mode srcGroup = some opItem) :
    ∃ g2, g.applyOp (GameOperation.stepForward src dst) = some g2 ∧
      Conform D cap u n g2 ∧ g2.game_mode = g.game_mode ∧
      g2.groups = (g.groups.set src
        (movedPair g.game_mode g.group_capacity opItem srcGroup dstGroup).1).set dst
        (movedPair g.game_mode g.group_capacity opItem srcGroup dstGroup).2 := by
  obtain ⟨hinv, hcu, hcap, hu, hn, hD⟩ := hc
  obtain ⟨hlen, hk, hdiv, hne, hcueq⟩ :
      (g.groups.all (fun grp => grp.length ≤ g.group_capacity)) = true ∧
      knownCountsOk g.groups g.group_capacity = true ∧
      countedTotal g.groups % g.group_capacity = 0 ∧
      noEmptyNodes g.groups = true ∧
      g.contain_unknown
        = g.groups.any (fun grp => grp.any (fun nd => nd.isUnknownish)) := by
    simpa [InvGame] using hinv
  have hnou : ∀ t ∈ g.groups, ∀ nd ∈ t, nd.isUnknownish = false := by
    intro t ht nd hnd
    by_contra hx
    have hx2 : nd.isUnknownish = true := by
      cases hxx : nd.isUnknownish
      · exact absurd hxx hx
      · rfl
    have h3 : g.groups.any (fun grp => grp.any (fun nd => nd.isUnknownish)) = true :=
      List.any_eq_true.mpr ⟨t, ht, List.any_eq_true.mpr ⟨nd, hnd, hx2⟩⟩
    rw [← hcueq, hcu] at h3
    exact Bool.noConfusion h3
  have hsmem : srcGroup ∈ g.groups := List.getElem?_mem hsrc
  have hdmem' : dstGroup ∈ g.groups := List.getElem?_mem hd
  obtain ⟨n0, hn0⟩ := List.exists_mem_of_ne_nil srcGroup hsnonnil
  have hcap0 := cap_pos_of_mem g srcGroup n0 hsmem hn0 hlen
  have hmovedmem : ∀ x, (x ∈ (movedPair g.game_mode g.group_capacity opItem
      srcGroup dstGroup).1 ∨ x ∈ (movedPair g.game_mode g.group_capacity opItem
      srcGroup dstGroup).2) → x ∈ srcGroup ∨ x ∈ dstGroup := by
    intro x hx
    have h1 := (movedPair_perm g.game_mode g.group_capacity opItem
      srcGroup dstGroup).mem_iff.mp (List.mem_append.mpr hx)
    exact List.mem_append.mp h1
  have hm1nou : ∀ x ∈ (movedPair g.game_mode g.group_capacity opItem
      srcGroup dstGroup).1, x.isUnknownish = false := by
    intro x hx
    rcases hmovedmem x (Or.inl hx) with h1 | h1
    · exact hnou srcGroup hsmem x h1
    · exact hnou dstGroup hdmem' x h1
  have hrp : revealPosOf (movedPair g.game_mode g.group_capacity opItem
      srcGroup dstGroup).1 = none := revealPosOf_of_noUnknown _ hm1nou
  have hrt : revealTop (movedPair g.game_mode g.group_capacity opItem
      srcGroup dstGroup).1 = (movedPair g.game_mode g.group_capacity opItem
      srcGroup dstGroup).1 := by
    unfold revealTop
    rw [hrp]
  have hcnt : ∀ (pb : GameNode → Bool), revealStable pb →
      nodeCount pb ((g.groups.set src
        (revealTop (movedPair g.game_mode g.group_capacity opItem
          srcGroup dstGroup).1)).set dst
        (movedPair g.game_mode g.group_capacity opItem srcGroup dstGroup).2)
      = nodeCount pb g.groups :=
    fun pb hpb => move_nodeCount g src dst srcGroup dstGroup hsd hsrc hd opItem pb hpb
  have hneNG := noEmpty_move g src dst srcGroup dstGroup opItem hne hsrc hd
  have hmemNG : ∀ t ∈ ((g.groups.set src
      (revealTop (movedPair g.game_mode g.group_capacity opItem
        srcGroup dstGroup).1)).set dst
      (movedPair g.game_mode g.group_capacity opItem srcGroup dstGroup).2),
      ∀ nd ∈ t, ∃ t2 ∈ g.groups, nd ∈ t2 := by
    intro t ht nd hnd
    rcases mem_move_groups g src dst srcGroup dstGroup opItem t ht with h1 | h1 | h1
    · exact ⟨t, h1, hnd⟩
    · subst h1
      rw [hrt] at hnd
      rcases hmovedmem nd (Or.inl hnd) with h2 | h2
      · exact ⟨srcGroup, hsmem, h2⟩
      · exact ⟨dstGroup, hdmem', h2⟩
    · subst h1
      rcases hmovedmem nd (Or.inr hnd) with h2 | h2
      · exact ⟨srcGroup, hsmem, h2⟩
      · exact ⟨dstGroup, hdmem', h2⟩
  have hkNG : knownCountsOk ((g.groups.set src
      (revealTop (movedPair g.game_mode g.group_capacity opItem
        srcGroup dstGroup).1)).set dst
      (movedPair g.game_mode g.group_capacity opItem srcGroup dstGroup).2)
      g.group_capacity = true := by
    rw [knownCountsOk, List.all_eq_true]
    intro tube ht
    rw [List.all_eq_true]
    intro nd hnd
    by_cases hknown : nd.isKnown = true
    · obtain ⟨t2, ht2, hnt2⟩ := hmemNG tube ht nd hnd
      have hb := List.all_eq_true.mp (List.all_eq_true.mp hk t2 ht2) nd hnt2
      rcases (by simpa using hb : ¬ nd.isKnown = true
          ∨ knownOptColorCount g.groups nd.color ≤ g.group_capacity) with hx | hx
      · exact absurd hknown hx
      · have hEq : knownOptColorCount ((g.groups.set src
            (revealTop (movedPair g.game_mode g.group_capacity opItem
              srcGroup dstGroup).1)).set dst
            (movedPair g.game_mode g.group_capacity opItem srcGroup dstGroup).2)
            nd.color
            = knownOptColorCount g.groups nd.color :=
          hcnt _ (knownOptPred_revealStable nd.color)
        simpa [hEq] using Or.inr hx
    · simpa using Or.inl hknown
  have hdivNG : countedTotal ((g.groups.set src
      (revealTop (movedPair g.game_mode g.group_capacity opItem
        srcGroup dstGroup).1)).set dst
      (movedPair g.game_mode g.group_capacity opItem srcGroup dstGroup).2)
      % g.group_capacity = 0 := by
    have h1 : countedTotal ((g.groups.set src
        (revealTop (movedPair g.game_mode g.group_capacity opItem
          srcGroup dstGroup).1)).set dst
        (movedPair g.game_mode g.group_capacity opItem srcGroup dstGroup).2)
        = countedTotal g.groups := hcnt _ notEmptyPred_revealStable
    rw [h1]
    exact hdiv
  have hlenNG : ∀ t ∈ ((g.groups.set src
      (revealTop (movedPair g.game_mode g.group_capacity opItem
        srcGroup dstGroup).1)).set dst
      (movedPair g.game_mode g.group_capacity opItem srcGroup dstGroup).2),
      t.length ≤ g.group_capacity := by
    intro t ht
    rcases mem_move_groups g src dst srcGroup dstGroup opItem t ht with h1 | h1 | h1
    · simpa using List.all_eq_true.mp hlen t h1
    · subst h1
      rw [revealTop_length]
      have h2 := movedPair_src_le g.game_mode g.group_capacity opItem
        srcGroup dstGroup
      have h3 : srcGroup.length ≤ g.group_capacity := by
        simpa using List.all_eq_true.mp hlen srcGroup hsmem
      omega
    · subst h1
      exact movedPair_dst_le g.game_mode g.group_capacity opItem
        srcGroup dstGroup hdglen
  have hnouNG : ∀ t ∈ ((g.groups.set src
      (revealTop (movedPair g.game_mode g.group_capacity opItem
        srcGroup dstGroup).1)).set dst
      (movedPair g.game_mode g.group_capacity opItem srcGroup dstGroup).2),
      ∀ nd ∈ t, nd.isUnknownish = false := by
    intro t ht nd hnd
    obtain ⟨t2, ht2, hnt2⟩ := hmemNG t ht nd hnd
    exact hnou t2 ht2 nd hnt2
  have hUNG : unknownTotal ((g.groups.set src
      (revealTop (movedPair g.game_mode g.group_capacity opItem
        srcGroup dstGroup).1)).set dst
      (movedPair g.game_mode g.group_capacity opItem srcGroup dstGroup).2)
      = 0 := unknownTotal_eq_zero _ hnouNG
  have hauto := autoCompleteTarget_of_noUnknown ((g.groups.set src
      (revealTop (movedPair g.game_mode g.group_capacity opItem
        srcGroup dstGroup).1)).set dst
      (movedPair g.game_mode g.group_capacity opItem srcGroup dstGroup).2)
    g.group_capacity hUNG
  have hanyNG : ((g.groups.set src
      (revealTop (movedPair g.game_mode g.group_capacity opItem
        srcGroup dstGroup).1)).set dst
      (movedPair g.game_mode g.group_capacity opItem srcGroup dstGroup).2).any
      (fun t => t.any (fun nd => nd.isUnknownish)) = false := by
    cases hca : ((g.groups.set src
        (revealTop (movedPair g.game_mode g.group_capacity opItem
          srcGroup dstGroup).1)).set dst
        (movedPair g.game_mode g.group_capacity opItem srcGroup dstGroup).2).any
        (fun t => t.any (fun nd => nd.isUnknownish)) with
    | false => rfl
    | true =>
        obtain ⟨t, ht, h2⟩ := List.any_eq_true.mp hca
        obtain ⟨nd, hnd, h3⟩ := List.any_eq_true.mp h2
        rw [hnouNG t ht nd hnd] at h3
        exact Bool.noConfusion h3
  have hmk := mkGame_eq_of_checks ((g.groups.set src
      (revealTop (movedPair g.game_mode g.group_capacity opItem
        srcGroup dstGroup).1)).set dst
      (movedPair g.game_mode g.group_capacity opItem srcGroup dstGroup).2)
    g.undo_count g.group_capacity g.game_mode hauto hneNG hkNG hcap0 hdivNG
  rw [hanyNG] at hmk
  refine ⟨(Game.mk ((g.groups.set src
      (revealTop (movedPair g.game_mode g.group_capacity opItem
        srcGroup dstGroup).1)).set dst
      (movedPair g.game_mode g.group_capacity opItem srcGroup dstGroup).2)
      g.group_capacity g.undo_count g.game_mode false none ∅
      false).withHistory (some g) g.all_revealed false, ?_, ?_, ?_, ?_⟩
  · show applyStepForward g src dst = _
    unfold applyStepForward
    rw [if_neg hsd]
    simp only [hsrc, hd, hopitem, hmk, hrp]
  · have hstep : autoCompleteStep ((g.groups.set src
        (revealTop (movedPair g.game_mode g.group_capacity opItem
          srcGroup dstGroup).1)).set dst
        (movedPair g.game_mode g.group_capacity opItem srcGroup dstGroup).2)
        g.group_capacity
        = ((g.groups.set src
        (revealTop (movedPair g.game_mode g.group_capacity opItem
          srcGroup dstGroup).1)).set dst
        (movedPair g.game_mode g.group_capacity opItem srcGroup dstGroup).2) := by
      unfold autoCompleteStep
      rw [hauto]
    have hinv2 := invGame_of_mkGame ((g.groups.set src
        (revealTop (movedPair g.game_mode g.group_capacity opItem
          srcGroup dstGroup).1)).set dst
        (movedPair g.game_mode g.group_capacity opItem srcGroup dstGroup).2)
      g.undo_count g.group_capacity g.game_mode hneNG hkNG hcap0 hdivNG hlenNG
    rw [hstep, hanyNG] at hinv2
    refine ⟨invGame_withHistory _ _ _ _ hinv2, ?_, ?_, ?_, ?_, ?_⟩
    · rw [withHistory_cu]
      rfl
    · rw [withHistory_capacity]
      exact hcap
    · rw [withHistory_undo]
      exact hu
    · rw [withHistory_groups]
      show ((g.groups.set src
        (revealTop (movedPair g.game_mode g.group_capacity opItem
          srcGroup dstGroup).1)).set dst
        (movedPair g.game_mode g.group_capacity opItem
          srcGroup dstGroup).2).length = n
      rw [List.length_set, List.length_set]
      exact hn
    · rw [withHistory_groups]
      intro t ht nd hnd
      obtain ⟨t2, ht2, hnt2⟩ := hmemNG t ht nd hnd
      exact hD t2 ht2 nd hnt2
  · rw [withHistory_mode]
    rfl
  · rw [withHistory_groups]
    show ((g.groups.set src
      (revealTop (movedPair g.game_mode g.group_capacity opItem
        srcGroup dstGroup).1)).set dst
      (movedPair g.game_mode g.group_capacity opItem srcGroup dstGroup).2)
      = _
    rw [hrt]

theorem foldr_max_init (l : List Nat) (a : Nat) :
    l.foldr (fun i acc => max (i + 1) acc) a
      = max (l.foldr (fun i acc => max (i + 1) acc) 0) a := by
  induction l with
  | nil => simp
  | cons x l ih =>
      rw [List.foldr_cons, List.foldr_cons, ih]
      omega

theorem stage_append_one (opsL : List (Nat × Nat)) (Q : List Nat) (i t : Nat) :
    stage opsL (Q ++ [i]) t
      = if touchesB (opsL.getD i (0, 0)) t = true
        then max (stage opsL Q t) (i + 1) else stage opsL Q t := by
  unfold stage
  rw [List.filter_append, List.foldr_append]
  by_cases htc : touchesB (opsL.getD i (0, 0)) t = true
  · rw [if_pos htc]
    have h1 : List.filter (fun j => touchesB (opsL.getD j (0, 0)) t) [i] = [i] := by
      rw [List.filter_cons, List.filter_nil, if_pos htc]
    rw [h1, List.foldr_cons, List.foldr_nil]
    rw [foldr_max_init]
    omega
  · rw [if_neg htc]
    have h1 : List.filter (fun j => touchesB (opsL.getD j (0, 0)) t) [i] = [] := by
      rw [List.filter_cons, List.filter_nil, if_neg htc]
    rw [h1, List.foldr_nil]

theorem le_stage_of_mem (opsL : List (Nat × Nat)) (Q : List Nat) (j t : Nat)
    (hj : j ∈ Q) (ht : touchesB (opsL.getD j (0, 0)) t = true) :
    j + 1 ≤ stage opsL Q t := by
  unfold stage
  induction Q with
  | nil => cases hj
  | cons q Q ih =>
      rw [List.filter_cons]
      by_cases hq : touchesB (opsL.getD q (0, 0)) t = true
      · rw [if_pos hq, List.foldr_cons]
        rcases List.mem_cons.mp hj with h1 | h1
        · subst h1
          omega
        · have h2 := ih h1
          omega
      · rw [if_neg hq]
        rcases List.mem_cons.mp hj with h1 | h1
        · subst h1
          exact absurd ht hq
        · exact ih h1

theorem stage_le_of (opsL : List (Nat × Nat)) (Q : List Nat) (t m : Nat)
    (h : ∀ j ∈ Q, touchesB (opsL.getD j (0, 0)) t = true → j + 1 ≤ m) :
    stage opsL Q t ≤ m := by
  unfold stage
  induction Q with
  | nil => simp
  | cons q Q ih =>
      rw [List.filter_cons]
      have ih2 := ih (fun j hj htj => h j (List.mem_cons_of_mem q hj) htj)
      by_cases hq : touchesB (opsL.getD q (0, 0)) t = true
      · rw [if_pos hq, List.foldr_cons]
        have h1 := h q (List.mem_cons_self q Q) hq
        omega
      · rw [if_neg hq]
        exact ih2

theorem sharesTubeB_symm (a b : Nat × Nat) : sharesTubeB a b = sharesTubeB b a := by
  unfold sharesTubeB
  rw [decide_eq_decide]
  constructor
  · rintro (h | h | h | h)
    · exact Or.inl h.symm
    · exact Or.inr (Or.inr (Or.inl h.symm))
    · exact Or.inr (Or.inl h.symm)
    · exact Or.inr (Or.inr (Or.inr h.symm))
  · rintro (h | h | h | h)
    · exact Or.inl h.symm
    · exact Or.inr (Or.inr (Or.inl h.symm))
    · exact Or.inr (Or.inl h.symm)
    · exact Or.inr (Or.inr (Or.inr h.symm))

theorem shares_of_touches (a b : Nat × Nat) (t : Nat)
    (ha : touchesB a t = true) (hb : touchesB b t = true) :
    sharesTubeB a b = true := by
  unfold touchesB at ha hb
  unfold sharesTubeB
  simp only [decide_eq_true_eq] at ha hb ⊢
  rcases ha with h1 | h1 <;> rcases hb with h2 | h2
  · exact Or.inl (h1.trans h2.symm)
  · exact Or.inr (Or.inl (h1.trans h2.symm))
  · exact Or.inr (Or.inr (Or.inl (h1.trans h2.symm)))
  · exact Or.inr (Or.inr (Or.inr (h1.trans h2.symm)))

/-- Core reordering invariant: executing a tube-sharing-order-preserving
rearrangement of the remaining op indices, from a state whose every tube
sits at its per-tube stage of the original run, succeeds and leaves every
tube at its advanced stage. -/
theorem c5_exec_aux
    (D : Finset (GameNodeType × Option Color × Option Pos))
    (cap : Nat) (u : Int) (n : Nat) (mode0 : GameMode)
    (g0 : Game) (opsL : List (Nat × Nat)) (games : List Game)
    (hstruct : ∀ i, i < opsL.length → ∃ srcGroup dstGroup opItem,
        (games.getD i g0).groups[(opsL.getD i (0, 0)).1]? = some srcGroup ∧
        (games.getD i g0).groups[(opsL.getD i (0, 0)).2]? = some dstGroup ∧
        srcGroup ≠ [] ∧ dstGroup.length < cap ∧
        (opsL.getD i (0, 0)).1 ≠ (opsL.getD i (0, 0)).2 ∧
        operativeItem mode0 srcGroup = some opItem ∧
        (games.getD (i + 1) g0).groups
          = ((games.getD i g0).groups.set (opsL.getD i (0, 0)).1
              (movedPair mode0 cap opItem srcGroup dstGroup).1).set
              (opsL.getD i (0, 0)).2
              (movedPair mode0 cap opItem srcGroup dstGroup).2) :
    ∀ (todo done : List Nat) (h : Game),
      (done ++ todo).Perm (List.range opsL.length) →
      (done ++ todo).Pairwise (fun a b =>
        sharesTubeB (opsL.getD a (0, 0)) (opsL.getD b (0, 0)) = true → a < b) →
      Conform D cap u n h → h.game_mode = mode0 →
      (∀ t, h.groups[t]? = (games.getD (stage opsL done t) g0).groups[t]?) →
      ∃ hfin, applySeq h (todo.map (fun i =>
          GameOperation.stepForward (opsL.getD i (0, 0)).1 (opsL.getD i (0, 0)).2))
        = some hfin ∧ Conform D cap u n hfin ∧
        (∀ t, hfin.groups[t]? =
          (games.getD (stage opsL (done ++ todo) t) g0).groups[t]?) := by
  have hframe : ∀ (t a b : Nat), a ≤ b → b ≤ opsL.length →
      (∀ m, a ≤ m → m < b → touchesB (opsL.getD m (0, 0)) t = false) →
      (games.getD b g0).groups[t]? = (games.getD a g0).groups[t]? := by
    intro t a b
    induction b with
    | zero =>
        intro hab _ _
        interval_cases a
        rfl
    | succ b ihb =>
        intro hab hbk hno
        by_cases heq : a = b + 1
        · rw [heq]
        · have hab2 : a ≤ b := by omega
          obtain ⟨sg, dg, it, hsg, hdg, _, _, hsd, _, hgroups⟩ :=
            hstruct b (by omega)
          have htb : touchesB (opsL.getD b (0, 0)) t = false :=
            hno b (by omega) (by omega)
          rw [touchesB, decide_eq_false_iff_not] at htb
          have ht1 : (opsL.getD b (0, 0)).1 ≠ t := fun hx => htb (Or.inl hx)
          have ht2 : (opsL.getD b (0, 0)).2 ≠ t := fun hx => htb (Or.inr hx)
          have h1 : (games.getD (b + 1) g0).groups[t]?
              = (games.getD b g0).groups[t]? := by
            rw [hgroups]
            rw [List.getElem?_set_ne ht2, List.getElem?_set_ne ht1]
          rw [h1]
          exact ihb hab2 (by omega) (fun m hm1 hm2 => hno m hm1 (by omega))
  intro todo
  induction todo with
  | nil =>
      intro done h hperm hpair hch hmode htube
      refine ⟨h, rfl, hch, ?_⟩
      rw [List.append_nil]
      exact htube
  | cons i rest ih =>
      intro done h hperm hpair hch hmode htube
      have hmemiff : ∀ m, m ∈ done ++ i :: rest ↔ m < opsL.length := by
        intro m
        rw [hperm.mem_iff, List.mem_range]
      have hik : i < opsL.length := (hmemiff i).mp (by simp)
      obtain ⟨sg, dg, it, hsg, hdg, hsnn, hdlen, hsd, hit, hgroups⟩ :=
        hstruct i hik
      obtain ⟨hpairL, hpairR, hcross⟩ := List.pairwise_append.mp hpair
      have hpairC := List.pairwise_cons.mp hpairR
      have hdone_lt : ∀ m ∈ done,
          sharesTubeB (opsL.getD m (0, 0)) (opsL.getD i (0, 0)) = true → m < i :=
        fun m hm hsh => hcross m hm i (List.mem_cons_self i rest) hsh
      have hall_done : ∀ m, m < i →
          sharesTubeB (opsL.getD m (0, 0)) (opsL.getD i (0, 0)) = true →
          m ∈ done := by
        intro m hmi hsh
        have hmk2 : m < opsL.length := by omega
        rcases List.mem_append.mp ((hmemiff m).mpr hmk2) with h1 | h1
        · exact h1
        · rcases List.mem_cons.mp h1 with h2 | h2
          · omega
          · have h3 := hpairC.1 m h2 (by rw [sharesTubeB_symm]; exact hsh)
            omega
      have hstagele : ∀ t, touchesB (opsL.getD i (0, 0)) t = true →
          stage opsL done t ≤ i := by
        intro t htt
        apply stage_le_of
        intro j hj hjt
        have hsh := shares_of_touches _ _ t hjt htt
        have h2 := hdone_lt j hj hsh
        omega
      have hnomid : ∀ t, touchesB (opsL.getD i (0, 0)) t = true →
          ∀ m, stage opsL done t ≤ m → m < i →
            touchesB (opsL.getD m (0, 0)) t = false := by
        intro t htt m hm1 hm2
        cases hmt : touchesB (opsL.getD m (0, 0)) t with
        | false => rfl
        | true =>
            have hsh := shares_of_touches _ _ t hmt htt
            have hmem := hall_done m hm2 hsh
            have h2 := le_stage_of_mem opsL done m t hmem hmt
            omega
      have htubei : ∀ t, touchesB (opsL.getD i (0, 0)) t = true →
          h.groups[t]? = (games.getD i g0).groups[t]? := by
        intro t htt
        rw [htube t]
        exact (hframe t (stage opsL done t) i (hstagele t htt) (le_of_lt hik)
          (hnomid t htt)).symm
      have htouch1 : touchesB (opsL.getD i (0, 0)) (opsL.getD i (0, 0)).1 = true := by
        unfold touchesB
        simp
      have htouch2 : touchesB (opsL.getD i (0, 0)) (opsL.getD i (0, 0)).2 = true := by
        unfold touchesB
        simp
      have hsrch : h.groups[(opsL.getD i (0, 0)).1]? = some sg := by
        rw [htubei _ htouch1]
        exact hsg
      have hdsth : h.groups[(opsL.getD i (0, 0)).2]? = some dg := by
        rw [htubei _ htouch2]
        exact hdg
      have hdlen2 : dg.length < h.group_capacity := by
        rw [hch.2.2.1]
        exact hdlen
      have hit2 : operativeItem h.game_mode sg = some it := by
        rw [hmode]
        exact hit
      obtain ⟨h2, happ2, hc2, hmode2, hgroups2⟩ :=
        stepForward_local D cap u n h (opsL.getD i (0, 0)).1 (opsL.getD i (0, 0)).2
          sg dg it hch hsrch hdsth hsd hsnn hdlen2 hit2
      rw [hmode, hch.2.2.1] at hgroups2
      have happly : applySeq h ((i :: rest).map (fun j =>
          GameOperation.stepForward (opsL.getD j (0, 0)).1 (opsL.getD j (0, 0)).2))
          = applySeq h2 (rest.map (fun j =>
            GameOperation.stepForward (opsL.getD j (0, 0)).1
              (opsL.getD j (0, 0)).2)) := by
        rw [List.map_cons]
        show (match h.applyOp (GameOperation.stepForward (opsL.getD i (0, 0)).1
            (opsL.getD i (0, 0)).2) with
          | none => none
          | some gg => applySeq gg (rest.map (fun j =>
              GameOperation.stepForward (opsL.getD j (0, 0)).1
                (opsL.getD j (0, 0)).2))) = _
        rw [happ2]
      have hsrc_lt : (opsL.getD i (0, 0)).1 < h.groups.length := by
        by_contra hge
        rw [List.getElem?_eq_none_iff.mpr (by omega)] at hsrch
        exact Option.noConfusion hsrch
      have hdst_lt : (opsL.getD i (0, 0)).2 < h.groups.length := by
        by_contra hge
        rw [List.getElem?_eq_none_iff.mpr (by omega)] at hdsth
        exact Option.noConfusion hdsth
      have hsrc_lt0 : (opsL.getD i (0, 0)).1 < (games.getD i g0).groups.length := by
        by_contra hge
        rw [List.getElem?_eq_none_iff.mpr (by omega)] at hsg
        exact Option.noConfusion hsg
      have hdst_lt0 : (opsL.getD i (0, 0)).2 < (games.getD i g0).groups.length := by
        by_contra hge
        rw [List.getElem?_eq_none_iff.mpr (by omega)] at hdg
        exact Option.noConfusion hdg
      have htube2 : ∀ t, h2.groups[t]? =
          (games.getD (stage opsL (done ++ [i]) t) g0).groups[t]? := by
        intro t
        rw [stage_append_one]
        by_cases htt : touchesB (opsL.getD i (0, 0)) t = true
        · rw [if_pos htt]
          have hmax : max (stage opsL done t) (i + 1) = i + 1 := by
            have h3 := hstagele t htt
            omega
          rw [hmax]
          have htt2 : (opsL.getD i (0, 0)).1 = t ∨ (opsL.getD i (0, 0)).2 = t := by
            have htt3 := htt
            rw [touchesB] at htt3
            exact of_decide_eq_true htt3
          rcases htt2 with h1 | h1
          · rw [← h1]
            rw [hgroups2]
            rw [List.getElem?_set_ne (fun hx => hsd hx.symm)]
            rw [List.getElem?_set_eq hsrc_lt]
            rw [hgroups]
            rw [List.getElem?_set_ne (fun hx => hsd hx.symm)]
            rw [List.getElem?_set_eq hsrc_lt0]
          · rw [← h1]
            rw [hgroups2]
            rw [List.getElem?_set_eq (by rw [List.length_set]; exact hdst_lt)]
            rw [hgroups]
            rw [List.getElem?_set_eq (by rw [List.length_set]; exact hdst_lt0)]
        · rw [if_neg htt]
          have ht1 : (opsL.getD i (0, 0)).1 ≠ t := by
            intro hx
            apply htt
            rw [touchesB]
            exact decide_eq_true (Or.inl hx)
          have ht2 : (opsL.getD i (0, 0)).2 ≠ t := by
            intro hx
            apply htt
            rw [touchesB]
            exact decide_eq_true (Or.inr hx)
          rw [hgroups2, List.getElem?_set_ne ht2, List.getElem?_set_ne ht1]
          exact htube t
      have hassoc : done ++ i :: rest = (done ++ [i]) ++ rest := by
        rw [List.append_assoc]
        rfl
      rw [hassoc] at hperm hpair
      obtain ⟨hfin, happfin, hcfin, htubefin⟩ :=
        ih (done ++ [i]) h2 hperm hpair hc2 (hmode2.trans hmode) htube2
      refine ⟨hfin, ?_, hcfin, ?_⟩
      · rw [happly]
        exact happfin
      · rw [hassoc]
        exact htubefin

/-- A tube untouched by the ops between two points of the original run
keeps its content. -/
theorem c5_chain_frame
    (cap : Nat) (mode0 : GameMode)
    (g0 : Game) (opsL : List (Nat × Nat)) (games : List Game)
    (hstruct : ∀ i, i < opsL.length → ∃ srcGroup dstGroup opItem,
        (games.getD i g0).groups[(opsL.getD i (0, 0)).1]? = some srcGroup ∧
        (games.getD i g0).groups[(opsL.getD i (0, 0)).2]? = some dstGroup ∧
        srcGroup ≠ [] ∧ dstGroup.length < cap ∧
        (opsL.getD i (0, 0)).1 ≠ (opsL.getD i (0, 0)).2 ∧
        operativeItem mode0 srcGroup = some opItem ∧
        (games.getD (i + 1) g0).groups
          = ((games.getD i g0).groups.set (opsL.getD i (0, 0)).1
              (movedPair mode0 cap opItem srcGroup dstGroup).1).set
              (opsL.getD i (0, 0)).2
              (movedPair mode0 cap opItem srcGroup dstGroup).2) :
    ∀ (t a b : Nat), a ≤ b → b ≤ opsL.length →
      (∀ m, a ≤ m → m < b → touchesB (opsL.getD m (0, 0)) t = false) →
      (games.getD b g0).groups[t]? = (games.getD a g0).groups[t]? := by
  intro t a b
  induction b with
  | zero =>
      intro hab _ _
      interval_cases a
      rfl
  | succ b ihb =>
      intro hab hbk hno
      by_cases heq : a = b + 1
      · rw [heq]
      · have hab2 : a ≤ b := by omega
        obtain ⟨sg, dg, it, hsg, hdg, _, _, hsd, _, hgroups⟩ :=
          hstruct b (by omega)
        have htb : touchesB (opsL.getD b (0, 0)) t = false :=
          hno b (by omega) (by omega)
        rw [touchesB, decide_eq_false_iff_not] at htb
        have ht1 : (opsL.getD b (0, 0)).1 ≠ t := fun hx => htb (Or.inl hx)
        have ht2 : (opsL.getD b (0, 0)).2 ≠ t := fun hx => htb (Or.inr hx)
        have h1 : (games.getD (b + 1) g0).groups[t]?
            = (games.getD b g0).groups[t]? := by
          rw [hgroups]
          rw [List.getElem?_set_ne ht2, List.getElem?_set_ne ht1]
        rw [h1]
        exact ihb hab2 (by omega) (fun m hm1 hm2 => hno m hm1 (by omega))

/-- Along the original run, conformity, the game mode, and the two-tube
step structure propagate. -/
theorem c5_chain_struct
    (D : Finset (GameNodeType × Option Color × Option Pos))
    (cap : Nat) (u : Int) (n : Nat) (mode0 : GameMode)
    (g0 : Game) (opsL : List (Nat × Nat)) (games : List Game)
    (hc0 : Conform D cap u n (games.getD 0 g0))
    (hm0 : (games.getD 0 g0).game_mode = mode0)
    (hsteps : ∀ i, i < opsL.length →
        GameOperation.stepForward (opsL.getD i (0, 0)).1 (opsL.getD i (0, 0)).2
          ∈ (games.getD i g0).ops ∧
        (games.getD i g0).applyOp (GameOperation.stepForward
          (opsL.getD i (0, 0)).1 (opsL.getD i (0, 0)).2)
          = some (games.getD (i + 1) g0)) :
    (∀ i, i ≤ opsL.length → Conform D cap u n (games.getD i g0)
        ∧ (games.getD i g0).game_mode = mode0) ∧
    (∀ i, i < opsL.length → ∃ srcGroup dstGroup opItem,
        (games.getD i g0).groups[(opsL.getD i (0, 0)).1]? = some srcGroup ∧
        (games.getD i g0).groups[(opsL.getD i (0, 0)).2]? = some dstGroup ∧
        srcGroup ≠ [] ∧ dstGroup.length < cap ∧
        (opsL.getD i (0, 0)).1 ≠ (opsL.getD i (0, 0)).2 ∧
        operativeItem mode0 srcGroup = some opItem ∧
        (games.getD (i + 1) g0).groups
          = ((games.getD i g0).groups.set (opsL.getD i (0, 0)).1
              (movedPair mode0 cap opItem srcGroup dstGroup).1).set
              (opsL.getD i (0, 0)).2
              (movedPair mode0 cap opItem srcGroup dstGroup).2) := by
  have hstep_all : ∀ i, i < opsL.length →
      Conform D cap u n (games.getD i g0) →
      (games.getD i g0).game_mode = mode0 →
      Conform D cap u n (games.getD (i + 1) g0) ∧
      (games.getD (i + 1) g0).game_mode = mode0 ∧
      (∃ srcGroup dstGroup opItem,
        (games.getD i g0).groups[(opsL.getD i (0, 0)).1]? = some srcGroup ∧
        (games.getD i g0).groups[(opsL.getD i (0, 0)).2]? = some dstGroup ∧
        srcGroup ≠ [] ∧ dstGroup.length < cap ∧
        (opsL.getD i (0, 0)).1 ≠ (opsL.getD i (0, 0)).2 ∧
        operativeItem mode0 srcGroup = some opItem ∧
        (games.getD (i + 1) g0).groups
          = ((games.getD i g0).groups.set (opsL.getD i (0, 0)).1
              (movedPair mode0 cap opItem srcGroup dstGroup).1).set
              (opsL.getD i (0, 0)).2
              (movedPair mode0 cap opItem srcGroup dstGroup).2) := by
    intro i hik hci hmi
    obtain ⟨hop, happ⟩ := hsteps i hik
    obtain ⟨sg, it, hsrc, hln, hcomp, hopitem, hdmem, hsd, hskip, hrule⟩ :=
      (ops_forward_membership (games.getD i g0) (opsL.getD i (0, 0)).1
        (opsL.getD i (0, 0)).2).mp hop
    obtain ⟨hdlt, hdcap⟩ := mem_availableDests (games.getD i g0)
      (opsL.getD i (0, 0)).2 hdmem
    obtain ⟨dg, hd⟩ : ∃ dgg, (games.getD i g0).groups[(opsL.getD i (0, 0)).2]?
        = some dgg := by
      cases hcase : (games.getD i g0).groups[(opsL.getD i (0, 0)).2]? with
      | none =>
          rw [List.getElem?_eq_none_iff] at hcase
          omega
      | some dgg => exact ⟨dgg, rfl⟩
    have hdg2 : dstGroupAt (games.getD i g0) (opsL.getD i (0, 0)).2 = dg := by
      rw [dstGroupAt, List.getD_eq_getElem?_getD, hd]
      rfl
    have hdglen : dg.length < (games.getD i g0).group_capacity := by
      rw [← hdg2]
      exact hdcap
    have hsnn : sg ≠ [] := by
      intro h0
      rw [h0] at hln
      exact hln rfl
    obtain ⟨g2, happ2, hc2, hmode2, hgroups2⟩ :=
      stepForward_local D cap u n (games.getD i g0) (opsL.getD i (0, 0)).1
        (opsL.getD i (0, 0)).2 sg dg it hci hsrc hd hsd hsnn hdglen hopitem
    have hg2 : g2 = games.getD (i + 1) g0 :=
      Option.some.inj (happ2.symm.trans happ)
    rw [hg2] at hc2 hmode2 hgroups2
    rw [hmi, hci.2.2.1] at hgroups2
    refine ⟨hc2, hmode2.trans hmi, sg, dg, it, hsrc, hd, hsnn, ?_, hsd, ?_, hgroups2⟩
    · rw [← hci.2.2.1]
      exact hdglen
    · rw [← hmi]
      exact hopitem
  have hconf_all : ∀ i, i ≤ opsL.length →
      Conform D cap u n (games.getD i g0)
      ∧ (games.getD i g0).game_mode = mode0 := by
    intro i
    induction i with
    | zero => exact fun _ => ⟨hc0, hm0⟩
    | succ i ihi =>
        intro hik
        have prev := ihi (by omega)
        have hs := hstep_all i (by omega) prev.1 prev.2
        exact ⟨hs.1, hs.2.1⟩
  refine ⟨hconf_all, ?_⟩
  intro i hik
  have prev := hconf_all i (by omega)
  exact (hstep_all i hik prev.1 prev.2).2.2

/-- C5.  For a fully-known board (constructor invariants, no hidden nodes)
in NORMAL or NO_COMBO mode whose solver run
`g0 = games[0] →op_0 games[1] →op_1 … → games[k]` ends in a winning state,
every reordering of the op indices that contains each index exactly once
and preserves the original relative order of tube-sharing ops — the
property every topological order of `solution_to_graph`'s dependency DAG
has, in particular the one `priority_topo_sort` emits — yields a path of
exactly the original length, and applying it in order from the initial
Game succeeds and reaches a winning state. -/
theorem c5_reordered_path_reaches_winning
    (g0 : Game) (opsL : List (Nat × Nat)) (games : List Game) (π : List Nat)
    (hinv : InvGame g0 = true) (hfk : g0.contain_unknown = false)
    (hmode : g0.game_mode = GameMode.normal ∨ g0.game_mode = GameMode.noCombo)
    (hg0 : games.getD 0 g0 = g0)
    (hsteps : ∀ i, i < opsL.length →
        GameOperation.stepForward (opsL.getD i (0, 0)).1 (opsL.getD i (0, 0)).2
          ∈ (games.getD i g0).ops ∧
        (games.getD i g0).applyOp (GameOperation.stepForward
          (opsL.getD i (0, 0)).1 (opsL.getD i (0, 0)).2)
          = some (games.getD (i + 1) g0))
    (hwin : (games.getD opsL.length g0).is_winning_state = true)
    (hperm : π.Perm (List.range opsL.length))
    (hpair : π.Pairwise (fun a b =>
        sharesTubeB (opsL.getD a (0, 0)) (opsL.getD b (0, 0)) = true → a < b)) :
    (π.map (fun i => GameOperation.stepForward (opsL.getD i (0, 0)).1
        (opsL.getD i (0, 0)).2)).length = opsL.length ∧
    ∃ gfin, applySeq g0 (π.map (fun i => GameOperation.stepForward
        (opsL.getD i (0, 0)).1 (opsL.getD i (0, 0)).2)) = some gfin ∧
      gfin.is_winning_state = true := by
  have hc0 : Conform ((g0.groups.flatten.map descOf).toFinset) g0.group_capacity
      g0.undo_count g0.groups.length (games.getD 0 g0) := by
    rw [hg0]
    refine ⟨hinv, hfk, rfl, rfl, rfl, ?_⟩
    intro t ht nd hnd
    rw [List.mem_toFinset, List.mem_map]
    exact ⟨nd, List.mem_flatten.mpr ⟨t, ht, hnd⟩, rfl⟩
  have hcg0 := hc0
  rw [hg0] at hcg0
  have hm0 : (games.getD 0 g0).game_mode = g0.game_mode := by
    rw [hg0]
  obtain ⟨hconf, hstruct⟩ := c5_chain_struct
    ((g0.groups.flatten.map descOf).toFinset) g0.group_capacity
    g0.undo_count g0.groups.length g0.game_mode g0 opsL games hc0 hm0 hsteps
  have hperm2 : ([] ++ π).Perm (List.range opsL.length) := by
    rw [List.nil_append]
    exact hperm
  have hpair2 : ([] ++ π).Pairwise (fun a b =>
      sharesTubeB (opsL.getD a (0, 0)) (opsL.getD b (0, 0)) = true → a < b) := by
    rw [List.nil_append]
    exact hpair
  have htube0 : ∀ t, g0.groups[t]?
      = (games.getD (stage opsL [] t) g0).groups[t]? := by
    intro t
    show g0.groups[t]? = (games.getD 0 g0).groups[t]?
    rw [hg0]
  obtain ⟨hfin, happfin, hcfin, htubefin⟩ := c5_exec_aux
    ((g0.groups.flatten.map descOf).toFinset) g0.group_capacity
    g0.undo_count g0.groups.length g0.game_mode g0 opsL games hstruct
    π [] g0 hperm2 hpair2 hcg0 rfl htube0
  refine ⟨?_, hfin, happfin, ?_⟩
  · rw [List.length_map, hperm.length_eq, List.length_range]
  · have hmemk : ∀ m, m ∈ π ↔ m < opsL.length := by
      intro m
      rw [hperm.mem_iff, List.mem_range]
    have hgroupeq : hfin.groups = (games.getD opsL.length g0).groups := by
      apply List.ext_getElem?_iff.mpr
      intro t
      rw [htubefin t, List.nil_append]
      have hsle : stage opsL π t ≤ opsL.length := by
        apply stage_le_of
        intro j hj _
        have h1 := (hmemk j).mp hj
        omega
      have hnomid : ∀ m, stage opsL π t ≤ m → m < opsL.length →
          touchesB (opsL.getD m (0, 0)) t = false := by
        intro m hm1 hm2
        cases hmt : touchesB (opsL.getD m (0, 0)) t with
        | false => rfl
        | true =>
            have hmem := (hmemk m).mpr hm2
            have h1 := le_stage_of_mem opsL π m t hmem hmt
            omega
      exact (c5_chain_frame g0.group_capacity g0.game_mode g0 opsL games
        hstruct t (stage opsL π t) opsL.length hsle (le_refl _) hnomid).symm
    have hcapk : (games.getD opsL.length g0).group_capacity = g0.group_capacity :=
      (hconf opsL.length (le_refl _)).1.2.2.1
    have hwineq : hfin.is_winning_state
        = (games.getD opsL.length g0).is_winning_state := by
      unfold Game.is_winning_state
      rw [hgroupeq, hcfin.2.2.1, hcapk]
    rw [hwineq]
    exact hwin

/-- Witness for C5 at a one-move run on `c5g0`, reordered by the only
order `[0]`. -/
theorem c5_reordered_path_reaches_winning_witness :
    (([0] : List Nat).map (fun i => GameOperation.stepForward
        (([(0, 1)] : List (Nat × Nat)).getD i (0, 0)).1
        (([(0, 1)] : List (Nat × Nat)).getD i (0, 0)).2)).length
      = ([(0, 1)] : List (Nat × Nat)).length ∧
    ∃ gfin, applySeq c5g0 (([0] : List Nat).map (fun i =>
        GameOperation.stepForward
          (([(0, 1)] : List (Nat × Nat)).getD i (0, 0)).1
          (([(0, 1)] : List (Nat × Nat)).getD i (0, 0)).2)) = some gfin ∧
      gfin.is_winning_state = true :=
  c5_reordered_path_reaches_winning c5g0 [(0, 1)] [c5g0, c5g1] [0]
    (by decide) (by decide) (Or.inl rfl) rfl
    (fun i hi => by
      have hl1 : ([(0, 1)] : List (Nat × Nat)).length = 1 := rfl
      have h0 : i = 0 := by omega
      subst h0
      exact ⟨by decide, rfl⟩)
    (by decide) (by decide) (by decide)

theorem shares_common_tube (a b : Nat × Nat) (h : sharesTubeB a b = true) :
    ∃ t, touchesB a t = true ∧ touchesB b t = true := by
  rw [sharesTubeB] at h
  have h2 := of_decide_eq_true h
  rcases h2 with h1 | h1 | h1 | h1
  · exact ⟨a.1, by rw [touchesB]; exact decide_eq_true (Or.inl rfl),
      by rw [touchesB]; exact decide_eq_true (Or.inl h1.symm)⟩
  · exact ⟨a.1, by rw [touchesB]; exact decide_eq_true (Or.inl rfl),
      by rw [touchesB]; exact decide_eq_true (Or.inr h1.symm)⟩
  · exact ⟨a.2, by rw [touchesB]; exact decide_eq_true (Or.inr rfl),
      by rw [touchesB]; exact decide_eq_true (Or.inl h1.symm)⟩
  · exact ⟨a.2, by rw [touchesB]; exact decide_eq_true (Or.inr rfl),
      by rw [touchesB]; exact decide_eq_true (Or.inr h1.symm)⟩

/-- An order of the op indices that contains each index once and never
places a node before one of its dependency-edge predecessors preserves
the original relative order of every tube-sharing pair: the last-touch
edges chain, per tube, every op touching it to the next. -/
theorem c5_topo_order_pairwise (opsL : List (Nat × Nat)) (π : List Nat)
    (hperm : π.Perm (List.range opsL.length))
    (hresp : π.Pairwise (fun x y => ¬ depEdge opsL y x)) :
    π.Pairwise (fun a b =>
      sharesTubeB (opsL.getD a (0, 0)) (opsL.getD b (0, 0)) = true → a < b) := by
  have hnodup : π.Nodup := hperm.nodup_iff.mpr (List.nodup_range _)
  have hmem : ∀ m, m ∈ π ↔ m < opsL.length := by
    intro m
    rw [hperm.mem_iff, List.mem_range]
  have hpos : ∀ m, m < opsL.length →
      ∃ r, r < π.length ∧ π.getD r 0 = m := by
    intro m hm
    obtain ⟨r, hr, he⟩ := List.mem_iff_getElem.mp ((hmem m).mpr hm)
    exact ⟨r, hr, by rw [List.getD_eq_getElem π 0 hr]; exact he⟩
  have hedge_before : ∀ c b, depEdge opsL c b → beforeIn π c b := by
    intro c b hedge p q hp hq hpc hqb
    have hcb : c ≠ b := by
      have := hedge.1
      omega
    have hpq : p ≠ q := by
      intro hx
      rw [hx, hqb] at hpc
      exact hcb hpc.symm
    by_contra hle
    have hqp : q < p := by omega
    have hR := List.pairwise_iff_getElem.mp hresp q p hq hp hqp
    rw [List.getD_eq_getElem π 0 hp] at hpc
    rw [List.getD_eq_getElem π 0 hq] at hqb
    rw [hpc, hqb] at hR
    exact hR hedge
  have hbefore_trans : ∀ a m b, m < opsL.length →
      beforeIn π a m → beforeIn π m b → beforeIn π a b := by
    intro a m b hm h1 h2 p q hp hq hpa hqb
    obtain ⟨r, hr, hrm⟩ := hpos m hm
    have hpr := h1 p r hp hr hpa hrm
    have hrq := h2 r q hr hq hrm hqb
    omega
  have hchain : ∀ gap a b t, b - a ≤ gap → a < b → b < opsL.length →
      touchesB (opsL.getD a (0, 0)) t = true →
      touchesB (opsL.getD b (0, 0)) t = true →
      beforeIn π a b := by
    intro gap
    induction gap with
    | zero =>
        intro a b t hgap hab _ _ _
        omega
    | succ gap ihg =>
        intro a b t hgap hab hbk hta htb
        by_cases hmid : ∃ m, a < m ∧ m < b ∧
            touchesB (opsL.getD m (0, 0)) t = true
        · obtain ⟨m, ham, hmb, htm⟩ := hmid
          have h1 := ihg a m t (by omega) ham (by omega) hta htm
          have h2 := ihg m b t (by omega) hmb hbk htm htb
          exact hbefore_trans a m b (by omega) h1 h2
        · have hedge : depEdge opsL a b := by
            refine ⟨hab, hbk, t, hta, htb, ?_, ?_⟩
            · have htb2 := htb
              rw [touchesB] at htb2
              rcases of_decide_eq_true htb2 with h1 | h1
              · exact Or.inl h1.symm
              · exact Or.inr h1.symm
            · intro m hm1 hm2
              cases hmt : touchesB (opsL.getD m (0, 0)) t with
              | false => rfl
              | true => exact absurd ⟨m, hm1, hm2, hmt⟩ hmid
          exact hedge_before a b hedge
  rw [List.pairwise_iff_getElem]
  intro p q hp hq hpq hsh
  have hxk : π[p] < opsL.length := (hmem π[p]).mp (List.getElem_mem hp)
  have hyk : π[q] < opsL.length := (hmem π[q]).mp (List.getElem_mem hq)
  have hxy : π[p] ≠ π[q] := by
    intro hx
    have := List.Nodup.getElem_inj_iff hnodup |>.mp hx
    omega
  by_contra hnlt
  have hyx : π[q] < π[p] := by omega
  obtain ⟨t, hty, htx⟩ := shares_common_tube _ _
    (by rw [sharesTubeB_symm]; exact hsh)
  have hb := hchain (π[p] - π[q]) π[q] π[p] t (le_refl _) hyx hxk hty htx
  have := hb q p hq hp (List.getD_eq_getElem π 0 hq) (List.getD_eq_getElem π 0 hp)
  omega

end WaterSort
